import Mathlib

/-!
The fd lower layer and the TCP transport strategy of genio.

A shallow embedding of `genio_ll_fd.c` and of the client half of `genio_tcp.c`.

* The stream object `struct fd_ll` is a record; every C function becomes a
  function on a `World` (the record together with the chronological trace of
  everything the function does to the outside: lock operations, OS-services
  calls, system calls, strategy hooks and user callbacks).
* A result of `none` means that the C call does not return (a null function
  pointer is called, an `assert` fails, a hook does not return, or an
  `EINTR` retry loop outlives the supplied system-call results).
* User callbacks run with arbitrary user code: the `User` decides, from the
  whole history, which API calls the callback makes before it returns and
  what it returns.
-/

namespace Genio

/-! ## Error codes (`<errno.h>`, Linux values) -/

/-- Interrupted system call. -/
def EINTR : Nat := 4
/-- Resource temporarily unavailable. -/
def EAGAIN : Nat := 11
/-- Operation would block (the same number as `EAGAIN` on Linux). -/
def EWOULDBLOCK : Nat := 11
/-- Out of memory. -/
def ENOMEM : Nat := 12
/-- Device or resource busy. -/
def EBUSY : Nat := 16
/-- Invalid argument. -/
def EINVAL : Nat := 22
/-- Broken pipe. -/
def EPIPE : Nat := 32
/-- Operation not supported. -/
def ENOTSUP : Nat := 95
/-- Connection refused. -/
def ECONNREFUSED : Nat := 111
/-- Operation now in progress. -/
def EINPROGRESS : Nat := 115

/-- Width of `unsigned int`: arithmetic on the unsigned fields is modulo this. -/
def UINT_MOD : Nat := 2 ^ 32

/-- The largest value of `int`. -/
def INT_MAX : Nat := 2 ^ 31 - 1

/-- The value `int rv` takes when the result `n` of `read(2)` or `write(2)`, an
`ssize_t`, is assigned to it: the low 32 bits, read as two's complement. -/
def to_int (n : Nat) : Int :=
  if n % UINT_MOD ≤ INT_MAX then ((n % UINT_MOD : Nat) : Int)
  else ((n % UINT_MOD : Nat) : Int) - (UINT_MOD : Int)

/-! ## Data model -/

/-- The lifecycle states, `enum fd_state`. -/
inductive fd_state
  | FD_CLOSED
  | FD_IN_OPEN
  | FD_OPEN
  | FD_IN_CLOSE
  deriving DecidableEq, Repr

open fd_state

/-- The argument of the `check_close` hook. -/
inductive close_state
  | GENIO_LL_CLOSE_STATE_START
  | GENIO_LL_CLOSE_STATE_DONE
  deriving DecidableEq, Repr

/-- What a system call hands back: a non-negative return value, or `-1` with
`errno` set. -/
inductive SysRes
  | ok (n : Nat)
  | fail (errno : Nat)
  deriving DecidableEq, Repr

/-- What `read(2)` hands back: the bytes it stored at the start of the buffer
(its return value is their number), or `-1` with `errno` set. A call that
succeeds does not set `errno`: the `errno` of `ok` is the value left there by
whatever ran before, which the code looks at when the count does not fit its
`int rv`. -/
inductive ReadRes
  | ok (data : List Nat) (errno : Nat)
  | fail (errno : Nat)
  deriving DecidableEq, Repr

/-- What `write(2)` hands back: the number of bytes it took, or `-1` with
`errno` set. A call that succeeds does not set `errno`: the `errno` of `ok` is
the value left there by whatever ran before, which the code looks at when the
count does not fit its `int rv`. -/
inductive WriteRes
  | ok (n : Nat) (errno : Nat)
  | fail (errno : Nat)
  deriving DecidableEq, Repr

/-- The upper layer's receiver, `struct genio_ll_callbacks`: each member is a
function pointer (`none` is `NULL`, `some f` names the function). -/
structure genio_ll_callbacks where
  read_callback : Option Nat
  write_callback : Option Nat
  urgent_callback : Option Nat
  deriving DecidableEq, Repr

/-- Everything observable that the code does, in the order it does it. -/
inductive Event
  | lock
  | unlock
  | set_fd_handlers (fd : Int)
  | clear_fd_handlers (fd : Int)
  | clear_fd_handlers_norpt (fd : Int)
  | set_read_handler (fd : Int) (enable : Bool)
  | set_write_handler (fd : Int) (enable : Bool)
  | set_except_handler (fd : Int) (enable : Bool)
  | run_deferred_op
  | start_timer
  | sys_write (fd : Int) (buflen : Nat)
  | sys_read (fd : Int) (size : Nat)
  | sys_recv (fd : Int)
  | sys_close (fd : Int)
  | hook_sub_open
  | hook_check_open (fd : Int)
  | hook_retry_open
  | hook_check_close (st : close_state)
  | hook_free
  | finish_free
  | read_callback (cb_data : Nat) (err : Nat) (pos : Nat) (len : Nat) (bytes : List Nat)
  | write_callback (cb_data : Nat)
  | urgent_callback (cb_data : Nat)
  | open_done (fn : Nat) (cb_data : Nat) (err : Nat) (open_data : Nat)
  | close_done (fn : Nat) (cb_data : Nat) (close_data : Nat)
  deriving DecidableEq, Repr

/-- The out-parameters of `sub_open` and `retry_open`: the two function
pointers and the descriptor slot of the stream. `H` is the handler data
together with whatever part of the kernel the strategy's system calls see. -/
structure OpenSlots (H : Type) where
  check_open : Option (H → Int → Option (Nat × H))
  retry_open : Option (H → Int → Option (Nat × H × Int))
  fd : Int

/-- The strategy vtable, `struct genio_fd_ll_ops`; `none` is a member left
`NULL`. A hook that yields `none` does not return. -/
structure genio_fd_ll_ops (H : Type) where
  sub_open : Option (H → OpenSlots H → Option (Nat × H × OpenSlots H))
  raddr_to_str : Option (H → Option Nat → List Nat → Nat → Option (Nat × Option Nat × List Nat))
  get_raddr : Option (H → List Nat → Nat → Option (Nat × List Nat × Nat))
  remote_id : Option (H → Option (Nat × Int))
  check_close : Option (H → close_state → Option (Nat × H))

/-- The stream object, `struct fd_ll`. Pointers handed in by the user
(`cb_data`, `open_data`, `close_data`) are opaque numbers; `freed` records
that `fd_finish_free` has released the object. -/
structure fd_ll (H : Type) where
  refcount : Nat
  cbs : Option genio_ll_callbacks
  cb_data : Nat
  fd : Int
  state : fd_state
  read_enabled : Bool
  write_enabled : Bool
  ops : genio_fd_ll_ops H
  handler_data : H
  check_open : Option (H → Int → Option (Nat × H))
  retry_open : Option (H → Int → Option (Nat × H × Int))
  open_done : Option Nat
  open_data : Nat
  open_err : Nat
  close_done : Option Nat
  close_data : Nat
  read_data : List Nat
  read_data_size : Nat
  read_data_len : Nat
  read_data_pos : Nat
  in_read : Bool
  deferred_op_pending : Bool
  deferred_read : Bool
  deferred_close : Bool
  freed : Bool

/-- The stream and the trace of what has been done so far. -/
structure World (H : Type) where
  fdll : fd_ll H
  trace : List Event

/-- An API call made by user code (from inside a callback or between
events). `sfh` is the value `set_fd_handlers` will return to that call. -/
inductive ApiCall
  | set_callbacks (cbs : Option genio_ll_callbacks) (cb_data : Nat)
  | open (done : Option Nat) (open_data : Nat) (sfh : Int)
  | close (done : Option Nat) (close_data : Nat)
  | set_read_callback_enable (enabled : Bool)
  | set_write_callback_enable (enabled : Bool)
  | free
  deriving DecidableEq, Repr

/-- What a user callback does: the API calls it makes, in order, and the
value it returns (only `read_callback` returns one). -/
structure CbResponse where
  calls : List ApiCall
  ret : Nat
  deriving DecidableEq, Repr

/-- User code: its reaction to a callback is a function of the history up to
and including the callback event itself. -/
abbrev User := List Event → CbResponse

variable {H : Type}

/-! ## Locking and reference counting -/

/-- Append one event to the trace. -/
def emit (e : Event) (w : World H) : World H :=
  { w with trace := w.trace ++ [e] }

/-- The C `fd_lock`. -/
def fd_lock (w : World H) : World H := emit Event.lock w

/-- The C `fd_unlock`. -/
def fd_unlock (w : World H) : World H := emit Event.unlock w

/-- The C `fd_ref`. -/
def fd_ref (w : World H) : World H :=
  { w with fdll := { w.fdll with refcount := (w.fdll.refcount + 1) % UINT_MOD } }

/-- The C `fd_lock_and_ref`. -/
def fd_lock_and_ref (w : World H) : World H :=
  let w := fd_lock w
  { w with fdll := { w.fdll with refcount := (w.fdll.refcount + 1) % UINT_MOD } }

/-- The C `fd_finish_free`: releases the lock, timer, runner and buffer, calls
the strategy's `free` and releases the object. -/
def fd_finish_free (w : World H) : World H :=
  let w := emit Event.hook_free w
  let w := emit Event.finish_free w
  { w with fdll := { w.fdll with freed := true } }

/-- The C `fd_deref_and_unlock`; the `assert` aborts on a zero count. -/
def fd_deref_and_unlock (w : World H) : Option (World H) :=
  if w.fdll.refcount = 0 then none
  else
    let count := w.fdll.refcount - 1
    let w : World H := { w with fdll := { w.fdll with refcount := count } }
    let w := fd_unlock w
    if count = 0 then some (fd_finish_free w) else some w

/-- The C `fd_set_callbacks`. -/
def fd_set_callbacks (cbs : Option genio_ll_callbacks) (cb_data : Nat) (w : World H) :
    World H :=
  { w with fdll := { w.fdll with cbs := cbs, cb_data := cb_data } }

/-- The assignment `fdll->in_read = b`. -/
def set_in_read (b : Bool) (w : World H) : World H :=
  { w with fdll := { w.fdll with in_read := b } }

/-- The assignment `fdll->deferred_read = b`. -/
def set_deferred_read (b : Bool) (w : World H) : World H :=
  { w with fdll := { w.fdll with deferred_read := b } }

/-- The assignment `fdll->fd = fd`. -/
def set_fd (fd : Int) (w : World H) : World H :=
  { w with fdll := { w.fdll with fd := fd } }

/-- The strategy's handler data after a hook has run. -/
def set_handler_data (hd : H) (w : World H) : World H :=
  { w with fdll := { w.fdll with handler_data := hd } }

/-! ## Write -/

/-- The tail of `fd_write` after the retry loop: `if (!err && rcount) *rcount = rv;`
(the store converts the `int` to `unsigned int`). -/
def fd_write_store (rv : Int) (err : Nat) (rcount : Option Nat) : Option Nat :=
  if err = 0 then rcount.map (fun _ => (rv % (UINT_MOD : Int)).toNat) else rcount

/-- The retry loop of `fd_write`: `results` are the successive results of
`write(2)`, `rcount` is the cell behind the `rcount` pointer (`none` for a
`NULL` pointer), `n` counts the calls made so far. Returns the status, the
cell afterwards and the number of `write(2)` calls. The result is kept in
`int rv`: a count that does not fit comes out negative and takes the `errno`
branch with the `errno` at hand. -/
def fd_write_loop (rcount : Option Nat) :
    List WriteRes → Nat → Option (Nat × Option Nat × Nat)
  | [], _ => none
  | WriteRes.fail e :: rest, n =>
    if e = EINTR then fd_write_loop rcount rest (n + 1)
    else if e = EWOULDBLOCK ∨ e = EAGAIN then
      some (0, fd_write_store 0 0 rcount, n + 1)
    else
      some (e, fd_write_store (-1) e rcount, n + 1)
  | WriteRes.ok count e :: rest, n =>
    let rv := to_int count
    if rv < 0 then
      if e = EINTR then fd_write_loop rcount rest (n + 1)
      else if e = EWOULDBLOCK ∨ e = EAGAIN then
        some (0, fd_write_store 0 0 rcount, n + 1)
      else
        some (e, fd_write_store rv e rcount, n + 1)
    else if rv = 0 then some (EPIPE, fd_write_store rv EPIPE rcount, n + 1)
    else some (0, fd_write_store rv 0 rcount, n + 1)

/-- The C `fd_write`: status, the `rcount` cell afterwards, and the world
with one `sys_write` event per `write(2)` call. -/
def fd_write (rcount : Option Nat) (buflen : Nat) (results : List WriteRes) (w : World H) :
    Option (Nat × Option Nat × World H) :=
  match fd_write_loop rcount results 0 with
  | none => none
  | some (err, rc, calls) =>
    some (err, rc,
      { w with trace := w.trace ++ List.replicate calls (Event.sys_write w.fdll.fd buflen) })

/-! ## Strategy delegates -/

/-- The C `fd_raddr_to_str`: calls the hook without testing it for `NULL`. -/
def fd_raddr_to_str (pos : Option Nat) (buf : List Nat) (buflen : Nat) (w : World H) :
    Option (Nat × Option Nat × List Nat) :=
  match w.fdll.ops.raddr_to_str with
  | none => none
  | some hook => hook w.fdll.handler_data pos buf buflen

/-- The C `fd_get_raddr`. -/
def fd_get_raddr (addr : List Nat) (addrlen : Nat) (w : World H) :
    Option (Nat × List Nat × Nat) :=
  match w.fdll.ops.get_raddr with
  | some hook => hook w.fdll.handler_data addr addrlen
  | none => some (ENOTSUP, addr, addrlen)

/-- The C `fd_remote_id`; `id` is the cell behind the pointer. -/
def fd_remote_id (id : Int) (w : World H) : Option (Nat × Int) :=
  match w.fdll.ops.remote_id with
  | some hook => hook w.fdll.handler_data
  | none => some (ENOTSUP, id)

/-! ## Open and close -/

/-- The C `fd_start_close`. -/
def fd_start_close (w : World H) : Option (World H) :=
  let started : Option (World H) :=
    match w.fdll.ops.check_close with
    | some check_close =>
      let w := emit (Event.hook_check_close close_state.GENIO_LL_CLOSE_STATE_START) w
      (check_close w.fdll.handler_data close_state.GENIO_LL_CLOSE_STATE_START).bind
        fun r => some { w with fdll := { w.fdll with handler_data := r.2 } }
    | none => some w
  started.bind fun w =>
    let w : World H := { w with fdll := { w.fdll with state := FD_IN_CLOSE } }
    some (emit (Event.clear_fd_handlers w.fdll.fd) w)

/-- The C `fd_setup_handlers`; `sfh` is what `set_fd_handlers` returns. -/
def fd_setup_handlers (sfh : Int) (w : World H) : Nat × World H :=
  let w := emit (Event.set_fd_handlers w.fdll.fd) w
  if sfh ≠ 0 then (ENOMEM, w) else (0, w)

/-- The C `fd_open`. -/
def fd_open (done : Option Nat) (open_data : Nat) (sfh : Int) (w : World H) :
    Option (Nat × World H) :=
  match w.fdll.ops.sub_open with
  | none => some (ENOTSUP, w)
  | some sub_open =>
    let w := fd_lock w
    let w := emit Event.hook_sub_open w
    (sub_open w.fdll.handler_data ⟨w.fdll.check_open, w.fdll.retry_open, w.fdll.fd⟩).bind
      fun r =>
        let err := r.1
        let w : World H := { w with fdll := { w.fdll with
          handler_data := r.2.1, check_open := r.2.2.check_open,
          retry_open := r.2.2.retry_open, fd := r.2.2.fd } }
        if err = EINPROGRESS ∨ err = 0 then
          let s := fd_setup_handlers sfh w
          let err2 := s.1
          let w := s.2
          if err2 ≠ 0 then
            let w := emit (Event.sys_close w.fdll.fd) w
            let w : World H := { w with fdll := { w.fdll with fd := -1 } }
            some (err2, fd_unlock w)
          else if err = EINPROGRESS then
            let w : World H := { w with fdll := { w.fdll with
              state := FD_IN_OPEN, open_done := done, open_data := open_data } }
            let w := emit (Event.set_write_handler w.fdll.fd true) w
            some (err, fd_unlock w)
          else
            let w : World H := { w with fdll := { w.fdll with state := FD_OPEN } }
            some (err, fd_unlock w)
        else
          some (err, fd_unlock w)

/-- The C `fd_close`. -/
def fd_close (done : Option Nat) (close_data : Nat) (w : World H) : Option (Nat × World H) :=
  let w := fd_lock w
  if w.fdll.state = FD_OPEN ∨ w.fdll.state = FD_IN_OPEN then
    let w : World H := { w with fdll := { w.fdll with
      close_done := done, close_data := close_data } }
    (fd_start_close w).bind fun w => some (0, fd_unlock w)
  else
    some (EBUSY, fd_unlock w)

/-- The C `fd_sched_deferred_op`. -/
def fd_sched_deferred_op (w : World H) : World H :=
  if w.fdll.deferred_op_pending = false then
    let w := fd_ref w
    let w : World H := { w with fdll := { w.fdll with deferred_op_pending := true } }
    emit Event.run_deferred_op w
  else w

/-- The C `fd_set_read_callback_enable`. -/
def fd_set_read_callback_enable (enabled : Bool) (w : World H) : World H :=
  let w := fd_lock w
  let w : World H := { w with fdll := { w.fdll with read_enabled := enabled } }
  if w.fdll.in_read = true ∨ w.fdll.state ≠ FD_OPEN ∨
      (w.fdll.read_data_len ≠ 0 ∧ enabled = false) then
    fd_unlock w
  else if w.fdll.read_data_len ≠ 0 then
    let w : World H := { w with fdll := { w.fdll with in_read := true, deferred_read := true } }
    fd_unlock (fd_sched_deferred_op w)
  else
    fd_unlock (emit (Event.set_read_handler w.fdll.fd enabled) w)

/-- The C `fd_set_write_callback_enable`. -/
def fd_set_write_callback_enable (enabled : Bool) (w : World H) : World H :=
  let w := fd_lock w
  let w : World H := { w with fdll := { w.fdll with write_enabled := enabled } }
  if w.fdll.state = FD_OPEN ∨ w.fdll.state = FD_IN_OPEN then
    fd_unlock (emit (Event.set_write_handler w.fdll.fd enabled) w)
  else
    fd_unlock w

/-- The C `fd_free`. -/
def fd_free (w : World H) : Option (World H) :=
  fd_deref_and_unlock (fd_lock w)

/-! ## User callbacks -/

/-- One API call of the user, its return value dropped. -/
def apiStep (c : ApiCall) (w : World H) : Option (World H) :=
  match c with
  | ApiCall.set_callbacks cbs cb_data => some (fd_set_callbacks cbs cb_data w)
  | ApiCall.open done open_data sfh => (fd_open done open_data sfh w).map Prod.snd
  | ApiCall.close done close_data => (fd_close done close_data w).map Prod.snd
  | ApiCall.set_read_callback_enable b => some (fd_set_read_callback_enable b w)
  | ApiCall.set_write_callback_enable b => some (fd_set_write_callback_enable b w)
  | ApiCall.free => fd_free w

/-- A sequence of API calls of the user. -/
def runCalls : List ApiCall → World H → Option (World H)
  | [], w => some w
  | c :: cs, w => (apiStep c w).bind (runCalls cs)

/-- Invoke a user callback: the call is recorded, the user code makes its API
calls and returns its value. -/
def callback (u : User) (e : Event) (w : World H) : Option (Nat × World H) :=
  let w := emit e w
  (runCalls (u w.trace).calls w).bind fun w1 => some ((u w.trace).ret, w1)

/-! ## Read delivery -/

/-- The `read_callback` invocation of `fd_deliver_read_data`: the callback
receives `cb_data`, `err`, the pointer `read_data + read_data_pos` and
`read_data_len`; the event also records the bytes that pointer and length
denote. -/
def read_cb_event (err : Nat) (w : World H) : Event :=
  Event.read_callback w.fdll.cb_data err w.fdll.read_data_pos w.fdll.read_data_len
    ((w.fdll.read_data.drop w.fdll.read_data_pos).take w.fdll.read_data_len)

/-- The C `fd_deliver_read_data`. -/
def fd_deliver_read_data (u : User) (err : Nat) (w : World H) : Option (World H) :=
  if err ≠ 0 ∨ w.fdll.read_data_len ≠ 0 then
    let w := fd_unlock w
    match w.fdll.cbs with
    | none => none
    | some cbs =>
      match cbs.read_callback with
      | none => none
      | some _ =>
        (callback u (read_cb_event err w) w).bind fun r =>
          let count := r.1 % UINT_MOD
          let w := fd_lock r.2
          if err ≠ 0 ∨ count ≥ w.fdll.read_data_len then
            some { w with fdll := { w.fdll with read_data_pos := 0, read_data_len := 0 } }
          else
            some { w with fdll := { w.fdll with
              read_data_pos := (w.fdll.read_data_pos + count) % UINT_MOD,
              read_data_len := w.fdll.read_data_len - count } }
  else some w

/-! ## Completion of open and close -/

/-- The tail of `fd_finish_open`: the `if (fdll->state == FD_OPEN)` block that
arms the handlers the user has enabled. -/
def fd_finish_open_handlers (w : World H) : World H :=
  if w.fdll.state = FD_OPEN then
    let w :=
      if w.fdll.read_enabled = true then
        emit (Event.set_except_handler w.fdll.fd true)
          (emit (Event.set_read_handler w.fdll.fd true) w)
      else w
    if w.fdll.write_enabled = true then
      emit (Event.set_write_handler w.fdll.fd true) w
    else w
  else w

/-- The C `fd_finish_open`. -/
def fd_finish_open (u : User) (err : Nat) (w : World H) : Option (World H) :=
  if err ≠ 0 then
    fd_start_close { w with fdll := { w.fdll with open_err := err } }
  else
    let w : World H := { w with fdll := { w.fdll with state := FD_OPEN } }
    let called : Option (World H) :=
      match w.fdll.open_done with
      | some open_done =>
        let w : World H := { w with fdll := { w.fdll with open_done := none } }
        let w := fd_unlock w
        (callback u (Event.open_done open_done w.fdll.cb_data 0 w.fdll.open_data) w).bind
          fun r => some (fd_lock r.2)
      | none => some w
    called.bind fun w => some (fd_finish_open_handlers w)

/-- The C `fd_finish_close`: the slot is cleared and then tested. -/
def fd_finish_close (u : User) (w : World H) : Option (World H) :=
  let w : World H := { w with fdll := { w.fdll with state := FD_CLOSED } }
  let w : World H := { w with fdll := { w.fdll with close_done := none } }
  match w.fdll.close_done with
  | some close_done =>
    let w := fd_unlock w
    (callback u (Event.close_done close_done w.fdll.cb_data w.fdll.close_data) w).bind
      fun r => some (fd_lock r.2)
  | none => some w

/-! ## The deferred-op trampoline -/

/-- The `retry:` loop of `fd_deferred_op`; `fuel` bounds the number of
rounds. -/
def fd_deferred_op_loop (u : User) : Nat → World H → Option (World H)
  | 0, _ => none
  | fuel + 1, w =>
    let delivered : Option (World H) :=
      if w.fdll.deferred_read = true then
        let w := set_deferred_read false w
        (fd_deliver_read_data u 0 w).bind fun w => some (set_in_read false w)
      else some w
    delivered.bind fun w =>
      if w.fdll.deferred_read = true then fd_deferred_op_loop u fuel w else some w

/-- The head of `fd_deferred_op`: the lock is taken and a deferred close is
finished. -/
def fd_deferred_op_close (u : User) (w : World H) : Option (World H) :=
  let w := fd_lock w
  if w.fdll.deferred_close = true then
    fd_finish_close u { w with fdll := { w.fdll with deferred_close := false } }
  else some w

/-- The tail of `fd_deferred_op` after the `retry:` loop. -/
def fd_deferred_op_finish (w : World H) : Option (World H) :=
  let w : World H := { w with fdll := { w.fdll with deferred_op_pending := false } }
  let w :=
    if w.fdll.state = FD_OPEN then
      emit (Event.set_write_handler w.fdll.fd w.fdll.write_enabled)
        (emit (Event.set_except_handler w.fdll.fd w.fdll.read_enabled)
          (emit (Event.set_read_handler w.fdll.fd w.fdll.read_enabled) w))
    else w
  fd_deref_and_unlock w

/-- The C `fd_deferred_op`. -/
def fd_deferred_op (u : User) (fuel : Nat) (w : World H) : Option (World H) :=
  (fd_deferred_op_close u w).bind fun w =>
    (fd_deferred_op_loop u fuel w).bind fd_deferred_op_finish

/-! ## Readiness handlers -/

/-- The `recv(fd, &c, 1, MSG_OOB)` loop of `fd_handle_incoming`: it goes on
until a result of 0 or a failure other than `EINTR`; one `sys_recv` event per
call. -/
def recv_oob_loop (fd : Int) : List SysRes → World H → Option (World H)
  | [], _ => none
  | SysRes.ok rv :: rest, w =>
    if rv = 0 then some (emit (Event.sys_recv fd) w)
    else recv_oob_loop fd rest (emit (Event.sys_recv fd) w)
  | SysRes.fail e :: rest, w =>
    if e ≠ EINTR then some (emit (Event.sys_recv fd) w)
    else recv_oob_loop fd rest (emit (Event.sys_recv fd) w)

/-- The bytes `read(2)` stored at the start of the read buffer. -/
def read_store (data : List Nat) (w : World H) : World H :=
  { w with fdll := { w.fdll with
    read_data := data ++ w.fdll.read_data.drop data.length } }

/-- The `retry:` loop around `read(2)` in `fd_handle_incoming`: returns the
status `err` and the world with the buffer filled; one `sys_read` event per
call. The result is kept in `int rv`: a count that does not fit comes out
negative and takes the `errno` branch with the `errno` at hand, the bytes
being in the buffer all the same. -/
def read_loop (fd : Int) : List ReadRes → World H → Option (Nat × World H)
  | [], _ => none
  | ReadRes.fail e :: rest, w =>
    let w := emit (Event.sys_read fd w.fdll.read_data_size) w
    if e = EINTR then read_loop fd rest w
    else if e = EAGAIN ∨ e = EWOULDBLOCK then some (0, w)
    else some (e, w)
  | ReadRes.ok data e :: rest, w =>
    let w := emit (Event.sys_read fd w.fdll.read_data_size) w
    let w := read_store data w
    let rv := to_int data.length
    if rv < 0 then
      if e = EINTR then read_loop fd rest w
      else if e = EAGAIN ∨ e = EWOULDBLOCK then some (0, w)
      else some (e, w)
    else if rv = 0 then some (EPIPE, w)
    else some (0, { w with fdll := { w.fdll with read_data_len := rv.toNat } })

/-- The tail of `fd_handle_incoming` from the label `out_unlock`. -/
def fd_handle_incoming_out (w : World H) : World H :=
  let w :=
    if w.fdll.state = FD_OPEN ∧ w.fdll.read_enabled = true then
      emit (Event.set_except_handler w.fdll.fd true)
        (emit (Event.set_read_handler w.fdll.fd true) w)
    else w
  fd_unlock w

/-- The head of `fd_handle_incoming`: the lock is taken and read and except
readiness are disabled. -/
def fd_handle_incoming_enter (w : World H) : World H :=
  let w := fd_lock w
  let w := emit (Event.set_read_handler w.fdll.fd false) w
  emit (Event.set_except_handler w.fdll.fd false) w

/-- The `if (urgent)` block of `fd_handle_incoming`. -/
def fd_handle_incoming_urgent (u : User) (fd : Int) (recvs : List SysRes) (w : World H) :
    Option (World H) :=
  (recv_oob_loop fd recvs w).bind fun w =>
    match w.fdll.cbs with
    | none => none
    | some cbs =>
      match cbs.urgent_callback with
      | some _ =>
        let w := fd_unlock w
        (callback u (Event.urgent_callback w.fdll.cb_data) w).bind
          fun r => some (fd_lock r.2)
      | none => some w

/-- The `if (!fdll->read_data_len)` block of `fd_handle_incoming`: the status
`err` and the world after it. -/
def fd_handle_incoming_read (fd : Int) (reads : List ReadRes) (w : World H) :
    Option (Nat × World H) :=
  if w.fdll.read_data_len = 0 then read_loop fd reads w else some (0, w)

/-- The C `fd_handle_incoming`: `fd` is the descriptor the event was reported
on, `recvs` and `reads` are the results of the successive `recv` and `read`
calls. -/
def fd_handle_incoming (u : User) (fd : Int) (urgent : Bool) (recvs : List SysRes)
    (reads : List ReadRes) (w : World H) : Option (World H) :=
  let w := fd_handle_incoming_enter w
  if w.fdll.in_read = true then some (fd_handle_incoming_out w)
  else
    let w := set_in_read true w
    let urged : Option (World H) :=
      if urgent = true then fd_handle_incoming_urgent u fd recvs w else some w
    urged.bind fun w =>
      (fd_handle_incoming_read fd reads w).bind fun r =>
        (fd_deliver_read_data u r.1 r.2).bind fun w =>
          let w := set_in_read false w
          some (fd_handle_incoming_out w)

/-- The C `fd_read_ready`. -/
def fd_read_ready (u : User) (fd : Int) (reads : List ReadRes) (w : World H) :
    Option (World H) :=
  fd_handle_incoming u fd false [] reads w

/-- The C `fd_except_ready`. -/
def fd_except_ready (u : User) (fd : Int) (recvs : List SysRes) (reads : List ReadRes)
    (w : World H) : Option (World H) :=
  fd_handle_incoming u fd true recvs reads w

/-- The connect retry inside `fd_write_ready`, entered when `check_open`
reported a failure: the old descriptor is unregistered and closed and
`retry_open` produces the next one. -/
def fd_write_ready_retry (u : User) (sfh : Int) (w : World H) : Option (World H) :=
  let w := emit (Event.clear_fd_handlers_norpt w.fdll.fd) w
  let w := emit (Event.sys_close w.fdll.fd) w
  let w := set_fd (-1) w
  match w.fdll.retry_open with
  | none => none
  | some retry_open =>
    let w := emit Event.hook_retry_open w
    (retry_open w.fdll.handler_data w.fdll.fd).bind fun r =>
      let err := r.1
      let w := set_fd r.2.2 (set_handler_data r.2.1 w)
      if err ≠ EINPROGRESS then fd_finish_open u err w
      else
        let s := fd_setup_handlers sfh w
        let err := s.1
        let w := s.2
        if err ≠ 0 then
          let w := emit (Event.sys_close w.fdll.fd) w
          let w := set_fd (-1) w
          fd_finish_open u err w
        else
          some (emit (Event.set_write_handler w.fdll.fd true) w)

/-- The `FD_IN_OPEN` branch of `fd_write_ready`, up to the `fd_unlock` that
ends it. -/
def fd_write_ready_opening (u : User) (sfh : Int) (w : World H) : Option (World H) :=
  match w.fdll.check_open with
  | none => none
  | some check_open =>
    let w := emit (Event.hook_check_open w.fdll.fd) w
    (check_open w.fdll.handler_data w.fdll.fd).bind fun c =>
      let err := c.1
      let w := set_handler_data c.2 w
      let finished : Option (World H) :=
        if err ≠ 0 then fd_write_ready_retry u sfh w else fd_finish_open u err w
      finished.bind fun w => some (fd_unlock w)

/-- The other branch of `fd_write_ready`: the user's `write_callback`. -/
def fd_write_ready_user (u : User) (w : World H) : Option (World H) :=
  let w := fd_unlock w
  match w.fdll.cbs with
  | none => none
  | some cbs =>
    match cbs.write_callback with
    | none => none
    | some _ =>
      (callback u (Event.write_callback w.fdll.cb_data) w).bind fun r =>
        let w := r.2
        let w :=
          if w.fdll.state = FD_OPEN ∧ w.fdll.write_enabled = true then
            emit (Event.set_write_handler w.fdll.fd true) w
          else w
        some (fd_lock w)

/-- The C `fd_write_ready`; `sfh` is what `set_fd_handlers` returns if the
connect retry registers a new descriptor. Both branches end in the final
`fd_unlock`. -/
def fd_write_ready (u : User) (sfh : Int) (w : World H) : Option (World H) :=
  let w := fd_lock w
  let w := emit (Event.set_write_handler w.fdll.fd false) w
  if w.fdll.state = FD_IN_OPEN then
    (fd_write_ready_opening u sfh w).bind fun w => some (fd_unlock w)
  else
    (fd_write_ready_user u w).bind fun w => some (fd_unlock w)

/-! ## Handlers cleared -/

/-- The end of `fd_finish_cleared`: the close is finished at once, or left to
the pending trampoline. -/
def fd_finish_cleared_close (u : User) (w : World H) : Option (World H) :=
  let finished : Option (World H) :=
    if w.fdll.deferred_op_pending = true then
      some { w with fdll := { w.fdll with deferred_close := true } }
    else fd_finish_close u w
  finished.bind fd_deref_and_unlock

/-- The C `fd_finish_cleared`. -/
def fd_finish_cleared (u : User) (w : World H) : Option (World H) :=
  let w := fd_lock_and_ref w
  let w := emit (Event.sys_close w.fdll.fd) w
  let w := set_fd (-1) w
  let opened : Option (World H) :=
    match w.fdll.open_done with
    | some open_done =>
      let w : World H := { w with fdll := { w.fdll with open_done := none } }
      let w := fd_unlock w
      (callback u (Event.open_done open_done w.fdll.open_data w.fdll.open_err
          w.fdll.open_data) w).bind fun r => some (fd_lock r.2)
    | none => some w
  opened.bind (fd_finish_cleared_close u)

/-- The C `fd_close_timeout`. -/
def fd_close_timeout (u : User) (w : World H) : Option (World H) :=
  match w.fdll.ops.check_close with
  | some check_close =>
    let w := emit (Event.hook_check_close close_state.GENIO_LL_CLOSE_STATE_DONE) w
    (check_close w.fdll.handler_data close_state.GENIO_LL_CLOSE_STATE_DONE).bind fun r =>
      let w := set_handler_data r.2 w
      if r.1 = EAGAIN then some (emit Event.start_timer w)
      else fd_finish_cleared u w
  | none => fd_finish_cleared u w

/-- The C `fd_cleared`. -/
def fd_cleared (u : User) (w : World H) : Option (World H) :=
  match w.fdll.ops.check_close with
  | some _ => fd_close_timeout u w
  | none => fd_finish_cleared u w

/-! ## Allocation -/

/-- The outcomes of the allocations made by `fd_genio_ll_alloc` (`true` is a
non-null result) and the value `set_fd_handlers` returns. -/
structure AllocResults where
  fdll : Bool
  close_timer : Bool
  deferred_op_runner : Bool
  lock : Bool
  read_data : Bool
  set_fd_handlers : Int

/-- The C `fd_genio_ll_alloc`; here `none` is the `NULL` return. The object
comes zeroed from `zalloc`. -/
def fd_genio_ll_alloc (a : AllocResults) (fd : Int) (ops : genio_fd_ll_ops H)
    (handler_data : H) (max_read_size : Nat) : Option (World H) :=
  if a.fdll = false then none
  else
    let fdll : fd_ll H :=
      { refcount := 1, cbs := none, cb_data := 0, fd := fd,
        state := if fd = -1 then FD_CLOSED else FD_OPEN,
        read_enabled := false, write_enabled := false, ops := ops,
        handler_data := handler_data, check_open := none, retry_open := none,
        open_done := none, open_data := 0, open_err := 0, close_done := none,
        close_data := 0, read_data := [], read_data_size := 0, read_data_len := 0,
        read_data_pos := 0, in_read := false, deferred_op_pending := false,
        deferred_read := false, deferred_close := false, freed := false }
    if a.close_timer = false then none
    else if a.deferred_op_runner = false then none
    else if a.lock = false then none
    else
      let fdll := { fdll with read_data_size := max_read_size }
      if a.read_data = false then none
      else
        let fdll := { fdll with read_data := List.replicate max_read_size 0 }
        let w : World H := { fdll := fdll, trace := [] }
        if fd ≠ -1 then
          let s := fd_setup_handlers a.set_fd_handlers w
          if s.1 ≠ 0 then none else some s.2
        else some w

/-! ## The TCP transport strategy -/

/-- One node of the resolved address list, `struct addrinfo`. -/
structure addrinfo where
  ai_family : Nat
  ai_addr : List Nat
  ai_addrlen : Nat
  deriving DecidableEq, Repr

/-- The C `struct tcp_data`. `remote` is the inline `sockaddr_storage` that
`raddr` points to; `ai` is the owned address list; the cursor `curr_ai` is the
list from the current node on, `[]` being `NULL`. -/
structure tcp_data where
  remote : List Nat
  raddrlen : Nat
  ai : List addrinfo
  curr_ai : List addrinfo
  deriving DecidableEq, Repr

/-- A system call made by the TCP strategy. -/
inductive KCall
  | socket (family : Nat)
  | fcntl (fd : Int)
  | setsockopt (fd : Int)
  | connect (fd : Int) (addr : List Nat) (addrlen : Nat)
  | getsockopt (fd : Int)
  | close (fd : Int)
  deriving DecidableEq, Repr

/-- What `getnameinfo` hands back: the numeric host and the service string,
or an error code with its `gai_strerror` text. -/
inductive NameInfo
  | ok (host : List Nat) (serv : List Nat)
  | fail (code : Nat) (text : List Nat)
  deriving DecidableEq, Repr

/-- The handler data of the TCP strategy together with the kernel it talks
to: `answers n` is the result of the `n`-th system call the strategy makes,
`next` counts the calls made, `calls` lists them. -/
structure TcpCtx where
  tdata : tcp_data
  answers : Nat → SysRes
  next : Nat
  calls : List KCall
  getnameinfo : List Nat → Nat → Nat → NameInfo

/-- Make one system call: log it and take its result. -/
def ksys (c : KCall) (h : TcpCtx) : SysRes × TcpCtx :=
  (h.answers h.next, { h with next := h.next + 1, calls := h.calls ++ [c] })

/-- The C `tcp_check_open`. For `getsockopt(fd, SOL_SOCKET, SO_ERROR, ...)` the
answer `SysRes.ok e` is a call that returned 0 and stored the pending socket
error `e` in `optval`. Only the return value of `getsockopt` is looked at, the
option value it stores is not. -/
def tcp_check_open (h : TcpCtx) (fd : Int) : Option (Nat × TcpCtx) :=
  let r := ksys (KCall.getsockopt fd) h
  match r.1 with
  | SysRes.fail e => some (e, r.2)
  | SysRes.ok _ => some (0, r.2)

/-- The C `tcp_socket_setup`. -/
def tcp_socket_setup (h : TcpCtx) (fd : Int) : Nat × TcpCtx :=
  let r := ksys (KCall.fcntl fd) h
  match r.1 with
  | SysRes.fail e => (e, r.2)
  | SysRes.ok _ =>
    let r := ksys (KCall.setsockopt fd) r.2
    match r.1 with
    | SysRes.fail e => (e, r.2)
    | SysRes.ok _ => (0, r.2)

/-- The C `memcpy(dst, src, n)` on byte lists. -/
def memcpy (dst src : List Nat) (n : Nat) : List Nat :=
  src.take n ++ dst.drop n

/-- The part of `tcp_try_open` from the label `retry` on, `a` being the node
`ai` points to and `rest` the nodes after it. Returns the status, the
context and the descriptor slot `*fd`. -/
def tcp_try_connect (new_fd : Int) (fd : Int) :
    addrinfo → List addrinfo → TcpCtx → Nat × TcpCtx × Int
  | a, rest, h =>
    let r := ksys (KCall.connect new_fd a.ai_addr a.ai_addrlen) h
    let h := r.2
    match r.1 with
    | SysRes.fail e =>
      if e = EINPROGRESS then
        (e, { h with tdata := { h.tdata with curr_ai := a :: rest } }, new_fd)
      else if e ≠ 0 then
        match rest with
        | b :: rest2 => tcp_try_connect new_fd fd b rest2 h
        | [] => (e, (ksys (KCall.close new_fd) h).2, fd)
      else
        (0, { h with tdata := { h.tdata with
          remote := memcpy h.tdata.remote a.ai_addr a.ai_addrlen,
          raddrlen := a.ai_addrlen } }, new_fd)
    | SysRes.ok _ =>
      (0, { h with tdata := { h.tdata with
        remote := memcpy h.tdata.remote a.ai_addr a.ai_addrlen,
        raddrlen := a.ai_addrlen } }, new_fd)

/-- The C `tcp_try_open`; a `NULL` cursor is dereferenced, so the call does
not return. -/
def tcp_try_open (h : TcpCtx) (fd : Int) : Option (Nat × TcpCtx × Int) :=
  match h.tdata.curr_ai with
  | [] => none
  | a :: rest =>
    let r := ksys (KCall.socket a.ai_family) h
    match r.1 with
    | SysRes.fail e =>
      -- new_fd == -1: err = errno; goto out
      if e ≠ 0 then some (e, r.2, fd) else some (0, r.2, -1)
    | SysRes.ok n =>
      let new_fd : Int := n
      let s := tcp_socket_setup r.2 new_fd
      if s.1 ≠ 0 then some (s.1, (ksys (KCall.close new_fd) s.2).2, fd)
      else some (tcp_try_connect new_fd fd a rest s.2)

/-- The C `tcp_retry_open`. -/
def tcp_retry_open (h : TcpCtx) (fd : Int) : Option (Nat × TcpCtx × Int) :=
  match h.tdata.curr_ai with
  | [] => none
  | _ :: rest => tcp_try_open { h with tdata := { h.tdata with curr_ai := rest } } fd

/-- The C `tcp_sub_open`. -/
def tcp_sub_open (h : TcpCtx) (slots : OpenSlots TcpCtx) :
    Option (Nat × TcpCtx × OpenSlots TcpCtx) :=
  (tcp_try_open { h with tdata := { h.tdata with curr_ai := h.tdata.ai } } slots.fd).bind
    fun r => some (r.1, r.2.1,
      { check_open := some tcp_check_open, retry_open := some tcp_retry_open, fd := r.2.2 })

/-- The C `tcp_get_raddr`: `addr` is the caller's buffer and `addrlen` the
cell behind the length pointer. -/
def tcp_get_raddr (h : TcpCtx) (addr : List Nat) (addrlen : Nat) :
    Option (Nat × List Nat × Nat) :=
  let addrlen := if addrlen > h.tdata.raddrlen then h.tdata.raddrlen else addrlen
  some (0, memcpy addr h.tdata.remote addrlen, addrlen)

/-- The C `strlen` on a byte list. -/
def strlen : List Nat → Nat
  | [] => 0
  | c :: cs => if c = 0 then 0 else strlen cs + 1

/-- Store `bytes` into `buf` from offset `pos` on. -/
def store_at (buf : List Nat) (pos : Nat) (bytes : List Nat) : List Nat :=
  buf.take pos ++ bytes ++ buf.drop (pos + bytes.length)

/-- The C `strncpy(dst, src, n)`: the bytes stored at `dst`. -/
def strncpy_bytes (src : List Nat) (n : Nat) : List Nat :=
  ((src.take (strlen src)) ++ List.replicate n 0).take n

/-- The C `tcp_raddr_to_str`: `epos` is the cell behind the position pointer
(`none` for `NULL`), `buf` the caller's buffer of `buflen` bytes. On a lookup
failure the message `unknown:` with the reason is stored and `EINVAL`
returned. -/
def tcp_raddr_to_str (h : TcpCtx) (epos : Option Nat) (buf : List Nat) (buflen : Nat) :
    Option (Nat × Option Nat × List Nat) :=
  let pos := epos.getD 0
  let room := (buflen + UINT_MOD - pos % UINT_MOD) % UINT_MOD
  match h.getnameinfo h.tdata.remote h.tdata.raddrlen room with
  | NameInfo.fail _ text =>
    let msg := [117, 110, 107, 110, 111, 119, 110, 58] ++ text.take (strlen text) ++ [10]
    let out := if room = 0 then [] else msg.take (room - 1) ++ [0]
    some (EINVAL, epos, store_at buf pos out)
  | NameInfo.ok host serv =>
    let buf := store_at buf pos (host.take (strlen host) ++ [0])
    let pos := pos + strlen (buf.drop pos)
    let room := (buflen + UINT_MOD - pos % UINT_MOD) % UINT_MOD
    let colon := decide (room > 2)
    let buf := if colon then store_at buf pos [58] else buf
    let pos := if colon then pos + 1 else pos
    let room := (buflen + UINT_MOD - pos % UINT_MOD) % UINT_MOD
    let buf := store_at buf pos (strncpy_bytes serv room)
    let pos := pos + strlen (buf.drop pos)
    some (0, epos.map (fun _ => pos), buf)

/-- The C `tcp_fd_ll_ops`. -/
def tcp_fd_ll_ops : genio_fd_ll_ops TcpCtx :=
  { sub_open := some tcp_sub_open,
    raddr_to_str := some tcp_raddr_to_str,
    get_raddr := some tcp_get_raddr,
    remote_id := none,
    check_close := none }

/-- The C `tcp_server_fd_ll_ops`. -/
def tcp_server_fd_ll_ops : genio_fd_ll_ops TcpCtx :=
  { sub_open := none,
    raddr_to_str := some tcp_raddr_to_str,
    get_raddr := some tcp_get_raddr,
    remote_id := none,
    check_close := none }

/-- The handler data `tcp_genio_alloc` builds: zeroed by `zalloc`, with the
duplicated address list. -/
def tcp_data_alloc (ai : List addrinfo) : tcp_data :=
  { remote := List.replicate 128 0, raddrlen := 0, ai := ai, curr_ai := [] }

/-! ## The TCP acceptor -/

/-- Everything observable that the acceptor does, in the order it does it.
The callbacks `new_connection` and `shutdown_done` record the function called
and its arguments. -/
inductive AccEvent
  | lock
  | unlock
  | open_socket
  | set_read_handler (fd : Int) (enable : Bool)
  | clear_fd_handlers (fd : Int)
  | sys_accept (fd : Int)
  | sys_close (fd : Int)
  | syslog
  | write_nofail (fd : Int)
  | tcp_free
  | ll_free
  | finish_free
  | new_connection (fn : Nat) (acceptor : Nat) (io : Nat)
  | shutdown_done (fn : Nat) (acceptor : Nat) (shutdown_data : Nat)
  deriving DecidableEq, Repr

/-- The user's receiver, `struct genio_acceptor_callbacks`. -/
structure genio_acceptor_callbacks where
  new_connection : Option Nat
  deriving DecidableEq, Repr

/-- The C `struct tcpna_data`. `acceptor` is the address of the embedded
`struct genio_acceptor`, which the callbacks receive; `cbs` and `user_data`
are its members. `acceptfds` is the array of listening descriptors (`none` is
`NULL`), `name` the duplicated name (`none` is `NULL`); `freed` records that
`tcpna_finish_free` has released the object. -/
structure tcpna_data where
  acceptor : Nat
  cbs : Option genio_acceptor_callbacks
  user_data : Nat
  name : Option (List Nat)
  max_read_size : Nat
  setup : Bool
  enabled : Bool
  in_shutdown : Bool
  refcount : Nat
  shutdown_done : Option Nat
  shutdown_data : Nat
  ai : List addrinfo
  acceptfds : Option (List Int)
  nr_acceptfds : Nat
  nr_accept_close_waiting : Nat
  freed : Bool
  deriving DecidableEq, Repr

/-- The acceptor and the trace of what has been done so far. -/
structure AccWorld where
  na : tcpna_data
  trace : List AccEvent
  deriving DecidableEq, Repr

/-- What `open_socket` hands back: the array of listening descriptors it
opened (it stores their number in `nr_acceptfds`), or `NULL` with `errno`
set. -/
inductive OpenSocketRes
  | ok (fds : List Int)
  | fail (errno : Nat)
  deriving DecidableEq, Repr

/-- An acceptor API call made by user code; `os` is what `open_socket` will
return to that call. -/
inductive AccCall
  | startup (os : OpenSocketRes)
  | shutdown (done : Option Nat) (shutdown_data : Nat)
  | set_accept_callback_enable (enabled : Bool)
  | free
  deriving DecidableEq, Repr

/-- User code of the acceptor: the API calls a callback makes before it
returns, as a function of the history up to and including the callback. -/
abbrev AccUser := List AccEvent → List AccCall

/-- Append one event to the acceptor's trace. -/
def acc_emit (e : AccEvent) (w : AccWorld) : AccWorld :=
  { w with trace := w.trace ++ [e] }

/-- The C `tcpna_lock`. -/
def tcpna_lock (w : AccWorld) : AccWorld := acc_emit AccEvent.lock w

/-- The C `tcpna_unlock`. -/
def tcpna_unlock (w : AccWorld) : AccWorld := acc_emit AccEvent.unlock w

/-- The C `tcpna_ref`. -/
def tcpna_ref (w : AccWorld) : AccWorld :=
  { w with na := { w.na with refcount := (w.na.refcount + 1) % UINT_MOD } }

/-- The C `tcpna_finish_free`. -/
def tcpna_finish_free (w : AccWorld) : AccWorld :=
  let w := acc_emit AccEvent.finish_free w
  { w with na := { w.na with freed := true } }

/-- The C `tcpna_deref_and_unlock`; the `assert` aborts on a zero count. -/
def tcpna_deref_and_unlock (w : AccWorld) : Option AccWorld :=
  if w.na.refcount = 0 then none
  else
    let count := w.na.refcount - 1
    let w : AccWorld := { w with na := { w.na with refcount := count } }
    let w := tcpna_unlock w
    if count = 0 then some (tcpna_finish_free w) else some w

/-- The descriptors `acceptfds[i].fd` for `i < nr_acceptfds`, as the loops
over the listeners read them; `none` when an index lies outside the array. -/
def listener_fds (na : tcpna_data) : Option (List Int) :=
  match na.acceptfds with
  | some l => if na.nr_acceptfds ≤ l.length then some (l.take na.nr_acceptfds) else none
  | none => if na.nr_acceptfds = 0 then some [] else none

/-- The C `tcpna_set_fd_enables`. -/
def tcpna_set_fd_enables (enable : Bool) (w : AccWorld) : Option AccWorld :=
  (listener_fds w.na).map fun fds =>
    { w with trace := w.trace ++ fds.map (fun fd => AccEvent.set_read_handler fd enable) }

/-- The C `tcpna_startup`; `os` is what `open_socket` returns. -/
def tcpna_startup (os : OpenSocketRes) (w : AccWorld) : Option (Nat × AccWorld) :=
  let w := tcpna_lock w
  if w.na.in_shutdown = true ∨ w.na.setup = true then some (EBUSY, tcpna_unlock w)
  else
    let w := acc_emit AccEvent.open_socket w
    match os with
    | OpenSocketRes.fail e =>
      some (e, tcpna_unlock { w with na := { w.na with acceptfds := none } })
    | OpenSocketRes.ok fds =>
      let w : AccWorld := { w with na := { w.na with
        acceptfds := some fds, nr_acceptfds := fds.length } }
      let w : AccWorld := { w with na := { w.na with setup := true } }
      (tcpna_set_fd_enables true w).bind fun w =>
        let w : AccWorld := { w with na := { w.na with
          enabled := true, shutdown_done := none } }
        some (0, tcpna_unlock (tcpna_ref w))

/-- The C `_tcpna_shutdown`. -/
def _tcpna_shutdown (shutdown_done : Option Nat) (shutdown_data : Nat) (w : AccWorld) :
    Option AccWorld :=
  let w : AccWorld := { w with na := { w.na with
    in_shutdown := true, shutdown_done := shutdown_done, shutdown_data := shutdown_data,
    nr_accept_close_waiting := w.na.nr_acceptfds } }
  (listener_fds w.na).map fun fds =>
    let w : AccWorld := { w with trace := w.trace ++ fds.map AccEvent.clear_fd_handlers }
    { w with na := { w.na with setup := false, enabled := false } }

/-- The C `tcpna_shutdown`. -/
def tcpna_shutdown (shutdown_done : Option Nat) (shutdown_data : Nat) (w : AccWorld) :
    Option (Nat × AccWorld) :=
  let w := tcpna_lock w
  if w.na.setup = true then
    (_tcpna_shutdown shutdown_done shutdown_data w).bind fun w => some (0, tcpna_unlock w)
  else
    some (EBUSY, tcpna_unlock w)

/-- The C `tcpna_set_accept_callback_enable`. -/
def tcpna_set_accept_callback_enable (enabled : Bool) (w : AccWorld) : Option AccWorld :=
  let w := tcpna_lock w
  if w.na.enabled ≠ enabled then
    (tcpna_set_fd_enables enabled w).bind fun w =>
      some (tcpna_unlock { w with na := { w.na with enabled := enabled } })
  else some (tcpna_unlock w)

/-- The C `tcpna_free`. -/
def tcpna_free (w : AccWorld) : Option AccWorld :=
  let w := tcpna_lock w
  let down : Option AccWorld :=
    if w.na.setup = true then _tcpna_shutdown none 0 w else some w
  down.bind tcpna_deref_and_unlock

/-- One acceptor API call of the user, its return value dropped. -/
def accStep (c : AccCall) (w : AccWorld) : Option AccWorld :=
  match c with
  | AccCall.startup os => (tcpna_startup os w).map Prod.snd
  | AccCall.shutdown done data => (tcpna_shutdown done data w).map Prod.snd
  | AccCall.set_accept_callback_enable b => tcpna_set_accept_callback_enable b w
  | AccCall.free => tcpna_free w

/-- A sequence of acceptor API calls of the user. -/
def accRunCalls : List AccCall → AccWorld → Option AccWorld
  | [], w => some w
  | c :: cs, w => (accStep c w).bind (accRunCalls cs)

/-- Invoke a user callback of the acceptor: the call is recorded and the user
code makes its API calls. -/
def acc_callback (u : AccUser) (e : AccEvent) (w : AccWorld) : Option AccWorld :=
  let w := acc_emit e w
  accRunCalls (u w.trace) w

/-- The head of `tcpna_fd_cleared`: the descriptor is closed and, under the
lock, the count of listeners still to be cleared is decremented. Returns
`num_left`. -/
def tcpna_fd_cleared_count (fd : Int) (w : AccWorld) : Nat × AccWorld :=
  let w := acc_emit (AccEvent.sys_close fd) w
  let w := tcpna_lock w
  let num_left := (w.na.nr_accept_close_waiting + UINT_MOD - 1) % UINT_MOD
  let w : AccWorld := { w with na := { w.na with nr_accept_close_waiting := num_left } }
  (num_left, tcpna_unlock w)

/-- The `if (num_left == 0)` block of `tcpna_fd_cleared`. -/
def tcpna_fd_cleared_last (u : AccUser) (w : AccWorld) : Option AccWorld :=
  let called : Option AccWorld :=
    match w.na.shutdown_done with
    | some shutdown_done =>
      acc_callback u (AccEvent.shutdown_done shutdown_done w.na.acceptor w.na.shutdown_data) w
    | none => some w
  called.bind fun w =>
    let w := tcpna_lock w
    tcpna_deref_and_unlock { w with na := { w.na with in_shutdown := false } }

/-- The C `tcpna_fd_cleared`. -/
def tcpna_fd_cleared (u : AccUser) (fd : Int) (w : AccWorld) : Option AccWorld :=
  let r := tcpna_fd_cleared_count fd w
  if r.1 = 0 then tcpna_fd_cleared_last u r.2 else some r.2

/-- The handlers-cleared events of the listeners `fds`, one after the
other. -/
def tcpna_cleared_run (u : AccUser) : List Int → AccWorld → Option AccWorld
  | [], w => some w
  | fd :: rest, w => (tcpna_fd_cleared u fd w).bind (tcpna_cleared_run u rest)

/-- What `tcpna_readhandler` meets: the result of `accept` with the peer
address it stores, whether `genio_check_tcpd_ok` refuses the peer, whether
`zalloc` gives the handler data, the kernel seen by `tcp_socket_setup`, the
allocations of `fd_genio_ll_alloc`, and the object `base_genio_server_alloc`
returns (`none` is `NULL`). -/
structure AcceptResults where
  accept : SysRes
  addr : List Nat
  addrlen : Nat
  tcpd_refused : Bool
  tdata : Bool
  kernel : Nat → SysRes
  ll : AllocResults
  io : Option Nat

/-- The C `tcpna_readhandler`: the acceptor afterwards and the stream built
around the new descriptor, if one was handed to the user. When
`fd_genio_ll_alloc` fails after its own `zalloc`, its `fd_finish_free` has
already called `ops->free(handler_data)`, which is `tcp_free(tdata)`; the
`tcp_free(tdata)` that follows here reads and frees the released block a second
time, and the call does not return. -/
def tcpna_readhandler (u : AccUser) (fd : Int) (a : AcceptResults) (w : AccWorld) :
    Option (AccWorld × Option (World TcpCtx)) :=
  let w := acc_emit (AccEvent.sys_accept fd) w
  match a.accept with
  | SysRes.fail e =>
    if e ≠ EAGAIN ∧ e ≠ EWOULDBLOCK then some (acc_emit AccEvent.syslog w, none)
    else some (w, none)
  | SysRes.ok n =>
    let new_fd : Int := n
    if a.tcpd_refused = true then
      some (acc_emit (AccEvent.sys_close new_fd) (acc_emit (AccEvent.write_nofail new_fd) w),
        none)
    else if a.tdata = false then
      some (acc_emit (AccEvent.sys_close new_fd) (acc_emit (AccEvent.write_nofail new_fd) w),
        none)
    else
      let h : TcpCtx :=
        { tdata := { remote := memcpy (List.replicate 128 0) a.addr a.addrlen,
                     raddrlen := a.addrlen, ai := [], curr_ai := [] },
          answers := a.kernel, next := 0, calls := [],
          getnameinfo := fun _ _ _ => NameInfo.fail 1 [] }
      let s := tcp_socket_setup h new_fd
      if s.1 ≠ 0 then
        some (acc_emit AccEvent.tcp_free
          (acc_emit (AccEvent.sys_close new_fd) (acc_emit AccEvent.syslog w)), none)
      else
        match fd_genio_ll_alloc a.ll new_fd tcp_server_fd_ll_ops s.2 w.na.max_read_size with
        | none =>
          if a.ll.fdll = false then
            some (acc_emit AccEvent.tcp_free
              (acc_emit (AccEvent.sys_close new_fd) (acc_emit AccEvent.syslog w)), none)
          else none
        | some ll =>
          match a.io with
          | none =>
            some (acc_emit AccEvent.tcp_free
              (acc_emit (AccEvent.sys_close new_fd)
                (acc_emit AccEvent.ll_free (acc_emit AccEvent.syslog w))), none)
          | some io =>
            match w.na.cbs with
            | none => none
            | some cbs =>
              match cbs.new_connection with
              | none => none
              | some new_connection =>
                (acc_callback u (AccEvent.new_connection new_connection w.na.acceptor io) w).bind
                  fun w => some (w, some ll)

/-- The outcomes of the four allocations of `tcp_genio_acceptor_alloc`
(`true` is a non-null result). -/
structure AccAllocResults where
  ai : Bool
  nadata : Bool
  lock : Bool
  name : Bool
  deriving DecidableEq, Repr

/-- The C `tcp_genio_acceptor_alloc`: the status and the cell behind the
`acceptor` pointer, which holds `cell` before the call; `self` is the address
`zalloc` returns. After a failed `zalloc` the code at `out_nomem` reads
`nadata->lock` through the null pointer, so the call does not return. -/
def tcp_genio_acceptor_alloc (a : AccAllocResults) (self : Nat) (name : List Nat)
    (iai : List addrinfo) (max_read_size : Nat) (cbs : Option genio_acceptor_callbacks)
    (user_data : Nat) (cell : Option AccWorld) : Option (Nat × Option AccWorld) :=
  if a.ai = false then some (ENOMEM, cell)
  else if a.nadata = false then none
  else
    let na : tcpna_data :=
      { acceptor := self, cbs := none, user_data := 0, name := none, max_read_size := 0,
        setup := false, enabled := false, in_shutdown := false, refcount := 0,
        shutdown_done := none, shutdown_data := 0, ai := [], acceptfds := none,
        nr_acceptfds := 0, nr_accept_close_waiting := 0, freed := false }
    let na := { na with refcount := (na.refcount + 1) % UINT_MOD }
    if a.lock = false then some (ENOMEM, cell)
    else if a.name = false then some (ENOMEM, cell)
    else
      let na := { na with name := some name }
      let na := { na with cbs := cbs, user_data := user_data }
      let na := { na with ai := iai, max_read_size := max_read_size }
      some (0, some { na := na, trace := [] })

/-! ## Reading traces -/

/-- User callbacks among the events. -/
def Event.is_user_callback : Event → Bool
  | Event.read_callback _ _ _ _ _ => true
  | Event.write_callback _ => true
  | Event.urgent_callback _ => true
  | Event.open_done _ _ _ _ => true
  | Event.close_done _ _ _ => true
  | _ => false

/-- The `read(2)` calls among the events. -/
def Event.is_sys_read : Event → Bool
  | Event.sys_read _ _ => true
  | _ => false

/-- The `read_callback` invocations among the events. -/
def Event.is_read_callback : Event → Bool
  | Event.read_callback _ _ _ _ _ => true
  | _ => false

/-- The user callbacks invoked after the first `n` events of the trace. -/
def callbacks_since (n : Nat) (w : World H) : List Event :=
  (w.trace.drop n).filter Event.is_user_callback

/-- The `read(2)` calls made after the first `n` events of the trace. -/
def reads_since (n : Nat) (w : World H) : List Event :=
  (w.trace.drop n).filter Event.is_sys_read

/-- The `read_callback` invocations after the first `n` events of the trace. -/
def read_callbacks_since (n : Nat) (w : World H) : List Event :=
  (w.trace.drop n).filter Event.is_read_callback

/-! ## The mutex, read off the trace -/

/-- How an event bears on the mutex of the object it belongs to. -/
inductive LockRole
  | takes
  | releases
  | user_callback
  | other
  deriving DecidableEq, Repr

/-- The role of an event of the fd lower layer. -/
def Event.lock_role : Event → LockRole
  | Event.lock => LockRole.takes
  | Event.unlock => LockRole.releases
  | Event.read_callback _ _ _ _ _ => LockRole.user_callback
  | Event.write_callback _ => LockRole.user_callback
  | Event.urgent_callback _ => LockRole.user_callback
  | Event.open_done _ _ _ _ => LockRole.user_callback
  | Event.close_done _ _ _ => LockRole.user_callback
  | _ => LockRole.other

/-- The role of an event of the acceptor. -/
def AccEvent.lock_role : AccEvent → LockRole
  | AccEvent.lock => LockRole.takes
  | AccEvent.unlock => LockRole.releases
  | AccEvent.new_connection _ _ _ => LockRole.user_callback
  | AccEvent.shutdown_done _ _ _ => LockRole.user_callback
  | _ => LockRole.other

/-- The held flag of the mutex after an event of the given role. -/
def LockRole.flag (held : Bool) : LockRole → Bool
  | LockRole.takes => true
  | LockRole.releases => false
  | _ => held

/-- The held flag after the events `t`, `held` being the flag before them. -/
def held_after {α : Type} (role : α → LockRole) (held : Bool) : List α → Bool
  | [] => held
  | e :: t => held_after role ((role e).flag held) t

/-- Every user callback among the events `t` is invoked at a point where the
mutex is not held, `held` being the flag before them. -/
def callbacks_unlocked {α : Type} (role : α → LockRole) (held : Bool) : List α → Bool
  | [] => true
  | e :: t =>
    (if role e = LockRole.user_callback then !held else true)
      && callbacks_unlocked role ((role e).flag held) t

/-- The step from the trace `t0` to the trace `t1` appends events; the mutex
is held or not before them as `h` says and afterwards as `h1` says, and every
user callback among them is invoked with the mutex not held. -/
def Unlocked {α : Type} (role : α → LockRole) (h h1 : Bool) (t0 t1 : List α) : Prop :=
  ∃ t, t1 = t0 ++ t ∧ callbacks_unlocked role h t = true ∧ held_after role h t = h1

/-- The `shutdown_done` invocations among the acceptor's events. -/
def AccEvent.is_shutdown_done : AccEvent → Bool
  | AccEvent.shutdown_done _ _ _ => true
  | _ => false

/-- The `shutdown_done` invocations after the first `n` events of the
trace. -/
def shutdown_dones_since (n : Nat) (w : AccWorld) : List AccEvent :=
  (w.trace.drop n).filter AccEvent.is_shutdown_done

/-- The step from `w` to `w1` is made of acceptor API calls: it appends
events none of which is a user callback, ends with the mutex released, and
while a shutdown is under way it leaves the shutdown alone. -/
def AccIdle (w w1 : AccWorld) : Prop :=
  (∃ t, w1.trace = w.trace ++ t
      ∧ t.filter (fun e => decide (AccEvent.lock_role e = LockRole.user_callback)) = []
      ∧ held_after AccEvent.lock_role false t = false)
  ∧ w1.na.acceptor = w.na.acceptor
  ∧ (w.na.in_shutdown = true → w.na.setup = false →
      w1.na.in_shutdown = true ∧ w1.na.setup = false
      ∧ w1.na.nr_accept_close_waiting = w.na.nr_accept_close_waiting)

/-! ## Resolution of an asynchronous open -/

/-- The events by which an open that returned `EINPROGRESS` resolves, `n`
being the length of the trace when `fd_open` was called. Until an `open_done`
has been invoked, each step delivers the write-ready event while the stream
is `FD_IN_OPEN` (`sfh` is what `set_fd_handlers` returns, should the connect
retry register a new descriptor), and the handlers-cleared event while it is
`FD_IN_CLOSE`. -/
def open_resolution (u : User) (n : Nat) : List Int → World H → Option (World H)
  | [], w => some w
  | sfh :: rest, w =>
    if callbacks_since n w ≠ [] then some w
    else if w.fdll.state = FD_IN_OPEN then
      (fd_write_ready u sfh w).bind (open_resolution u n rest)
    else if w.fdll.state = FD_IN_CLOSE then
      (fd_cleared u w).bind (open_resolution u n rest)
    else some w

/-! ## What an API call may do -/

/-- The step from `w` to `w1` appends events to the trace, none of them a user
callback or a `read(2)` call, leaves the read buffer as it is and, if a read
cycle is under way (`in_read`), leaves `in_read` and `deferred_read` alone. -/
def Quiet (w w1 : World H) : Prop :=
  w.trace <+: w1.trace
  ∧ callbacks_since w.trace.length w1 = []
  ∧ reads_since w.trace.length w1 = []
  ∧ w1.fdll.read_data = w.fdll.read_data
  ∧ w1.fdll.read_data_pos = w.fdll.read_data_pos
  ∧ w1.fdll.read_data_len = w.fdll.read_data_len
  ∧ w1.fdll.read_data_size = w.fdll.read_data_size
  ∧ (w.fdll.in_read = true →
      w1.fdll.in_read = true ∧ w1.fdll.deferred_read = w.fdll.deferred_read)

/-! ## What a step does to a pending open -/

/-- The step from `w` to `w1` appends events none of which is a user callback
and leaves the state and the open slot as they are. -/
def Keeps (w w1 : World H) : Prop :=
  (∃ t, w1.trace = w.trace ++ t ∧ t.filter Event.is_user_callback = [])
  ∧ w1.fdll.open_done = w.fdll.open_done
  ∧ w1.fdll.open_data = w.fdll.open_data
  ∧ w1.fdll.cb_data = w.fdll.cb_data
  ∧ w1.fdll.state = w.fdll.state
  ∧ w1.fdll.open_err = w.fdll.open_err

/-- The step from `w` to `w1` invokes no user callback and leaves the open of
`f` pending: the stream is still `FD_IN_OPEN`, or it is `FD_IN_CLOSE` with a
failure recorded in `open_err`. -/
def Pending (f : Nat) (w w1 : World H) : Prop :=
  (∃ t, w1.trace = w.trace ++ t ∧ t.filter Event.is_user_callback = [])
  ∧ w1.fdll.open_done = some f
  ∧ w1.fdll.open_data = w.fdll.open_data
  ∧ w1.fdll.cb_data = w.fdll.cb_data
  ∧ (w1.fdll.state = FD_IN_OPEN ∨ (w1.fdll.state = FD_IN_CLOSE ∧ w1.fdll.open_err ≠ 0))

/-- The step from `w` to `w1` invokes exactly one user callback, the event
`e`. -/
def Delivers (e : Event) (w w1 : World H) : Prop :=
  ∃ t, w1.trace = w.trace ++ t ∧ t.filter Event.is_user_callback = [e]

/-! ## The OS-services registry, read off the trace -/

/-- The effect of one event on the list of descriptors that have handlers
registered with the OS services: `set_fd_handlers` (taken to succeed) adds the
descriptor, `clear_fd_handlers` and `clear_fd_handlers_norpt` remove it. -/
def registry_step (r : List Int) : Event → List Int
  | Event.set_fd_handlers fd => if fd ∈ r then r else r ++ [fd]
  | Event.clear_fd_handlers fd => r.erase fd
  | Event.clear_fd_handlers_norpt fd => r.erase fd
  | _ => r

/-- The descriptors that have handlers registered after the events `t`. -/
def registered_fds (t : List Event) : List Int := t.foldl registry_step []

/-- The effect of one event on the read-readiness flag of descriptor `fd`: a
registration starts with every handler disabled, `set_read_handler` sets the
flag, and unregistering clears it. -/
def read_armed_step (fd : Int) (armed : Bool) : Event → Bool
  | Event.set_read_handler fd1 enable => if fd1 = fd then enable else armed
  | Event.set_fd_handlers fd1 => if fd1 = fd then false else armed
  | Event.clear_fd_handlers fd1 => if fd1 = fd then false else armed
  | Event.clear_fd_handlers_norpt fd1 => if fd1 = fd then false else armed
  | _ => armed

/-- Whether read-readiness is armed on descriptor `fd` after the events
`t`. -/
def read_armed (fd : Int) (t : List Event) : Bool :=
  t.foldl (read_armed_step fd) false

/-- The effect of one event on the except-readiness flag of descriptor `fd`,
as `read_armed_step` for read-readiness. -/
def except_armed_step (fd : Int) (armed : Bool) : Event → Bool
  | Event.set_except_handler fd1 enable => if fd1 = fd then enable else armed
  | Event.set_fd_handlers fd1 => if fd1 = fd then false else armed
  | Event.clear_fd_handlers fd1 => if fd1 = fd then false else armed
  | Event.clear_fd_handlers_norpt fd1 => if fd1 = fd then false else armed
  | _ => armed

/-- Whether except-readiness is armed on descriptor `fd` after the events
`t`. -/
def except_armed (fd : Int) (t : List Event) : Bool :=
  t.foldl (except_armed_step fd) false

/-- The mutex as a counter: the depth after the events `t`, `depth` being the
depth before them; `none` when an `unlock` meets a mutex that is not held. -/
def mutex_run (depth : Nat) : List Event → Option Nat
  | [] => some depth
  | Event.lock :: t => mutex_run (depth + 1) t
  | Event.unlock :: t => if depth = 0 then none else mutex_run (depth - 1) t
  | _ :: t => mutex_run depth t

/-- The calls that arm or disarm read-readiness, among the events. -/
def Event.is_set_read_handler : Event → Bool
  | Event.set_read_handler _ _ => true
  | _ => false

/-! ## The read-buffer invariant -/

/-- The held bytes lie inside the buffer, and an empty buffer has its read
position at the start. -/
def read_buf_inv (w : World H) : Prop :=
  w.fdll.read_data_pos + w.fdll.read_data_len ≤ w.fdll.read_data_size
  ∧ (w.fdll.read_data_len = 0 → w.fdll.read_data_pos = 0)

/-- Every successful `read(2)` among `reads` returns at most `size` bytes. -/
def reads_fit (size : Nat) (reads : List ReadRes) : Prop :=
  ∀ data e, ReadRes.ok data e ∈ reads → data.length ≤ size

/-- The `set_read_handler` calls made after the first `n` events of the
trace. -/
def arms_since (n : Nat) (w : World H) : List Event :=
  (w.trace.drop n).filter Event.is_set_read_handler

/-- The step from `w` to `w1` appends events none of which is a
`set_read_handler` call. -/
def NoArm (w w1 : World H) : Prop :=
  ∃ t, w1.trace = w.trace ++ t ∧ t.filter Event.is_set_read_handler = []

/-- The step of the stream from `w` to `w1` appends events; its mutex is held
or not before them as `h` says and afterwards as `h1` says, and every user
callback among them is invoked with the mutex not held. -/
def LockStep (h h1 : Bool) (w w1 : World H) : Prop :=
  Unlocked Event.lock_role h h1 w.trace w1.trace

/-- The same for a step of the acceptor. -/
def AccLockStep (h h1 : Bool) (w w1 : AccWorld) : Prop :=
  Unlocked AccEvent.lock_role h h1 w.trace w1.trace

/-! ## The trampoline flags -/

/-- The three trampoline flags `deferred_read`, `deferred_close` and
`deferred_op_pending`. -/
def tramp_flags (w : World H) : Bool × Bool × Bool :=
  (w.fdll.deferred_read, w.fdll.deferred_close, w.fdll.deferred_op_pending)

/-- A deferred read or a deferred close is waiting only while the trampoline
is pending. -/
def tramp_inv (w : World H) : Prop :=
  w.fdll.deferred_read = true ∨ w.fdll.deferred_close = true →
    w.fdll.deferred_op_pending = true

/-- The step from `w` to `w1` keeps the trampoline invariant. -/
def TrampStep (w w1 : World H) : Prop :=
  tramp_inv w → tramp_inv w1

/-! ## Example streams -/

/-- A strategy that provides no hook at all. -/
def ex_ops_bare : genio_fd_ll_ops Unit :=
  { sub_open := none, raddr_to_str := none, get_raddr := none, remote_id := none,
    check_close := none }

/-- A receiver with all three callbacks. -/
def ex_cbs : genio_ll_callbacks :=
  { read_callback := some 1, write_callback := some 2, urgent_callback := some 3 }

/-- Allocations that all succeed. -/
def ex_alloc_ok : AllocResults :=
  { fdll := true, close_timer := true, deferred_op_runner := true, lock := true,
    read_data := true, set_fd_handlers := 0 }

/-- A stream built around the established descriptor 5 (as the acceptor does),
with an 8-byte read buffer and a receiver installed. -/
def ex_open : World Unit :=
  { fdll :=
      { refcount := 1, cbs := some ex_cbs, cb_data := 77, fd := 5, state := FD_OPEN,
        read_enabled := false, write_enabled := false, ops := ex_ops_bare,
        handler_data := (), check_open := none, retry_open := none,
        open_done := none, open_data := 0, open_err := 0, close_done := none,
        close_data := 0, read_data := List.replicate 8 0, read_data_size := 8,
        read_data_len := 0, read_data_pos := 0, in_read := false,
        deferred_op_pending := false, deferred_read := false, deferred_close := false,
        freed := false },
    trace := [Event.set_fd_handlers 5] }

/-- A user whose callbacks make no API call and return 0. -/
def ex_user_idle : User := fun _ => { calls := [], ret := 0 }

/-- The address `127.0.0.1:1` as a 16-byte `sockaddr_in`. -/
def ex_addr_A : addrinfo :=
  { ai_family := 2, ai_addr := [2, 0, 0, 1, 127, 0, 0, 1, 0, 0, 0, 0, 0, 0, 0, 0],
    ai_addrlen := 16 }

/-- The address `127.0.0.1:8080` as a 16-byte `sockaddr_in`. -/
def ex_addr_B : addrinfo :=
  { ai_family := 2, ai_addr := [2, 0, 31, 144, 127, 0, 0, 1, 0, 0, 0, 0, 0, 0, 0, 0],
    ai_addrlen := 16 }

/-- A kernel whose first answers are the listed ones and every later one a
plain success. -/
def ex_kernel (l : List SysRes) : Nat → SysRes :=
  fun n => l.getD n (SysRes.ok 0)

/-- The TCP handler data for the address list `ai`, as `tcp_genio_alloc`
builds it, facing a kernel that gives the answers `l`. -/
def ex_tcp_ctx (ai : List addrinfo) (l : List SysRes) : TcpCtx :=
  { tdata := tcp_data_alloc ai, answers := ex_kernel l, next := 0, calls := [],
    getnameinfo := fun _ _ _ => NameInfo.fail 1 [] }

/-- A TCP client stream in state `st` on descriptor `fd`, with a receiver
installed and an 8-byte read buffer. -/
def ex_tcp_stream (st : fd_state) (fd : Int) (ai : List addrinfo) (l : List SysRes) :
    World TcpCtx :=
  { fdll :=
      { refcount := 1, cbs := some ex_cbs, cb_data := 77, fd := fd, state := st,
        read_enabled := false, write_enabled := false, ops := tcp_fd_ll_ops,
        handler_data := ex_tcp_ctx ai l, check_open := none, retry_open := none,
        open_done := none, open_data := 0, open_err := 0, close_done := none,
        close_data := 0, read_data := List.replicate 8 0, read_data_size := 8,
        read_data_len := 0, read_data_pos := 0, in_read := false,
        deferred_op_pending := false, deferred_read := false, deferred_close := false,
        freed := false },
    trace := [] }

/-- Kernel answers for a connect that completes at once: `socket` gives
descriptor 7, `fcntl`, `setsockopt` and `connect` succeed. -/
def ex_answers_sync : List SysRes :=
  [SysRes.ok 7, SysRes.ok 0, SysRes.ok 0, SysRes.ok 0]

/-- A user whose callbacks make no API call and return 2. -/
def ex_user_two : User := fun _ => { calls := [], ret := 2 }

/-- The example stream in the middle of a read cycle, holding the six bytes
`abcdef` that the peer sent. -/
def ex_abcdef : World Unit :=
  { ex_open with
    fdll := { ex_open.fdll with
      read_data := [97, 98, 99, 100, 101, 102, 0, 0], read_data_len := 6, in_read := true } }

/-- The example stream between two events, holding the remainder `cdef`. -/
def ex_cdef : World Unit :=
  { ex_open with
    fdll := { ex_open.fdll with
      read_data := [97, 98, 99, 100, 101, 102, 0, 0], read_data_pos := 2, read_data_len := 4 } }

/-- The example stream with a deferred read scheduled for the remainder
`cdef`. -/
def ex_cdef_deferred : World Unit :=
  { ex_open with
    fdll := { ex_open.fdll with
      refcount := 2, read_enabled := true,
      read_data := [97, 98, 99, 100, 101, 102, 0, 0], read_data_pos := 2, read_data_len := 4,
      in_read := true, deferred_op_pending := true, deferred_read := true } }

/-- Kernel answers for a fallback connect: `socket` gives descriptor 7,
`fcntl` and `setsockopt` succeed, the first `connect` is refused, the second
is in progress, and the later `getsockopt` succeeds. -/
def ex_answers_fallback : List SysRes :=
  [SysRes.ok 7, SysRes.ok 0, SysRes.ok 0, SysRes.fail ECONNREFUSED, SysRes.fail EINPROGRESS,
    SysRes.ok 0]

/-- A closed TCP client stream for the address list `[A, B]` facing the
fallback kernel. -/
def ex_fallback : World TcpCtx :=
  ex_tcp_stream FD_CLOSED (-1) [ex_addr_A, ex_addr_B] ex_answers_fallback

/-- The handler data of `ex_fallback` once `tcp_sub_open` has returned
`EINPROGRESS`: five system calls made, the cursor on `B`. -/
def ex_fallback_ctx : TcpCtx :=
  { tdata := { tcp_data_alloc [ex_addr_A, ex_addr_B] with curr_ai := [ex_addr_B] },
    answers := ex_kernel ex_answers_fallback, next := 5,
    calls := [KCall.socket 2, KCall.fcntl 7, KCall.setsockopt 7,
      KCall.connect 7 ex_addr_A.ai_addr 16, KCall.connect 7 ex_addr_B.ai_addr 16],
    getnameinfo := fun _ _ _ => NameInfo.fail 1 [] }

/-- The out-parameters `tcp_sub_open` leaves for `ex_fallback`. -/
def ex_fallback_slots : OpenSlots TcpCtx :=
  { check_open := some tcp_check_open, retry_open := some tcp_retry_open, fd := 7 }

/-- Kernel answers for a connect that fails on both addresses: the connect to
`A` is in progress on descriptor 7, the later `getsockopt` fails, and on the
retry (`socket` gives descriptor 8) the connect to `B` is refused. -/
def ex_answers_refused : List SysRes :=
  [SysRes.ok 7, SysRes.ok 0, SysRes.ok 0, SysRes.fail EINPROGRESS, SysRes.fail 9,
    SysRes.ok 8, SysRes.ok 0, SysRes.ok 0, SysRes.fail ECONNREFUSED]

/-- A closed TCP client stream for the address list `[A, B]` facing the kernel
that refuses both. -/
def ex_refused : World TcpCtx :=
  ex_tcp_stream FD_CLOSED (-1) [ex_addr_A, ex_addr_B] ex_answers_refused

/-- Kernel answers for a connect that is refused asynchronously: the connect
is in progress on descriptor 7, and the later `getsockopt` succeeds and stores
the pending error `ECONNREFUSED`. -/
def ex_answers_so_error : List SysRes :=
  [SysRes.ok 7, SysRes.ok 0, SysRes.ok 0, SysRes.fail EINPROGRESS, SysRes.ok ECONNREFUSED]

/-- A closed TCP client stream for the single address `A` facing the kernel
that refuses asynchronously. -/
def ex_so_error : World TcpCtx :=
  ex_tcp_stream FD_CLOSED (-1) [ex_addr_A] ex_answers_so_error

/-- Kernel answers for a retry that connects at once: the connect to `A` is in
progress on descriptor 7, the later `getsockopt` fails, and on the retry
(`socket` gives descriptor 8) the connect to `B` succeeds immediately. -/
def ex_answers_retry_sync : List SysRes :=
  [SysRes.ok 7, SysRes.ok 0, SysRes.ok 0, SysRes.fail EINPROGRESS, SysRes.fail 9,
    SysRes.ok 8, SysRes.ok 0, SysRes.ok 0, SysRes.ok 0]

/-- A closed TCP client stream for the address list `[A, B]` facing the kernel
whose retry connects at once. -/
def ex_retry_sync : World TcpCtx :=
  ex_tcp_stream FD_CLOSED (-1) [ex_addr_A, ex_addr_B] ex_answers_retry_sync

/-- The example stream with read callbacks enabled. -/
def ex_open_reading : World Unit :=
  { ex_open with fdll := { ex_open.fdll with read_enabled := true } }

/-- An acceptor as `tcp_genio_acceptor_alloc` builds it, for the address list
`[A, B]`, with a receiver installed. -/
def ex_acceptor : AccWorld :=
  { na :=
      { acceptor := 1000, cbs := some { new_connection := some 6 }, user_data := 55,
        name := some [116], max_read_size := 8, setup := false, enabled := false,
        in_shutdown := false, refcount := 1, shutdown_done := none, shutdown_data := 0,
        ai := [ex_addr_A, ex_addr_B], acceptfds := none, nr_acceptfds := 0,
        nr_accept_close_waiting := 0, freed := false },
    trace := [] }

/-- The example acceptor listening on the descriptors 3 and 4. -/
def ex_listening : AccWorld :=
  { ex_acceptor with
    na := { ex_acceptor.na with
      setup := true, enabled := true, refcount := 2, acceptfds := some [3, 4],
      nr_acceptfds := 2 } }

/-- An acceptor user whose callbacks make no API call. -/
def ex_acc_user_idle : AccUser := fun _ => []

/-- What `tcpna_readhandler` meets when a peer connects and every step
succeeds: `accept` gives descriptor 9, the new object is number 500. -/
def ex_accept_ok : AcceptResults :=
  { accept := SysRes.ok 9, addr := ex_addr_A.ai_addr, addrlen := 16, tcpd_refused := false,
    tdata := true, kernel := fun _ => SysRes.ok 0, ll := ex_alloc_ok, io := some 500 }

/-- The listening example acceptor once `tcpna_shutdown` has been called with
the callback 8 and the data 21: it waits for its two listeners. -/
def ex_shutting_down : AccWorld :=
  { na := { ex_listening.na with
      in_shutdown := true, shutdown_done := some 8, shutdown_data := 21,
      nr_accept_close_waiting := 2, setup := false, enabled := false },
    trace := [AccEvent.lock, AccEvent.clear_fd_handlers 3, AccEvent.clear_fd_handlers 4,
      AccEvent.unlock] }

/-- Kernel answers for a connect to the single address `A` that is in
progress on descriptor 7 and whose `getsockopt` then fails. -/
def ex_answers_single_failed : List SysRes :=
  [SysRes.ok 7, SysRes.ok 0, SysRes.ok 0, SysRes.fail EINPROGRESS, SysRes.fail 9]

/-- A closed TCP client stream for the single address `A` facing that
kernel. -/
def ex_single_failed : World TcpCtx :=
  ex_tcp_stream FD_CLOSED (-1) [ex_addr_A] ex_answers_single_failed

/-- Kernel answers for an open that fails and a second one that succeeds: the
connect to `A` is in progress on descriptor 7, the later `getsockopt` fails,
on the retry `socket` fails with `EMFILE`; in the second open `socket` gives
descriptor 9 and the connect to `A` succeeds at once. -/
def ex_answers_reopen : List SysRes :=
  [SysRes.ok 7, SysRes.ok 0, SysRes.ok 0, SysRes.fail EINPROGRESS, SysRes.fail 9,
    SysRes.fail 24, SysRes.ok 9, SysRes.ok 0, SysRes.ok 0, SysRes.ok 0]

/-- A closed TCP client stream for the address list `[A, B]` facing that
kernel. -/
def ex_reopen : World TcpCtx :=
  ex_tcp_stream FD_CLOSED (-1) [ex_addr_A, ex_addr_B] ex_answers_reopen

/-- A user that reacts to a failed `open_done` by opening the stream again,
and to nothing else. -/
def ex_user_reopen : User := fun t =>
  match t.getLast? with
  | some (Event.open_done _ _ err _) =>
    if err ≠ 0 then { calls := [ApiCall.open (some 1) 42 0], ret := 0 }
    else { calls := [], ret := 0 }
  | _ => { calls := [], ret := 0 }

/-- Allocations of `tcp_genio_acceptor_alloc` that all succeed. -/
def ex_acc_alloc_ok : AccAllocResults :=
  { ai := true, nadata := true, lock := true, name := true }

/-! ## Theorems -/

/-! ### Write -/

theorem int_max_lt_uint : INT_MAX < UINT_MOD := by
  unfold INT_MAX UINT_MOD
  norm_num

theorem to_int_of_le (n : Nat) (h : n ≤ INT_MAX) : to_int n = (n : Int) := by
  have hlt : n < UINT_MOD := Nat.lt_of_le_of_lt h int_max_lt_uint
  unfold to_int
  rw [Nat.mod_eq_of_lt hlt, if_pos h]

theorem to_int_toNat_le (n : Nat) : (to_int n).toNat ≤ n := by
  have hm : n % UINT_MOD ≤ n := Nat.mod_le n UINT_MOD
  have hlt : n % UINT_MOD < UINT_MOD := Nat.mod_lt n (by unfold UINT_MOD; norm_num)
  unfold to_int
  split_ifs
  · rw [Int.toNat_natCast]
    exact hm
  · omega

theorem fd_write_loop_skip_eintr (rcount : Option Nat) (k : Nat) (l : List WriteRes) (n : Nat) :
    fd_write_loop rcount (List.replicate k (WriteRes.fail EINTR) ++ l) n
      = fd_write_loop rcount l (n + k) := by
  induction k generalizing n with
  | zero => simp
  | succ k ih =>
    rw [List.replicate_succ, List.cons_append, fd_write_loop, if_pos rfl, ih]
    congr 1
    omega

theorem fd_write_of_loop (rcount : Option Nat) (buflen k : Nat) (l : List WriteRes)
    (w : World H) (err : Nat) (rc : Option Nat)
    (h : fd_write_loop rcount l k = some (err, rc, k + 1)) :
    fd_write rcount buflen (List.replicate k (WriteRes.fail EINTR) ++ l) w
      = some (err, rc, { w with trace :=
          w.trace ++ List.replicate (k + 1) (Event.sys_write w.fdll.fd buflen) }) := by
  simp only [fd_write, fd_write_loop_skip_eintr, Nat.zero_add, h]

theorem int_mod_uint (n : Nat) : ((n : Int) % (UINT_MOD : Int)).toNat = n % UINT_MOD := by
  have h : ((n : Int) % (UINT_MOD : Int)) = ((n % UINT_MOD : Nat) : Int) := by
    exact (Int.natCast_mod n UINT_MOD).symm
  rw [h]
  exact Int.toNat_natCast _

theorem fd_write_loop_zero (rcount : Option Nat) (e : Nat) (rest : List WriteRes) (k : Nat) :
    fd_write_loop rcount (WriteRes.ok 0 e :: rest) k = some (EPIPE, rcount, k + 1) := by
  have h0 : to_int 0 = 0 := to_int_of_le 0 (Nat.zero_le _)
  simp only [fd_write_loop, h0, lt_self_iff_false, if_false, if_true, fd_write_store]
  rw [if_neg (by decide)]

theorem fd_write_loop_pos (rcount : Option Nat) (n e : Nat) (rest : List WriteRes) (k : Nat)
    (h0 : 0 < n) (h : n ≤ INT_MAX) :
    fd_write_loop rcount (WriteRes.ok n e :: rest) k
      = some (0, rcount.map (fun _ => n), k + 1) := by
  have hlt : n < UINT_MOD := Nat.lt_of_le_of_lt h int_max_lt_uint
  have h1 : ¬ ((n : Int) < 0) := by omega
  have h2 : ¬ ((n : Int) = 0) := by omega
  simp only [fd_write_loop, to_int_of_le n h]
  rw [if_neg h1, if_neg h2]
  simp only [fd_write_store, if_true, int_mod_uint, Nat.mod_eq_of_lt hlt]

/-- C6: the outcome of `fd_write` is that of the first `write(2)` result that
is not an `EINTR` failure: after `k` interrupted calls, a positive return `n`
gives status 0 and stores `n`; `EAGAIN` or `EWOULDBLOCK` gives status 0 and
stores 0; any other error `e` is returned and nothing is stored; a return of 0
gives `EPIPE` and nothing is stored. The stream is not changed and exactly
`k + 1` calls of `write(2)` are made. A return is a value of the `int rv` it
is kept in, so at most `INT_MAX`. -/
theorem fd_write_first_result (rcount : Option Nat) (buflen k : Nat) (r : WriteRes)
    (rest : List WriteRes) (w : World H) (hr : r ≠ WriteRes.fail EINTR)
    (hint : ∀ n e, r = WriteRes.ok n e → n ≤ INT_MAX) :
    ∃ err rc w1,
      fd_write rcount buflen (List.replicate k (WriteRes.fail EINTR) ++ r :: rest) w
        = some (err, rc, w1)
      ∧ w1.fdll = w.fdll
      ∧ w1.trace = w.trace ++ List.replicate (k + 1) (Event.sys_write w.fdll.fd buflen)
      ∧ (∀ n e, r = WriteRes.ok n e → 0 < n →
          err = 0 ∧ rc = rcount.map (fun _ => n))
      ∧ (r = WriteRes.fail EAGAIN ∨ r = WriteRes.fail EWOULDBLOCK →
          err = 0 ∧ rc = rcount.map (fun _ => 0))
      ∧ (∀ e, r = WriteRes.fail e → e ≠ EAGAIN → e ≠ EWOULDBLOCK → e ≠ 0 →
          err = e ∧ rc = rcount)
      ∧ (∀ e, r = WriteRes.ok 0 e → err = EPIPE ∧ rc = rcount) := by
  cases r with
  | ok n e =>
    by_cases hn : n = 0
    · subst hn
      refine ⟨EPIPE, rcount, _, fd_write_of_loop rcount buflen k _ w _ _
        (fd_write_loop_zero rcount e rest k), rfl, rfl, ?_, ?_, ?_, ?_⟩
      · intro n e1 h h0
        simp only [WriteRes.ok.injEq] at h
        omega
      · simp
      · simp
      · simp
    · refine ⟨0, rcount.map (fun _ => n), _,
        fd_write_of_loop rcount buflen k _ w _ _
          (fd_write_loop_pos rcount n e rest k (Nat.pos_of_ne_zero hn) (hint n e rfl)),
        rfl, rfl, ?_, ?_, ?_, ?_⟩
      · intro m e1 h _
        simp only [WriteRes.ok.injEq] at h
        obtain ⟨h, -⟩ := h
        subst h
        exact ⟨rfl, rfl⟩
      · simp
      · simp
      · intro e1 h
        simp only [WriteRes.ok.injEq] at h
        exact absurd h.1 hn
  | fail e =>
    have he : e ≠ EINTR := fun h => hr (by rw [h])
    by_cases hag : e = EWOULDBLOCK ∨ e = EAGAIN
    · refine ⟨0, rcount.map (fun _ => 0), _, fd_write_of_loop rcount buflen k _ w _ _ ?_,
        rfl, rfl, ?_, ?_, ?_, ?_⟩
      · simp [fd_write_loop, fd_write_store, he, hag]
      · simp
      · simp
      · intro e1 h h1 h2
        simp only [WriteRes.fail.injEq] at h
        subst h
        rcases hag with h | h
        · exact absurd h h2
        · exact absurd h h1
      · simp
    · refine ⟨e, fd_write_store (-1) e rcount, _,
        fd_write_of_loop rcount buflen k _ w _ _ ?_, rfl, rfl, ?_, ?_, ?_, ?_⟩
      · simp [fd_write_loop, he, hag]
      · simp
      · intro h
        simp only [WriteRes.fail.injEq] at h
        rcases h with h | h
        · exact absurd (Or.inr h) hag
        · exact absurd (Or.inl h) hag
      · intro e1 h _ _ h0
        simp only [WriteRes.fail.injEq] at h
        subst h
        simp [fd_write_store, h0]
      · simp

/-- Witness of C6 on the example stream: two interrupted calls, then four
bytes taken. -/
theorem fd_write_first_result_witness :
    ∃ w1,
      fd_write (some 9) 4 (List.replicate 2 (WriteRes.fail EINTR) ++ WriteRes.ok 4 EINTR :: [])
        ex_open = some (0, some 4, w1)
      ∧ w1.fdll = ex_open.fdll
      ∧ w1.trace = ex_open.trace ++ List.replicate (2 + 1) (Event.sys_write ex_open.fdll.fd 4) := by
  obtain ⟨err, rc, w1, h1, h2, h3, h4, -⟩ := fd_write_first_result (some 9) 4 2
    (WriteRes.ok 4 EINTR) [] ex_open (by decide)
    (fun n e h => by
      simp only [WriteRes.ok.injEq] at h
      rw [← h.1]
      decide)
  obtain ⟨rfl, rfl⟩ := h4 4 EINTR rfl (by decide)
  exact ⟨w1, h1, h2, h3⟩

/-- A count that does not fit `int rv` is taken for a failure: with 3000000000
bytes written and `errno` still holding 5 from earlier, `fd_write` returns 5
and stores no count. -/
theorem fd_write_count_above_int_max (rcount : Option Nat) (w : World H) :
    fd_write rcount 3000000000 [WriteRes.ok 3000000000 5] w
      = some (5, rcount,
          { w with trace := w.trace ++ [Event.sys_write w.fdll.fd 3000000000] }) := by
  have h : to_int 3000000000 = -1294967296 := by decide
  simp [fd_write, fd_write_loop, fd_write_store, h, EINTR, EWOULDBLOCK, EAGAIN]

/-- C7: a zero-length `fd_write`, whose `write(2)` transfers nothing and
returns 0, comes back with `EPIPE` and stores no count. -/
theorem fd_write_zero_length_is_epipe (rcount : Option Nat) (e : Nat) (w : World H) :
    fd_write rcount 0 [WriteRes.ok 0 e] w
      = some (EPIPE, rcount, { w with trace := w.trace ++ [Event.sys_write w.fdll.fd 0] }) := by
  simp [fd_write, fd_write_loop_zero]

/-! ### Close and open -/

theorem EINPROGRESS_ne_zero : EINPROGRESS ≠ 0 := by decide

theorem zero_ne_EINPROGRESS : (0 : Nat) ≠ EINPROGRESS := by decide

/-- C1: `fd_close` returns 0 exactly when the state is `FD_OPEN` or
`FD_IN_OPEN`; then the state becomes `FD_IN_CLOSE`, `close_done` and
`close_data` hold the arguments, the handlers of the descriptor are asked to
be cleared, and no other field changes (the handler data is the strategy's).
In `FD_CLOSED` and `FD_IN_CLOSE` it returns `EBUSY` and the stream is left as
it was. The strategy's `check_close` hook, if there is one, is assumed to
return. -/
theorem fd_close_contract (done : Option Nat) (close_data : Nat) (w : World H)
    (hcc : ∀ cc, w.fdll.ops.check_close = some cc →
      ∃ r, cc w.fdll.handler_data close_state.GENIO_LL_CLOSE_STATE_START = some r) :
    ∃ err w1, fd_close done close_data w = some (err, w1)
      ∧ (err = 0 ↔ (w.fdll.state = FD_OPEN ∨ w.fdll.state = FD_IN_OPEN))
      ∧ (w.fdll.state = FD_OPEN ∨ w.fdll.state = FD_IN_OPEN →
          w1.fdll = { w.fdll with
            state := FD_IN_CLOSE, close_done := done, close_data := close_data,
            handler_data := w1.fdll.handler_data }
          ∧ w1.trace = w.trace ++ Event.lock ::
              (if w.fdll.ops.check_close.isSome
                then [Event.hook_check_close close_state.GENIO_LL_CLOSE_STATE_START] else [])
              ++ [Event.clear_fd_handlers w.fdll.fd, Event.unlock])
      ∧ (w.fdll.state = FD_CLOSED ∨ w.fdll.state = FD_IN_CLOSE →
          err = EBUSY ∧ w1.fdll = w.fdll ∧ w1.trace = w.trace ++ [Event.lock, Event.unlock]) := by
  by_cases hst : w.fdll.state = FD_OPEN ∨ w.fdll.state = FD_IN_OPEN
  · have hno : ¬ (w.fdll.state = FD_CLOSED ∨ w.fdll.state = FD_IN_CLOSE) := by
      rcases hst with h | h <;> simp [h]
    cases hc : w.fdll.ops.check_close with
    | none =>
      cases hres : fd_close done close_data w with
      | none => simp [fd_close, fd_lock, fd_unlock, emit, hst, fd_start_close, hc] at hres
      | some p =>
        obtain ⟨err, w1⟩ := p
        simp [fd_close, fd_lock, fd_unlock, emit, hst, fd_start_close, hc] at hres
        obtain ⟨rfl, rfl⟩ := hres
        exact ⟨0, _, rfl, by simp [hst], fun _ => ⟨rfl, by simp⟩, fun h => absurd h hno⟩
    | some cc =>
      obtain ⟨r, hr⟩ := hcc cc hc
      cases hres : fd_close done close_data w with
      | none => simp [fd_close, fd_lock, fd_unlock, emit, hst, fd_start_close, hc, hr] at hres
      | some p =>
        obtain ⟨err, w1⟩ := p
        simp [fd_close, fd_lock, fd_unlock, emit, hst, fd_start_close, hc, hr] at hres
        obtain ⟨rfl, rfl⟩ := hres
        exact ⟨0, _, rfl, by simp [hst], fun _ => ⟨rfl, by simp⟩, fun h => absurd h hno⟩
  · have hcl : w.fdll.state = FD_CLOSED ∨ w.fdll.state = FD_IN_CLOSE := by
      cases hs : w.fdll.state <;> simp_all
    cases hres : fd_close done close_data w with
    | none => simp [fd_close, fd_lock, fd_unlock, emit, hst] at hres
    | some p =>
      obtain ⟨err, w1⟩ := p
      simp [fd_close, fd_lock, fd_unlock, emit, hst] at hres
      obtain ⟨rfl, rfl⟩ := hres
      exact ⟨EBUSY, _, rfl, by simp [hst, EBUSY], fun h => absurd h hst,
        fun _ => ⟨rfl, rfl, by simp⟩⟩

/-- Witness of C1: closing the example stream, which is open on descriptor 5. -/
theorem fd_close_contract_witness :
    ∃ err w1, fd_close (some 4) 9 ex_open = some (err, w1)
      ∧ (err = 0 ↔ (ex_open.fdll.state = FD_OPEN ∨ ex_open.fdll.state = FD_IN_OPEN))
      ∧ (ex_open.fdll.state = FD_OPEN ∨ ex_open.fdll.state = FD_IN_OPEN →
          w1.fdll = { ex_open.fdll with
            state := FD_IN_CLOSE, close_done := some 4, close_data := 9,
            handler_data := w1.fdll.handler_data }
          ∧ w1.trace = ex_open.trace ++ Event.lock ::
              (if ex_open.fdll.ops.check_close.isSome
                then [Event.hook_check_close close_state.GENIO_LL_CLOSE_STATE_START] else [])
              ++ [Event.clear_fd_handlers ex_open.fdll.fd, Event.unlock])
      ∧ (ex_open.fdll.state = FD_CLOSED ∨ ex_open.fdll.state = FD_IN_CLOSE →
          err = EBUSY ∧ w1.fdll = ex_open.fdll
            ∧ w1.trace = ex_open.trace ++ [Event.lock, Event.unlock]) :=
  fd_close_contract (some 4) 9 ex_open (by intro cc h; simp [ex_open, ex_ops_bare] at h)

/-- C2: `fd_open` does not look at the state. On a TCP client stream that is
already `FD_IN_OPEN`, `FD_OPEN` or `FD_IN_CLOSE` on descriptor 5, with a
kernel that connects at once, it calls `sub_open`, returns 0, replaces the
descriptor by the new socket 7 and leaves the stream `FD_OPEN`. -/
theorem fd_open_ignores_state (st : fd_state) :
    ∃ w1, fd_open (some 1) 42 0 (ex_tcp_stream st 5 [ex_addr_A] ex_answers_sync) = some (0, w1)
      ∧ w1.trace = [Event.lock, Event.hook_sub_open, Event.set_fd_handlers 7, Event.unlock]
      ∧ w1.fdll.fd = 7
      ∧ w1.fdll.state = FD_OPEN := by
  cases st <;> exact ⟨_, rfl, rfl, rfl, rfl⟩

/-- C3: on a `FD_CLOSED` stream whose strategy has a `sub_open` that returns,
and with handler registration succeeding, `fd_open` returns the status of
`sub_open`. On 0 the stream is `FD_OPEN`; on `EINPROGRESS` it is `FD_IN_OPEN`,
the `open_done` slot holds the arguments and write readiness is armed on the
new descriptor; on any other status the state stays `FD_CLOSED`, the slot is
not written and no handler is touched. -/
theorem fd_open_contract (done : Option Nat) (open_data : Nat) (w : World H)
    (sub_open : H → OpenSlots H → Option (Nat × H × OpenSlots H))
    (err : Nat) (hd : H) (slots : OpenSlots H)
    (hstate : w.fdll.state = FD_CLOSED)
    (hop : w.fdll.ops.sub_open = some sub_open)
    (hret : sub_open w.fdll.handler_data ⟨w.fdll.check_open, w.fdll.retry_open, w.fdll.fd⟩
      = some (err, hd, slots)) :
    ∃ w1, fd_open done open_data 0 w = some (err, w1)
      ∧ (err = 0 →
          w1.fdll.state = FD_OPEN ∧ w1.fdll.fd = slots.fd
          ∧ w1.fdll.open_done = w.fdll.open_done
          ∧ w1.trace = w.trace ++ [Event.lock, Event.hook_sub_open,
              Event.set_fd_handlers slots.fd, Event.unlock])
      ∧ (err = EINPROGRESS →
          w1.fdll.state = FD_IN_OPEN ∧ w1.fdll.fd = slots.fd
          ∧ w1.fdll.open_done = done ∧ w1.fdll.open_data = open_data
          ∧ w1.trace = w.trace ++ [Event.lock, Event.hook_sub_open,
              Event.set_fd_handlers slots.fd, Event.set_write_handler slots.fd true,
              Event.unlock])
      ∧ (err ≠ 0 → err ≠ EINPROGRESS →
          w1.fdll.state = FD_CLOSED
          ∧ w1.fdll.open_done = w.fdll.open_done ∧ w1.fdll.open_data = w.fdll.open_data
          ∧ w1.trace = w.trace ++ [Event.lock, Event.hook_sub_open, Event.unlock]) := by
  cases hres : fd_open done open_data 0 w with
  | none =>
    by_cases h0 : err = 0
    · simp [fd_open, hop, fd_lock, fd_unlock, emit, hret, fd_setup_handlers, h0, zero_ne_EINPROGRESS] at hres
    · by_cases hp : err = EINPROGRESS
      · simp [fd_open, hop, fd_lock, fd_unlock, emit, hret, fd_setup_handlers, hp, EINPROGRESS_ne_zero] at hres
      · simp [fd_open, hop, fd_lock, fd_unlock, emit, hret, h0, hp] at hres
  | some p =>
    obtain ⟨e1, w1⟩ := p
    by_cases h0 : err = 0
    · subst h0
      simp [fd_open, hop, fd_lock, fd_unlock, emit, hret, fd_setup_handlers] at hres
      obtain ⟨rfl, rfl⟩ := hres
      refine ⟨_, rfl, fun _ => ⟨rfl, rfl, rfl, by simp⟩, fun h => ?_, fun h => absurd rfl h⟩
      simp [EINPROGRESS] at h
    · by_cases hp : err = EINPROGRESS
      · subst hp
        simp [fd_open, hop, fd_lock, fd_unlock, emit, hret, fd_setup_handlers,
          EINPROGRESS_ne_zero] at hres
        obtain ⟨rfl, rfl⟩ := hres
        exact ⟨_, rfl, fun h => absurd h h0, fun _ => ⟨rfl, rfl, rfl, rfl, by simp⟩,
          fun _ h => absurd rfl h⟩
      · simp [fd_open, hop, fd_lock, fd_unlock, emit, hret, h0, hp] at hres
        obtain ⟨rfl, rfl⟩ := hres
        exact ⟨_, rfl, fun h => absurd h h0, fun h => absurd h hp,
          fun _ _ => ⟨hstate, rfl, rfl, by simp⟩⟩

/-- Witness of C3: the closed TCP client stream for `[A, B]`, where `A` refuses
and the connect to `B` is in progress. -/
theorem fd_open_contract_witness :
    ex_fallback.fdll.state = FD_CLOSED ∧
    ∃ w1, fd_open (some 1) 42 0 ex_fallback = some (EINPROGRESS, w1)
      ∧ w1.fdll.state = FD_IN_OPEN ∧ w1.fdll.fd = 7
      ∧ w1.fdll.open_done = some 1 ∧ w1.fdll.open_data = 42
      ∧ w1.trace = [Event.lock, Event.hook_sub_open, Event.set_fd_handlers 7,
          Event.set_write_handler 7 true, Event.unlock] := by
  obtain ⟨w1, h, -, hin, -⟩ := fd_open_contract (some 1) 42 ex_fallback tcp_sub_open
    EINPROGRESS ex_fallback_ctx ex_fallback_slots rfl rfl rfl
  exact ⟨rfl, w1, h, hin rfl⟩

/-! ### API calls are quiet -/

theorem Quiet.qrefl (w : World H) : Quiet w w := by
  simp [Quiet, callbacks_since, reads_since]

theorem Quiet.suffix {w w1 : World H} (h : Quiet w w1) :
    ∃ t, w1.trace = w.trace ++ t ∧ t.filter Event.is_user_callback = []
      ∧ t.filter Event.is_sys_read = [] := by
  obtain ⟨⟨t, ht⟩, hc, hr, -⟩ := h
  refine ⟨t, ht.symm, ?_, ?_⟩
  · simpa [callbacks_since, ← ht] using hc
  · simpa [reads_since, ← ht] using hr

theorem Quiet.of_suffix {w w1 : World H} (t : List Event)
    (ht : w1.trace = w.trace ++ t)
    (hc : t.filter Event.is_user_callback = [])
    (hr : t.filter Event.is_sys_read = [])
    (hd : w1.fdll.read_data = w.fdll.read_data)
    (hp : w1.fdll.read_data_pos = w.fdll.read_data_pos)
    (hl : w1.fdll.read_data_len = w.fdll.read_data_len)
    (hs : w1.fdll.read_data_size = w.fdll.read_data_size)
    (hi : w.fdll.in_read = true →
      w1.fdll.in_read = true ∧ w1.fdll.deferred_read = w.fdll.deferred_read) : Quiet w w1 := by
  refine ⟨⟨t, ht.symm⟩, ?_, ?_, hd, hp, hl, hs, hi⟩
  · simpa [callbacks_since, ht] using hc
  · simpa [reads_since, ht] using hr

theorem Quiet.qtrans {a b c : World H} (h1 : Quiet a b) (h2 : Quiet b c) : Quiet a c := by
  obtain ⟨t1, e1, c1, r1⟩ := h1.suffix
  obtain ⟨t2, e2, c2, r2⟩ := h2.suffix
  obtain ⟨-, -, -, d1, p1, l1, s1, i1⟩ := h1
  obtain ⟨-, -, -, d2, p2, l2, s2, i2⟩ := h2
  refine Quiet.of_suffix (t1 ++ t2) ?_ ?_ ?_ (d2.trans d1) (p2.trans p1) (l2.trans l1)
    (s2.trans s1) (fun h => ⟨(i2 (i1 h).1).1, (i2 (i1 h).1).2.trans (i1 h).2⟩)
  · rw [e2, e1, List.append_assoc]
  · rw [List.filter_append, c1, c2]; rfl
  · rw [List.filter_append, r1, r2]; rfl

theorem fd_start_close_quiet {w w1 : World H} (h : fd_start_close w = some w1) :
    Quiet w w1 := by
  unfold fd_start_close at h
  cases hc : w.fdll.ops.check_close with
  | none =>
    simp [hc, emit] at h
    subst h
    simp [Quiet, callbacks_since, reads_since, Event.is_user_callback, Event.is_sys_read]
  | some cc =>
    simp only [hc, emit] at h
    cases hr : cc w.fdll.handler_data close_state.GENIO_LL_CLOSE_STATE_START with
    | none => simp [hr] at h
    | some r =>
      simp [hr] at h
      subst h
      simp [Quiet, callbacks_since, reads_since, Event.is_user_callback, Event.is_sys_read]

theorem fd_open_quiet {done : Option Nat} {open_data : Nat} {sfh : Int} {w w1 : World H}
    {err : Nat} (h : fd_open done open_data sfh w = some (err, w1)) : Quiet w w1 := by
  unfold fd_open at h
  cases hs : w.fdll.ops.sub_open with
  | none =>
    simp [hs] at h
    obtain ⟨-, rfl⟩ := h
    exact Quiet.qrefl _
  | some f =>
    simp only [hs, fd_lock, fd_unlock, emit, fd_setup_handlers] at h
    cases hr : f w.fdll.handler_data ⟨w.fdll.check_open, w.fdll.retry_open, w.fdll.fd⟩ with
    | none => simp [hr] at h
    | some r =>
      simp only [hr, Option.some_bind] at h
      split_ifs at h <;> simp at h <;> obtain ⟨-, rfl⟩ := h <;>
        simp [Quiet, callbacks_since, reads_since, Event.is_user_callback, Event.is_sys_read]

theorem fd_close_quiet {done : Option Nat} {close_data : Nat} {w w1 : World H}
    {err : Nat} (h : fd_close done close_data w = some (err, w1)) : Quiet w w1 := by
  unfold fd_close at h
  simp only [fd_lock, fd_unlock, emit] at h
  split_ifs at h
  · simp only [Option.bind_eq_some] at h
    obtain ⟨w2, hsc, h⟩ := h
    simp at h
    obtain ⟨-, rfl⟩ := h
    have h2 := fd_start_close_quiet hsc
    refine (Quiet.qtrans ?_ h2).qtrans ?_ <;>
      simp [Quiet, callbacks_since, reads_since, Event.is_user_callback, Event.is_sys_read]
  · simp at h
    obtain ⟨-, rfl⟩ := h
    simp [Quiet, callbacks_since, reads_since, Event.is_user_callback, Event.is_sys_read]

theorem fd_set_read_callback_enable_quiet (b : Bool) (w : World H) :
    Quiet w (fd_set_read_callback_enable b w) := by
  unfold fd_set_read_callback_enable
  simp only [fd_lock, fd_unlock, emit, fd_sched_deferred_op, fd_ref]
  split_ifs with h1 h2 h3 <;>
    simp [Quiet, callbacks_since, reads_since, Event.is_user_callback, Event.is_sys_read]
  all_goals
    intro hin
    exact absurd (Or.inl hin) h1

theorem fd_set_write_callback_enable_quiet (b : Bool) (w : World H) :
    Quiet w (fd_set_write_callback_enable b w) := by
  unfold fd_set_write_callback_enable
  simp only [fd_lock, fd_unlock, emit]
  split_ifs <;>
    simp [Quiet, callbacks_since, reads_since, Event.is_user_callback, Event.is_sys_read]

theorem fd_deref_and_unlock_quiet {w w1 : World H} (h : fd_deref_and_unlock w = some w1) :
    Quiet w w1 := by
  unfold fd_deref_and_unlock at h
  simp only [fd_unlock, fd_finish_free, emit] at h
  split_ifs at h <;> simp at h <;> subst h <;>
    simp [Quiet, callbacks_since, reads_since, Event.is_user_callback, Event.is_sys_read]

theorem fd_free_quiet {w w1 : World H} (h : fd_free w = some w1) : Quiet w w1 := by
  unfold fd_free at h
  have h1 : Quiet w (fd_lock w) := by
    simp [fd_lock, emit, Quiet, callbacks_since, reads_since, Event.is_user_callback,
      Event.is_sys_read]
  exact h1.qtrans (fd_deref_and_unlock_quiet h)

theorem apiStep_quiet {c : ApiCall} {w w1 : World H} (h : apiStep c w = some w1) :
    Quiet w w1 := by
  cases c with
  | set_callbacks cbs cb_data =>
    simp [apiStep, fd_set_callbacks] at h
    subst h
    simp [Quiet, callbacks_since, reads_since]
  | «open» done open_data sfh =>
    simp only [apiStep, Option.map_eq_some'] at h
    obtain ⟨p, hp, rfl⟩ := h
    exact fd_open_quiet hp
  | close done close_data =>
    simp only [apiStep, Option.map_eq_some'] at h
    obtain ⟨p, hp, rfl⟩ := h
    exact fd_close_quiet hp
  | set_read_callback_enable b =>
    simp [apiStep] at h
    subst h
    exact fd_set_read_callback_enable_quiet b w
  | set_write_callback_enable b =>
    simp [apiStep] at h
    subst h
    exact fd_set_write_callback_enable_quiet b w
  | free => exact fd_free_quiet h

theorem runCalls_quiet {cs : List ApiCall} {w w1 : World H} (h : runCalls cs w = some w1) :
    Quiet w w1 := by
  induction cs generalizing w with
  | nil =>
    simp [runCalls] at h
    subst h
    exact Quiet.qrefl _
  | cons c cs ih =>
    simp only [runCalls] at h
    cases hc : apiStep c w with
    | none => simp [hc] at h
    | some w2 =>
      simp [hc] at h
      exact (apiStep_quiet hc).qtrans (ih h)

/-! ### Read delivery -/

theorem callback_eq {u : User} {e : Event} {w : World H} {r : Nat × World H}
    (h : callback u e w = some r) :
    r.1 = (u (w.trace ++ [e])).ret ∧ Quiet (emit e w) r.2 := by
  unfold callback at h
  simp only [Option.bind_eq_some] at h
  obtain ⟨w1, hrun, h⟩ := h
  simp at h
  subst h
  exact ⟨rfl, runCalls_quiet hrun⟩

theorem fd_deliver_read_data_eq (u : User) (err : Nat) (w w1 : World H) (k : Nat)
    (cbs : genio_ll_callbacks) (hcbs : w.fdll.cbs = some cbs)
    (hrc : cbs.read_callback ≠ none)
    (hne : err ≠ 0 ∨ w.fdll.read_data_len ≠ 0)
    (hcb : callback u (read_cb_event err w) (fd_unlock w) = some (k, w1)) :
    fd_deliver_read_data u err w = some
      (if err ≠ 0 ∨ k % UINT_MOD ≥ w.fdll.read_data_len then
        { fd_lock w1 with fdll := { w1.fdll with read_data_pos := 0, read_data_len := 0 } }
       else
        { fd_lock w1 with fdll := { w1.fdll with
            read_data_pos := (w.fdll.read_data_pos + k % UINT_MOD) % UINT_MOD,
            read_data_len := w.fdll.read_data_len - k % UINT_MOD } }) := by
  obtain ⟨-, hq⟩ := callback_eq hcb
  obtain ⟨-, -, -, -, hp, hl, -, -⟩ := hq
  simp only [emit, fd_unlock] at hp hl
  obtain ⟨f, hf⟩ := Option.ne_none_iff_exists'.mp hrc
  unfold fd_deliver_read_data
  rw [if_pos hne]
  have hc2 : (fd_unlock w).fdll.cbs = some cbs := hcbs
  simp only [hc2, hf]
  have hev : read_cb_event err (fd_unlock w) = read_cb_event err w := rfl
  rw [hev, hcb]
  simp only [Option.some_bind, fd_lock, emit, hp, hl]
  split_ifs <;> rfl

@[simp] theorem emit_fdll (e : Event) (w : World H) : (emit e w).fdll = w.fdll := rfl

@[simp] theorem emit_trace (e : Event) (w : World H) : (emit e w).trace = w.trace ++ [e] := rfl

@[simp] theorem fd_lock_fdll (w : World H) : (fd_lock w).fdll = w.fdll := rfl

@[simp] theorem fd_lock_trace (w : World H) : (fd_lock w).trace = w.trace ++ [Event.lock] := rfl

@[simp] theorem fd_unlock_fdll (w : World H) : (fd_unlock w).fdll = w.fdll := rfl

@[simp] theorem fd_unlock_trace (w : World H) :
    (fd_unlock w).trace = w.trace ++ [Event.unlock] := rfl

@[simp] theorem set_in_read_trace (b : Bool) (w : World H) :
    (set_in_read b w).trace = w.trace := rfl

theorem fd_handle_incoming_out_quiet (w : World H) : Quiet w (fd_handle_incoming_out w) := by
  unfold fd_handle_incoming_out
  simp only [fd_unlock, emit]
  split_ifs <;>
    simp [Quiet, callbacks_since, reads_since, Event.is_user_callback, Event.is_sys_read]

theorem fd_deliver_read_data_sum (u : User) (err : Nat) (w w1 : World H) (k : Nat)
    (cbs : genio_ll_callbacks) (hcbs : w.fdll.cbs = some cbs)
    (hrc : cbs.read_callback ≠ none)
    (hne : err ≠ 0 ∨ w.fdll.read_data_len ≠ 0)
    (hcb : callback u (read_cb_event err w) (fd_unlock w) = some (k, w1)) :
    ∃ w2 t, fd_deliver_read_data u err w = some w2
      ∧ w2.trace = w.trace ++ [Event.unlock, read_cb_event err w] ++ t ++ [Event.lock]
      ∧ t.filter Event.is_user_callback = []
      ∧ t.filter Event.is_sys_read = []
      ∧ w2.fdll.read_data = w.fdll.read_data
      ∧ (err ≠ 0 ∨ k % UINT_MOD ≥ w.fdll.read_data_len →
          w2.fdll.read_data_pos = 0 ∧ w2.fdll.read_data_len = 0)
      ∧ (err = 0 → k % UINT_MOD < w.fdll.read_data_len →
          w2.fdll.read_data_pos = (w.fdll.read_data_pos + k % UINT_MOD) % UINT_MOD
          ∧ w2.fdll.read_data_len = w.fdll.read_data_len - k % UINT_MOD)
      ∧ (w.fdll.in_read = true →
          w2.fdll.in_read = true ∧ w2.fdll.deferred_read = w.fdll.deferred_read) := by
  have hd := fd_deliver_read_data_eq u err w w1 k cbs hcbs hrc hne hcb
  obtain ⟨-, hq⟩ := callback_eq hcb
  obtain ⟨t, ht, hct, hrt⟩ := hq.suffix
  obtain ⟨-, -, -, hdat, -, -, -, hi⟩ := hq
  simp only [emit_fdll, fd_unlock_fdll, emit_trace, fd_unlock_trace] at ht hdat hi
  by_cases hc : err ≠ 0 ∨ k % UINT_MOD ≥ w.fdll.read_data_len
  · rw [if_pos hc] at hd
    refine ⟨_, t, hd, ?_, hct, hrt, hdat, fun _ => ⟨rfl, rfl⟩, fun h0 hk => ?_, hi⟩
    · simp [ht]
    · rcases hc with h | h
      · exact absurd h0 h
      · omega
  · rw [if_neg hc] at hd
    refine ⟨_, t, hd, ?_, hct, hrt, hdat, fun h => absurd h hc, fun _ _ => ⟨rfl, rfl⟩, hi⟩
    simp [ht]

theorem fd_read_ready_held (u : User) (fd : Int) (reads : List ReadRes) (v : World H)
    (cbs : genio_ll_callbacks) (hin : v.fdll.in_read = false)
    (hlen : v.fdll.read_data_len ≠ 0)
    (hcbs : v.fdll.cbs = some cbs) (hrc : cbs.read_callback ≠ none)
    (hcb : (callback u (read_cb_event 0 v)
      (fd_unlock (set_in_read true (fd_handle_incoming_enter v)))).isSome) :
    ∃ v2, fd_read_ready u fd reads v = some v2
      ∧ reads_since v.trace.length v2 = []
      ∧ callbacks_since v.trace.length v2 = [read_cb_event 0 v] := by
  obtain ⟨⟨k, v1⟩, hk⟩ := Option.isSome_iff_exists.mp hcb
  obtain ⟨w2, t, hd, ht, hct, hrt, -⟩ := fd_deliver_read_data_sum u 0
    (set_in_read true (fd_handle_incoming_enter v)) v1 k cbs hcbs hrc (Or.inr hlen) hk
  obtain ⟨t2, ht2, hct2, hrt2⟩ := (fd_handle_incoming_out_quiet (set_in_read false w2)).suffix
  have hev : read_cb_event 0 (set_in_read true (fd_handle_incoming_enter v))
      = read_cb_event 0 v := rfl
  rw [hev] at ht
  refine ⟨fd_handle_incoming_out (set_in_read false w2), ?_, ?_, ?_⟩
  · unfold fd_read_ready fd_handle_incoming
    have hin2 : (fd_handle_incoming_enter v).fdll.in_read = false := hin
    have hl2 : (set_in_read true (fd_handle_incoming_enter v)).fdll.read_data_len ≠ 0 := hlen
    simp [hin2, fd_handle_incoming_read, hl2, hd]
  · simp [reads_since, ht2, ht, fd_handle_incoming_enter, hrt, hrt2, Event.is_sys_read,
      List.filter_append, read_cb_event]
  · simp [callbacks_since, ht2, ht, fd_handle_incoming_enter, hct, hct2, Event.is_user_callback,
      List.filter_append, read_cb_event]

theorem fd_deferred_op_close_spec (u : User) (v : World H) :
    ∃ vc, fd_deferred_op_close u v = some vc
      ∧ vc.trace = v.trace ++ [Event.lock]
      ∧ vc.fdll.cbs = v.fdll.cbs ∧ vc.fdll.cb_data = v.fdll.cb_data
      ∧ vc.fdll.read_data = v.fdll.read_data
      ∧ vc.fdll.read_data_pos = v.fdll.read_data_pos
      ∧ vc.fdll.read_data_len = v.fdll.read_data_len
      ∧ vc.fdll.in_read = v.fdll.in_read
      ∧ vc.fdll.deferred_read = v.fdll.deferred_read := by
  unfold fd_deferred_op_close fd_finish_close
  by_cases h : v.fdll.deferred_close = true
  · simp [h]
  · simp [h]

theorem fd_deferred_op_finish_quiet {w w2 : World H} (h : fd_deferred_op_finish w = some w2) :
    Quiet w w2 := by
  unfold fd_deferred_op_finish at h
  refine Quiet.qtrans ?_ (fd_deref_and_unlock_quiet h)
  split_ifs <;>
    simp [Quiet, callbacks_since, reads_since, Event.is_user_callback, Event.is_sys_read]

theorem fd_deferred_op_loop_held (u : User) (fuel : Nat) (vc w1 : World H) (k : Nat)
    (cbs : genio_ll_callbacks) (hdr : vc.fdll.deferred_read = true)
    (hin : vc.fdll.in_read = true) (hlen : vc.fdll.read_data_len ≠ 0)
    (hcbs : vc.fdll.cbs = some cbs) (hrc : cbs.read_callback ≠ none)
    (hcb : callback u (read_cb_event 0 vc) (fd_unlock (set_deferred_read false vc))
      = some (k, w1)) :
    ∃ vl t, fd_deferred_op_loop u (fuel + 1) vc = some vl
      ∧ vl.trace = vc.trace ++ [Event.unlock, read_cb_event 0 vc] ++ t ++ [Event.lock]
      ∧ t.filter Event.is_user_callback = []
      ∧ t.filter Event.is_sys_read = [] := by
  obtain ⟨w2, t, hd, ht, hct, hrt, -, -, -, hi⟩ := fd_deliver_read_data_sum u 0
    (set_deferred_read false vc) w1 k cbs hcbs hrc (Or.inr hlen) hcb
  have hev : read_cb_event 0 (set_deferred_read false vc) = read_cb_event 0 vc := rfl
  rw [hev] at ht
  obtain ⟨-, hdr2⟩ := hi hin
  refine ⟨set_in_read false w2, t, ?_, ht, hct, hrt⟩
  have hdr3 : (set_in_read false w2).fdll.deferred_read = false := hdr2
  simp [fd_deferred_op_loop, hdr, hd, hdr3]

theorem held_bytes (l : List Nat) (pos len k : Nat) :
    (l.drop (pos + k)).take (len - k) = ((l.drop pos).take len).drop k := by
  rw [List.drop_take, List.drop_drop]

/-- C8: when a delivery of `read_data_len` bytes at `read_data_pos` with no
error is answered by `read_callback` with `k`, then for `k` at least the
length the buffer is emptied, and for a smaller `k` the position is advanced
and the length reduced by `k`, the bytes stay where they are, and the next
delivery from a stream that holds this remainder passes exactly the remaining
bytes and makes no `read(2)` call: both the read-ready handler and the
deferred-op trampoline invoke `read_callback` once, with status 0, the
advanced position, the reduced length and the earlier bytes less their first
`k`. -/
theorem read_consumption_round_trip (u : User) (w w1 : World H) (k : Nat)
    (cbs : genio_ll_callbacks) (hcbs : w.fdll.cbs = some cbs)
    (hrc : cbs.read_callback ≠ none)
    (hlen : w.fdll.read_data_len ≠ 0)
    (hfit : w.fdll.read_data_pos + w.fdll.read_data_len ≤ w.fdll.read_data_size)
    (hsize : w.fdll.read_data_size < UINT_MOD)
    (hk : k < UINT_MOD)
    (hcb : callback u (read_cb_event 0 w) (fd_unlock w) = some (k, w1)) :
    ∃ w2, fd_deliver_read_data u 0 w = some w2
      ∧ (w.fdll.read_data_len ≤ k →
          w2.fdll.read_data_len = 0 ∧ w2.fdll.read_data_pos = 0)
      ∧ (k < w.fdll.read_data_len →
          w2.fdll.read_data_pos = w.fdll.read_data_pos + k
          ∧ w2.fdll.read_data_len = w.fdll.read_data_len - k
          ∧ w2.fdll.read_data = w.fdll.read_data
          ∧ (∀ (v : World H) (fd : Int) (reads : List ReadRes) (cbs2 : genio_ll_callbacks),
              v.fdll.read_data = w2.fdll.read_data →
              v.fdll.read_data_pos = w2.fdll.read_data_pos →
              v.fdll.read_data_len = w2.fdll.read_data_len →
              v.fdll.in_read = false →
              v.fdll.cbs = some cbs2 → cbs2.read_callback ≠ none →
              (callback u (read_cb_event 0 v)
                (fd_unlock (set_in_read true (fd_handle_incoming_enter v)))).isSome →
              ∃ v2, fd_read_ready u fd reads v = some v2
                ∧ reads_since v.trace.length v2 = []
                ∧ callbacks_since v.trace.length v2 =
                    [Event.read_callback v.fdll.cb_data 0 (w.fdll.read_data_pos + k)
                      (w.fdll.read_data_len - k)
                      (((w.fdll.read_data.drop w.fdll.read_data_pos).take
                        w.fdll.read_data_len).drop k)])
          ∧ (∀ (v vc : World H) (fuel : Nat) (cbs2 : genio_ll_callbacks),
              v.fdll.read_data = w2.fdll.read_data →
              v.fdll.read_data_pos = w2.fdll.read_data_pos →
              v.fdll.read_data_len = w2.fdll.read_data_len →
              v.fdll.deferred_read = true → v.fdll.in_read = true →
              v.fdll.cbs = some cbs2 → cbs2.read_callback ≠ none →
              fd_deferred_op_close u v = some vc →
              (callback u (read_cb_event 0 v)
                (fd_unlock (set_deferred_read false vc))).isSome →
              (∃ vl, fd_deferred_op_loop u (fuel + 1) vc = some vl
                ∧ reads_since v.trace.length vl = []
                ∧ callbacks_since v.trace.length vl =
                    [Event.read_callback v.fdll.cb_data 0 (w.fdll.read_data_pos + k)
                      (w.fdll.read_data_len - k)
                      (((w.fdll.read_data.drop w.fdll.read_data_pos).take
                        w.fdll.read_data_len).drop k)])
              ∧ ∀ v2, fd_deferred_op u (fuel + 1) v = some v2 →
                  reads_since v.trace.length v2 = []
                  ∧ callbacks_since v.trace.length v2 =
                    [Event.read_callback v.fdll.cb_data 0 (w.fdll.read_data_pos + k)
                      (w.fdll.read_data_len - k)
                      (((w.fdll.read_data.drop w.fdll.read_data_pos).take
                        w.fdll.read_data_len).drop k)])) := by
  obtain ⟨w2, t, hd, -, -, -, hdat, hbig, hsmall, -⟩ :=
    fd_deliver_read_data_sum u 0 w w1 k cbs hcbs hrc (Or.inr hlen) hcb
  have hkm : k % UINT_MOD = k := Nat.mod_eq_of_lt hk
  rw [hkm] at hbig hsmall
  refine ⟨w2, hd, fun h => ?_, fun h => ?_⟩
  · obtain ⟨h1, h2⟩ := hbig (Or.inr h)
    exact ⟨h2, h1⟩
  · obtain ⟨hp, hl⟩ := hsmall rfl h
    have hpm : (w.fdll.read_data_pos + k) % UINT_MOD = w.fdll.read_data_pos + k :=
      Nat.mod_eq_of_lt (by omega)
    rw [hpm] at hp
    have hev : ∀ v : World H, v.fdll.read_data = w2.fdll.read_data →
        v.fdll.read_data_pos = w2.fdll.read_data_pos →
        v.fdll.read_data_len = w2.fdll.read_data_len →
        read_cb_event 0 v = Event.read_callback v.fdll.cb_data 0 (w.fdll.read_data_pos + k)
          (w.fdll.read_data_len - k)
          (((w.fdll.read_data.drop w.fdll.read_data_pos).take w.fdll.read_data_len).drop k) := by
      intro v h1 h2 h3
      unfold read_cb_event
      rw [h1, h2, h3, hp, hl, hdat, held_bytes]
    have hne : ∀ v : World H, v.fdll.read_data_len = w2.fdll.read_data_len →
        v.fdll.read_data_len ≠ 0 := by
      intro v h3
      rw [h3, hl]
      omega
    refine ⟨hp, hl, hdat, ?_, ?_⟩
    · intro v fd reads cbs2 h1 h2 h3 hin hc2 hr2 hret
      obtain ⟨v2, hv, hr, hc⟩ := fd_read_ready_held u fd reads v cbs2 hin (hne v h3) hc2 hr2 hret
      exact ⟨v2, hv, hr, by rw [hc, hev v h1 h2 h3]⟩
    · intro v vc fuel cbs2 h1 h2 h3 hdr hin hc2 hr2 hvc hret
      obtain ⟨vc1, hvc1, htr, e1, e2, e3, e4, e5, e6, e7⟩ := fd_deferred_op_close_spec u v
      rw [hvc] at hvc1
      cases hvc1
      obtain ⟨⟨k2, x1⟩, hk2⟩ := Option.isSome_iff_exists.mp hret
      have hev2 : read_cb_event 0 vc = read_cb_event 0 v := by
        unfold read_cb_event
        rw [e2, e3, e4, e5]
      have hk3 : callback u (read_cb_event 0 vc) (fd_unlock (set_deferred_read false vc))
          = some (k2, x1) := by rw [hev2]; exact hk2
      obtain ⟨vl, t2, hloop, htl, hct, hrt⟩ := fd_deferred_op_loop_held u fuel vc x1 k2 cbs2
        (e7.trans hdr) (e6.trans hin) (by rw [e5]; exact hne v h3) (e1.trans hc2) hr2 hk3
      rw [hev2, hev v h1 h2 h3, htr] at htl
      have hA : reads_since v.trace.length vl = [] := by
        simp [reads_since, htl, List.filter_append, hrt, Event.is_sys_read]
      have hB : callbacks_since v.trace.length vl =
          [Event.read_callback v.fdll.cb_data 0 (w.fdll.read_data_pos + k)
            (w.fdll.read_data_len - k)
            (((w.fdll.read_data.drop w.fdll.read_data_pos).take
              w.fdll.read_data_len).drop k)] := by
        simp [callbacks_since, htl, List.filter_append, hct, Event.is_user_callback]
      refine ⟨⟨vl, hloop, hA, hB⟩, ?_⟩
      intro v2 hv2
      unfold fd_deferred_op at hv2
      rw [hvc, Option.some_bind, hloop, Option.some_bind] at hv2
      obtain ⟨t3, ht3, hc3, hr3⟩ := (fd_deferred_op_finish_quiet hv2).suffix
      rw [htl] at ht3
      constructor
      · simp [reads_since, ht3, List.filter_append, hrt, hr3, Event.is_sys_read]
      · simp [callbacks_since, ht3, List.filter_append, hct, hc3, Event.is_user_callback]

/-- Witness of C8: the peer sent `abcdef` and `read_callback` returns 2; the
next read-ready event delivers `cdef` from offset 2 without reading, and so
does the trampoline. -/
theorem read_consumption_round_trip_witness :
    ∃ w2, fd_deliver_read_data ex_user_two 0 ex_abcdef = some w2
      ∧ w2.fdll.read_data_pos = 2 ∧ w2.fdll.read_data_len = 4
      ∧ (∃ v2, fd_read_ready ex_user_two 5 [] ex_cdef = some v2
          ∧ reads_since ex_cdef.trace.length v2 = []
          ∧ callbacks_since ex_cdef.trace.length v2 =
              [Event.read_callback 77 0 2 4 [99, 100, 101, 102]])
      ∧ (∃ v2, fd_deferred_op ex_user_two 1 ex_cdef_deferred = some v2
          ∧ reads_since ex_cdef_deferred.trace.length v2 = []
          ∧ callbacks_since ex_cdef_deferred.trace.length v2 =
              [Event.read_callback 77 0 2 4 [99, 100, 101, 102]]) := by
  obtain ⟨w2, hd, -, hsmall⟩ := read_consumption_round_trip ex_user_two ex_abcdef _ 2 ex_cbs
    rfl (by decide) (by decide) (by decide) (by decide) (by decide) rfl
  obtain ⟨hp, hl, hdat, hnext, hdef⟩ := hsmall (by decide)
  refine ⟨w2, hd, hp, hl, ?_, ?_⟩
  · exact hnext ex_cdef 5 [] ex_cbs hdat.symm hp.symm hl.symm rfl rfl (by decide) rfl
  · obtain ⟨-, hall⟩ := hdef ex_cdef_deferred _ 0 ex_cbs hdat.symm hp.symm hl.symm rfl rfl rfl
      (by decide) rfl rfl
    exact ⟨_, rfl, hall _ rfl⟩

/-! ### Classification of the read result -/

theorem read_loop_skip_eintr (fd : Int) (j : Nat) (l : List ReadRes) (w : World H) :
    read_loop fd (List.replicate j (ReadRes.fail EINTR) ++ l) w
      = read_loop fd l { w with trace :=
          w.trace ++ List.replicate j (Event.sys_read fd w.fdll.read_data_size) } := by
  induction j generalizing w with
  | zero => simp
  | succ j ih =>
    rw [List.replicate_succ, List.cons_append, read_loop]
    simp only [if_pos]
    rw [ih]
    simp [emit, List.replicate_succ]

theorem recv_oob_loop_spec (fd : Int) (recvs : List SysRes) (w w1 : World H)
    (h : recv_oob_loop fd recvs w = some w1) :
    w1.fdll = w.fdll ∧ ∃ n, w1.trace = w.trace ++ List.replicate n (Event.sys_recv fd) := by
  induction recvs generalizing w with
  | nil => simp [recv_oob_loop] at h
  | cons r rest ih =>
    cases r with
    | ok rv =>
      simp only [recv_oob_loop] at h
      split_ifs at h
      · simp at h
        subst h
        exact ⟨rfl, 1, rfl⟩
      · obtain ⟨h1, n, h2⟩ := ih _ h
        refine ⟨h1, n + 1, ?_⟩
        rw [h2]
        simp [emit, List.replicate_succ]
    | fail e =>
      simp only [recv_oob_loop] at h
      split_ifs at h
      · simp at h
        subst h
        exact ⟨rfl, 1, rfl⟩
      · obtain ⟨h1, n, h2⟩ := ih _ h
        refine ⟨h1, n + 1, ?_⟩
        rw [h2]
        simp [emit, List.replicate_succ]

theorem no_read_callback_of_no_callback (t : List Event)
    (h : t.filter Event.is_user_callback = []) : t.filter Event.is_read_callback = [] := by
  rw [List.filter_eq_nil_iff] at *
  intro e he
  have h1 := h e he
  cases e <;> simp_all [Event.is_user_callback, Event.is_read_callback]

theorem filter_replicate_nil (p : Event → Bool) (n : Nat) (e : Event) (h : p e = false) :
    (List.replicate n e).filter p = [] := by
  rw [List.filter_eq_nil_iff]
  intro a ha
  rw [List.eq_of_mem_replicate ha, h]
  simp

theorem fd_handle_incoming_urgent_spec (u : User) (fd : Int) (recvs : List SysRes)
    (x wu : World H) (h : fd_handle_incoming_urgent u fd recvs x = some wu) :
    (∃ t, wu.trace = x.trace ++ t ∧ t.filter Event.is_read_callback = []
        ∧ t.filter Event.is_sys_read = [])
      ∧ wu.fdll.read_data_len = x.fdll.read_data_len
      ∧ (x.fdll.in_read = true → wu.fdll.in_read = true) := by
  unfold fd_handle_incoming_urgent at h
  simp only [Option.bind_eq_some] at h
  obtain ⟨w1, hrecv, h⟩ := h
  obtain ⟨hf, n, htr⟩ := recv_oob_loop_spec fd recvs x w1 hrecv
  cases hc : w1.fdll.cbs with
  | none => simp [hc] at h
  | some cbs =>
    simp only [hc] at h
    cases hu : cbs.urgent_callback with
    | none =>
      simp [hu] at h
      subst h
      refine ⟨⟨_, htr, ?_, ?_⟩, by rw [hf], fun hi => by rw [hf]; exact hi⟩
      · exact filter_replicate_nil _ _ _ rfl
      · exact filter_replicate_nil _ _ _ rfl
    | some f =>
      simp only [hu, Option.bind_eq_some] at h
      obtain ⟨r, hcb, h⟩ := h
      simp at h
      subst h
      obtain ⟨-, hq⟩ := callback_eq hcb
      obtain ⟨t, ht, hct, hrt⟩ := hq.suffix
      obtain ⟨-, -, -, -, -, hl, -, hi⟩ := hq
      simp only [emit_fdll, fd_unlock_fdll, emit_trace, fd_unlock_trace] at ht hl hi
      refine ⟨⟨List.replicate n (Event.sys_recv fd) ++
          [Event.unlock, Event.urgent_callback w1.fdll.cb_data] ++ t ++ [Event.lock],
          ?_, ?_, ?_⟩, ?_, ?_⟩
      · simp [ht, htr]
      · simp [List.filter_append, no_read_callback_of_no_callback t hct,
          filter_replicate_nil, Event.is_read_callback]
      · simp [List.filter_append, hrt, filter_replicate_nil, Event.is_sys_read]
      · simp [hl, hf]
      · intro hx
        rw [← hf] at hx
        exact (hi hx).1

theorem read_loop_zero (fd : Int) (e : Nat) (rest : List ReadRes) (w : World H) :
    read_loop fd (ReadRes.ok [] e :: rest) w
      = some (EPIPE, read_store [] (emit (Event.sys_read fd w.fdll.read_data_size) w)) := by
  have h0 : to_int 0 = 0 := to_int_of_le 0 (Nat.zero_le _)
  simp only [read_loop, List.length_nil, h0, lt_self_iff_false, if_false, if_true]

theorem read_loop_pos (fd : Int) (data : List Nat) (e : Nat) (rest : List ReadRes)
    (w : World H) (hne : data ≠ []) (h : data.length ≤ INT_MAX) :
    read_loop fd (ReadRes.ok data e :: rest) w
      = some (0, { read_store data (emit (Event.sys_read fd w.fdll.read_data_size) w) with
          fdll := { (read_store data (emit (Event.sys_read fd w.fdll.read_data_size) w)).fdll
            with read_data_len := data.length } }) := by
  have hpos : 0 < data.length := List.length_pos.mpr hne
  have h1 : ¬ ((data.length : Int) < 0) := by omega
  have h2 : ¬ ((data.length : Int) = 0) := by omega
  simp only [read_loop, to_int_of_le data.length h]
  rw [if_neg h1, if_neg h2, Int.toNat_natCast]

/-- A count that does not fit `int rv` is taken for a failure: `read(2)` stores
3000000000 bytes while `errno` still holds 5 from earlier, and the status is 5
with nothing held, the bytes being in the buffer. -/
theorem read_loop_count_above_int_max (fd : Int) (data : List Nat) (rest : List ReadRes)
    (w : World H) (h : data.length = 3000000000) :
    read_loop fd (ReadRes.ok data 5 :: rest) w
      = some (5, read_store data (emit (Event.sys_read fd w.fdll.read_data_size) w)) := by
  have hneg : to_int 3000000000 = -1294967296 := by decide
  simp [read_loop, h, hneg, EINTR, EWOULDBLOCK, EAGAIN]

theorem read_loop_ok_cases {fd : Int} {data : List Nat} {e : Nat} {rest : List ReadRes}
    {w w1 : World H} {err : Nat}
    (h : read_loop fd (ReadRes.ok data e :: rest) w = some (err, w1)) :
    read_loop fd rest (read_store data (emit (Event.sys_read fd w.fdll.read_data_size) w))
        = some (err, w1)
    ∨ w1 = read_store data (emit (Event.sys_read fd w.fdll.read_data_size) w)
    ∨ w1 = { read_store data (emit (Event.sys_read fd w.fdll.read_data_size) w) with
        fdll := { (read_store data (emit (Event.sys_read fd w.fdll.read_data_size) w)).fdll
          with read_data_len := (to_int data.length).toNat } } := by
  simp only [read_loop] at h
  by_cases h1 : to_int data.length < 0
  · rw [if_pos h1] at h
    by_cases h2 : e = EINTR
    · rw [if_pos h2] at h
      exact Or.inl h
    · rw [if_neg h2] at h
      by_cases h3 : e = EAGAIN ∨ e = EWOULDBLOCK
      · rw [if_pos h3] at h
        simp only [Option.some.injEq, Prod.mk.injEq] at h
        exact Or.inr (Or.inl h.2.symm)
      · rw [if_neg h3] at h
        simp only [Option.some.injEq, Prod.mk.injEq] at h
        exact Or.inr (Or.inl h.2.symm)
  · rw [if_neg h1] at h
    by_cases h2 : to_int data.length = 0
    · rw [if_pos h2] at h
      simp only [Option.some.injEq, Prod.mk.injEq] at h
      exact Or.inr (Or.inl h.2.symm)
    · rw [if_neg h2] at h
      simp only [Option.some.injEq, Prod.mk.injEq] at h
      exact Or.inr (Or.inr h.2.symm)

theorem fd_handle_incoming_read_spec (fd : Int) (j : Nat) (r : ReadRes) (rest : List ReadRes)
    (wu : World H) (hempty : wu.fdll.read_data_len = 0) (hr : r ≠ ReadRes.fail EINTR)
    (hint : ∀ data e, r = ReadRes.ok data e → data.length ≤ INT_MAX) :
    ∃ err wr,
      fd_handle_incoming_read fd (List.replicate j (ReadRes.fail EINTR) ++ r :: rest) wu
        = some (err, wr)
      ∧ wr.trace = wu.trace ++ List.replicate (j + 1) (Event.sys_read fd wu.fdll.read_data_size)
      ∧ wr.fdll.cbs = wu.fdll.cbs
      ∧ (∀ e, r = ReadRes.ok [] e → err = EPIPE ∧ wr.fdll.read_data_len = 0)
      ∧ (∀ e, r = ReadRes.fail e → e ≠ EAGAIN → e ≠ EWOULDBLOCK →
          err = e ∧ wr.fdll.read_data_len = 0)
      ∧ (r = ReadRes.fail EAGAIN ∨ r = ReadRes.fail EWOULDBLOCK →
          err = 0 ∧ wr.fdll.read_data_len = 0)
      ∧ (∀ data e, r = ReadRes.ok data e → data ≠ [] →
          err = 0 ∧ wr.fdll.read_data_len = data.length
          ∧ wr.fdll.read_data_pos = wu.fdll.read_data_pos
          ∧ wr.fdll.read_data = data ++ wu.fdll.read_data.drop data.length) := by
  unfold fd_handle_incoming_read
  rw [if_pos hempty, read_loop_skip_eintr]
  cases r with
  | ok data e =>
    by_cases hd : data = []
    · subst hd
      refine ⟨EPIPE, _, read_loop_zero fd e rest _, ?_, rfl, ?_, ?_, ?_, ?_⟩
      · simp [read_store, emit, List.replicate_succ']
      · intro _ _
        exact ⟨rfl, hempty⟩
      · intro e h
        simp at h
      · intro h
        simp at h
      · intro data e1 h hne
        simp only [ReadRes.ok.injEq] at h
        exact absurd h.1.symm hne
    · refine ⟨0, _, read_loop_pos fd data e rest _ hd (hint data e rfl), ?_, rfl,
        ?_, ?_, ?_, ?_⟩
      · simp [read_store, emit, List.replicate_succ']
      · intro e1 h
        simp only [ReadRes.ok.injEq] at h
        exact absurd h.1 hd
      · intro e h
        simp at h
      · intro h
        simp at h
      · intro d e1 h _
        simp only [ReadRes.ok.injEq] at h
        obtain ⟨h, -⟩ := h
        subst h
        exact ⟨rfl, rfl, rfl, rfl⟩
  | fail e =>
    have he : e ≠ EINTR := fun h => hr (by rw [h])
    by_cases hag : e = EAGAIN ∨ e = EWOULDBLOCK
    · refine ⟨0, emit (Event.sys_read fd wu.fdll.read_data_size)
          { wu with
            trace := wu.trace ++ List.replicate j (Event.sys_read fd wu.fdll.read_data_size) },
        by simp [read_loop, he, hag], ?_, rfl, ?_, ?_, ?_, ?_⟩
      · simp [emit, List.replicate_succ']
      · intro e1 h
        simp at h
      · intro e1 h h1 h2
        simp only [ReadRes.fail.injEq] at h
        subst h
        rcases hag with h | h
        · exact absurd h h1
        · exact absurd h h2
      · intro _
        exact ⟨rfl, hempty⟩
      · intro d e1 h
        simp at h
    · refine ⟨e, emit (Event.sys_read fd wu.fdll.read_data_size)
          { wu with
            trace := wu.trace ++ List.replicate j (Event.sys_read fd wu.fdll.read_data_size) },
        by simp [read_loop, he, hag], ?_, rfl, ?_, ?_, ?_, ?_⟩
      · simp [emit, List.replicate_succ']
      · intro e1 h
        simp at h
      · intro e1 h _ _
        simp only [ReadRes.fail.injEq] at h
        subst h
        exact ⟨rfl, hempty⟩
      · intro h
        simp only [ReadRes.fail.injEq] at h
        exact absurd h hag
      · intro d e1 h
        simp at h

theorem fd_handle_incoming_urged (u : User) (fd : Int) (urgent : Bool) (recvs : List SysRes)
    (w wu : World H)
    (hurg : (if urgent = true then
        fd_handle_incoming_urgent u fd recvs (set_in_read true (fd_handle_incoming_enter w))
      else some (set_in_read true (fd_handle_incoming_enter w))) = some wu) :
    (∃ t, wu.trace = w.trace ++ t ∧ t.filter Event.is_read_callback = []
        ∧ t.filter Event.is_sys_read = [])
      ∧ wu.fdll.read_data_len = w.fdll.read_data_len := by
  cases urgent with
  | true =>
    simp only [if_true] at hurg
    obtain ⟨⟨t, ht, hc, hr⟩, hl, -⟩ := fd_handle_incoming_urgent_spec u fd recvs _ wu hurg
    refine ⟨⟨[Event.lock, Event.set_read_handler w.fdll.fd false,
      Event.set_except_handler w.fdll.fd false] ++ t, ?_, ?_, ?_⟩, hl⟩
    · simp [ht, fd_handle_incoming_enter]
    · simp [List.filter_append, hc, Event.is_read_callback]
    · simp [List.filter_append, hr, Event.is_sys_read]
  | false =>
    simp at hurg
    subst hurg
    refine ⟨⟨[Event.lock, Event.set_read_handler w.fdll.fd false,
      Event.set_except_handler w.fdll.fd false], ?_, ?_, ?_⟩, rfl⟩
    · simp [fd_handle_incoming_enter]
    · simp [Event.is_read_callback]
    · simp [Event.is_sys_read]

/-- C9: in `fd_handle_incoming` entered with `in_read` clear and nothing held,
the first `read(2)` result that is not an `EINTR` failure decides the status
`err` handed to the delivery: a return of 0 gives `EPIPE`, a failure other
than `EAGAIN` and `EWOULDBLOCK` gives its `errno`, `EAGAIN` and `EWOULDBLOCK`
give 0, all three with nothing held, and a positive return gives 0 with that
many bytes held. With status 0 and nothing held no `read_callback` is invoked;
otherwise `read_callback` is invoked exactly once, with that status and the
held length, and after a non-zero status the buffer is empty. A return is a
value of the `int rv` it is kept in, so at most `INT_MAX`. (`wu` is the
stream after the urgent-data block, which is skipped on a read-ready event.) -/
theorem fd_handle_incoming_classifies (u : User) (fd : Int) (urgent : Bool)
    (recvs : List SysRes) (j : Nat) (r : ReadRes) (rest : List ReadRes) (w wu : World H)
    (cbs : genio_ll_callbacks)
    (hin : w.fdll.in_read = false) (hempty : w.fdll.read_data_len = 0)
    (hr : r ≠ ReadRes.fail EINTR)
    (hint : ∀ data e, r = ReadRes.ok data e → data.length ≤ INT_MAX)
    (hurg : (if urgent = true then
        fd_handle_incoming_urgent u fd recvs (set_in_read true (fd_handle_incoming_enter w))
      else some (set_in_read true (fd_handle_incoming_enter w))) = some wu)
    (hcbs : wu.fdll.cbs = some cbs) (hrc : cbs.read_callback ≠ none) :
    ∃ err wr,
      fd_handle_incoming_read fd (List.replicate j (ReadRes.fail EINTR) ++ r :: rest) wu
        = some (err, wr)
      ∧ (∀ e, r = ReadRes.ok [] e → err = EPIPE ∧ wr.fdll.read_data_len = 0)
      ∧ (∀ e, r = ReadRes.fail e → e ≠ EAGAIN → e ≠ EWOULDBLOCK →
          err = e ∧ wr.fdll.read_data_len = 0)
      ∧ (r = ReadRes.fail EAGAIN ∨ r = ReadRes.fail EWOULDBLOCK →
          err = 0 ∧ wr.fdll.read_data_len = 0)
      ∧ (∀ data e, r = ReadRes.ok data e → data ≠ [] →
          err = 0 ∧ wr.fdll.read_data_len = data.length)
      ∧ (err = 0 → wr.fdll.read_data_len = 0 →
          ∃ v2, fd_handle_incoming u fd urgent recvs
              (List.replicate j (ReadRes.fail EINTR) ++ r :: rest) w = some v2
            ∧ read_callbacks_since w.trace.length v2 = [])
      ∧ (err ≠ 0 ∨ wr.fdll.read_data_len ≠ 0 →
          (callback u (read_cb_event err wr) (fd_unlock wr)).isSome →
          ∃ v2, fd_handle_incoming u fd urgent recvs
              (List.replicate j (ReadRes.fail EINTR) ++ r :: rest) w = some v2
            ∧ read_callbacks_since w.trace.length v2 =
                [Event.read_callback wr.fdll.cb_data err wr.fdll.read_data_pos
                  wr.fdll.read_data_len
                  ((wr.fdll.read_data.drop wr.fdll.read_data_pos).take wr.fdll.read_data_len)]
            ∧ (err ≠ 0 → v2.fdll.read_data_len = 0 ∧ v2.fdll.read_data_pos = 0)) := by
  obtain ⟨⟨pre, hpre, hpc, hps⟩, hlu⟩ := fd_handle_incoming_urged u fd urgent recvs w wu hurg
  obtain ⟨err, wr, hread, htr, hcb2, c1, c2, c3, c4⟩ :=
    fd_handle_incoming_read_spec fd j r rest wu (hlu.trans hempty) hr hint
  have hin2 : (fd_handle_incoming_enter w).fdll.in_read = false := hin
  have hrun : fd_handle_incoming u fd urgent recvs
      (List.replicate j (ReadRes.fail EINTR) ++ r :: rest) w
      = (fd_deliver_read_data u err wr).bind fun w =>
          some (fd_handle_incoming_out (set_in_read false w)) := by
    unfold fd_handle_incoming
    simp only [hin2, hurg, Option.some_bind, hread]
    simp
  refine ⟨err, wr, hread, c1, c2, c3,
    fun d e h1 h2 => ⟨(c4 d e h1 h2).1, (c4 d e h1 h2).2.1⟩, ?_, ?_⟩
  · intro he hl
    have hdel : fd_deliver_read_data u err wr = some wr := by
      unfold fd_deliver_read_data
      simp [he, hl]
    have hq := fd_handle_incoming_out_quiet (set_in_read false wr)
    obtain ⟨t2, ht2, hc2, -⟩ := hq.suffix
    refine ⟨_, by rw [hrun, hdel]; rfl, ?_⟩
    simp [read_callbacks_since, ht2, htr, hpre, List.filter_append, hpc,
      no_read_callback_of_no_callback t2 hc2, filter_replicate_nil, Event.is_read_callback]
  · intro hne hret
    obtain ⟨⟨k, x1⟩, hk⟩ := Option.isSome_iff_exists.mp hret
    obtain ⟨w2, t, hd, ht, hct, -, -, hbig, -, -⟩ :=
      fd_deliver_read_data_sum u err wr x1 k cbs (hcb2.trans hcbs) hrc hne hk
    have hq := fd_handle_incoming_out_quiet (set_in_read false w2)
    obtain ⟨t2, ht2, hc2, -⟩ := hq.suffix
    obtain ⟨-, -, -, -, hp2, hl2, -, -⟩ := hq
    refine ⟨_, by rw [hrun, hd]; rfl, ?_, ?_⟩
    · simp [read_callbacks_since, ht2, ht, htr, hpre, List.filter_append, hpc,
        no_read_callback_of_no_callback t2 hc2, no_read_callback_of_no_callback t hct,
        filter_replicate_nil, Event.is_read_callback, read_cb_event]
    · intro he
      obtain ⟨h1, h2⟩ := hbig (Or.inl he)
      exact ⟨hl2.trans h2, hp2.trans h1⟩

/-- Witness of C9: a read-ready event on the example stream whose `read(2)`
is interrupted once and then returns 0. -/
theorem fd_handle_incoming_classifies_witness :
    ∃ v2, fd_handle_incoming ex_user_idle 5 false []
        (List.replicate 1 (ReadRes.fail EINTR) ++ ReadRes.ok [] EINTR :: []) ex_open = some v2
      ∧ read_callbacks_since ex_open.trace.length v2 = [Event.read_callback 77 EPIPE 0 0 []]
      ∧ v2.fdll.read_data_len = 0 ∧ v2.fdll.read_data_pos = 0 := by
  obtain ⟨err, wr, hread, c1, -, -, -, -, hcb⟩ := fd_handle_incoming_classifies ex_user_idle 5
    false [] 1 (ReadRes.ok [] EINTR) [] ex_open
    (set_in_read true (fd_handle_incoming_enter ex_open))
    ex_cbs rfl rfl (by decide)
    (fun d e h => by
      simp only [ReadRes.ok.injEq] at h
      rw [← h.1]
      decide)
    rfl rfl (by decide)
  obtain ⟨he, -⟩ := c1 EINTR rfl
  subst he
  obtain ⟨v2, h1, h2, h3⟩ := hcb (Or.inl (by decide)) rfl
  refine ⟨v2, h1, ?_, h3 (by decide)⟩
  rw [h2]
  have hval : fd_handle_incoming_read 5
      (List.replicate 1 (ReadRes.fail EINTR) ++ ReadRes.ok [] EINTR :: [])
      (set_in_read true (fd_handle_incoming_enter ex_open))
      = some (EPIPE, read_store [] (emit (Event.sys_read 5 8) (emit (Event.sys_read 5 8)
          (set_in_read true (fd_handle_incoming_enter ex_open))))) := by
    have hz : (set_in_read true (fd_handle_incoming_enter ex_open)).fdll.read_data_len = 0 :=
      rfl
    unfold fd_handle_incoming_read
    rw [if_pos hz, read_loop_skip_eintr, read_loop_zero]
    rfl
  rw [hval] at hread
  cases hread
  rfl

/-! ### Completion callbacks -/

/-- C5: on the example stream, `fd_close` with a `close_done` callback
returns 0 and the handlers-cleared event drives the stream to `FD_CLOSED`, but
no `close_done` is invoked: `fd_finish_close` clears the slot before testing
it. The same holds when the close completes behind a pending trampoline, which
delivers only the held read data. -/
theorem close_done_not_invoked :
    (∃ w1 w2, fd_close (some 4) 9 ex_open = some (0, w1)
      ∧ w1.fdll.close_done = some 4
      ∧ fd_cleared ex_user_idle w1 = some w2
      ∧ w2.fdll.state = FD_CLOSED
      ∧ w2.trace = [Event.set_fd_handlers 5, Event.lock, Event.clear_fd_handlers 5,
          Event.unlock, Event.lock, Event.sys_close 5, Event.unlock])
    ∧ (∃ w1 w2 w3, fd_close (some 4) 9 ex_cdef_deferred = some (0, w1)
      ∧ fd_cleared ex_user_two w1 = some w2
      ∧ w2.fdll.deferred_close = true
      ∧ fd_deferred_op ex_user_two 1 w2 = some w3
      ∧ w3.fdll.state = FD_CLOSED
      ∧ callbacks_since 0 w3 = [Event.read_callback 77 0 2 4 [99, 100, 101, 102]]) :=
  ⟨⟨_, _, rfl, rfl, rfl, rfl, rfl⟩, ⟨_, _, _, rfl, rfl, rfl, rfl, rfl, rfl⟩⟩

/-- C10: for the address list `[A, B]` where the connect to `A` is refused and
the connect to `B` completes asynchronously (`EINPROGRESS`, then a write-ready
event with a successful `check_open`), the open succeeds and `open_done`
reports 0, but the stored peer address is still the zeroed one of length 0:
`tcp_get_raddr` hands back no byte of `B`. When the connect to `B` completes
inside `tcp_try_open`, the stored address is that of `B`. -/
theorem async_connect_leaves_raddr_unset :
    (∃ w1 w2, fd_open (some 1) 42 0 ex_fallback = some (EINPROGRESS, w1)
      ∧ fd_write_ready ex_user_idle 0 w1 = some w2
      ∧ w2.fdll.state = FD_OPEN
      ∧ callbacks_since 0 w2 = [Event.open_done 1 77 0 42]
      ∧ w2.fdll.handler_data.calls = [KCall.socket 2, KCall.fcntl 7, KCall.setsockopt 7,
          KCall.connect 7 ex_addr_A.ai_addr 16, KCall.connect 7 ex_addr_B.ai_addr 16,
          KCall.getsockopt 7]
      ∧ w2.fdll.handler_data.tdata.raddrlen = 0
      ∧ fd_get_raddr (List.replicate 16 255) 16 w2 = some (0, List.replicate 16 255, 0))
    ∧ (∃ w1, fd_open (some 1) 42 0
          (ex_tcp_stream FD_CLOSED (-1) [ex_addr_A, ex_addr_B]
            [SysRes.ok 7, SysRes.ok 0, SysRes.ok 0, SysRes.fail ECONNREFUSED, SysRes.ok 0])
          = some (0, w1)
      ∧ fd_get_raddr (List.replicate 16 255) 16 w1
          = some (0, ex_addr_B.ai_addr, ex_addr_B.ai_addrlen)) :=
  ⟨⟨_, _, rfl, rfl, rfl, rfl, rfl, rfl, rfl⟩, ⟨_, rfl, rfl⟩⟩

theorem callbacks_since_append (n : Nat) (w w1 : World H) (t : List Event)
    (hn : n ≤ w.trace.length) (ht : w1.trace = w.trace ++ t) :
    callbacks_since n w1 = callbacks_since n w ++ t.filter Event.is_user_callback := by
  simp [callbacks_since, ht, List.drop_append_of_le_length hn]

theorem Keeps.krefl (w : World H) : Keeps w w :=
  ⟨⟨[], by simp, rfl⟩, rfl, rfl, rfl, rfl, rfl⟩

theorem Keeps.ktrans {a b c : World H} (h1 : Keeps a b) (h2 : Keeps b c) : Keeps a c := by
  obtain ⟨⟨t1, e1, c1⟩, a1, b1, d1, s1, o1⟩ := h1
  obtain ⟨⟨t2, e2, c2⟩, a2, b2, d2, s2, o2⟩ := h2
  refine ⟨⟨t1 ++ t2, ?_, ?_⟩, a2.trans a1, b2.trans b1, d2.trans d1, s2.trans s1, o2.trans o1⟩
  · rw [e2, e1, List.append_assoc]
  · rw [List.filter_append, c1, c2]; rfl

theorem Keeps.then_emit {a b : World H} (h : Keeps a b) (e : Event)
    (he : e.is_user_callback = false) : Keeps a (emit e b) :=
  h.ktrans ⟨⟨[e], rfl, by simp [he]⟩, rfl, rfl, rfl, rfl, rfl⟩

theorem Keeps.then_set_fd {a b : World H} (h : Keeps a b) (fd : Int) : Keeps a (set_fd fd b) :=
  h.ktrans ⟨⟨[], by simp [Genio.set_fd], rfl⟩, rfl, rfl, rfl, rfl, rfl⟩

theorem Keeps.then_set_handler_data {a b : World H} (h : Keeps a b) (hd : H) :
    Keeps a (set_handler_data hd b) :=
  h.ktrans ⟨⟨[], by simp [Genio.set_handler_data], rfl⟩, rfl, rfl, rfl, rfl, rfl⟩

theorem Keeps.then_setup {a b : World H} (h : Keeps a b) (sfh : Int) :
    Keeps a (fd_setup_handlers sfh b).2 := by
  refine h.ktrans ?_
  unfold fd_setup_handlers
  split_ifs <;> exact (Keeps.krefl b).then_emit (Event.set_fd_handlers b.fdll.fd) rfl

theorem Pending.of_keeps {f : Nat} {a b c : World H} (h1 : Keeps a b) (h2 : Pending f b c) :
    Pending f a c := by
  obtain ⟨⟨t1, e1, c1⟩, -, b1, d1, -, -⟩ := h1
  obtain ⟨⟨t2, e2, c2⟩, a2, b2, d2, s2⟩ := h2
  refine ⟨⟨t1 ++ t2, ?_, ?_⟩, a2, b2.trans b1, d2.trans d1, s2⟩
  · rw [e2, e1, List.append_assoc]
  · rw [List.filter_append, c1, c2]; rfl

theorem Pending.keeps {f : Nat} {a b c : World H} (h1 : Pending f a b) (h2 : Keeps b c) :
    Pending f a c := by
  obtain ⟨⟨t1, e1, c1⟩, a1, b1, d1, s1⟩ := h1
  obtain ⟨⟨t2, e2, c2⟩, a2, b2, d2, s2, o2⟩ := h2
  refine ⟨⟨t1 ++ t2, ?_, ?_⟩, a2.trans a1, b2.trans b1, d2.trans d1, ?_⟩
  · rw [e2, e1, List.append_assoc]
  · rw [List.filter_append, c1, c2]; rfl
  · rw [s2, o2]
    exact s1

theorem Delivers.after {e : Event} {a b c : World H} (h1 : Keeps a b)
    (h2 : Delivers e b c) : Delivers e a c := by
  obtain ⟨⟨t1, e1, c1⟩, -⟩ := h1
  obtain ⟨t2, e2, c2⟩ := h2
  refine ⟨t1 ++ t2, ?_, ?_⟩
  · rw [e2, e1, List.append_assoc]
  · rw [List.filter_append, c1, c2]; rfl

theorem Delivers.then_quiet {e : Event} {a b c : World H} (h1 : Delivers e a b) (t : List Event)
    (ht : c.trace = b.trace ++ t) (hc : t.filter Event.is_user_callback = []) :
    Delivers e a c := by
  obtain ⟨t1, e1, c1⟩ := h1
  refine ⟨t1 ++ t, ?_, ?_⟩
  · rw [ht, e1, List.append_assoc]
  · rw [List.filter_append, c1, hc]; rfl

theorem fd_finish_open_handlers_quiet (w : World H) : Quiet w (fd_finish_open_handlers w) := by
  unfold fd_finish_open_handlers
  simp only [emit]
  split_ifs <;>
    simp [Quiet, callbacks_since, reads_since, Event.is_user_callback, Event.is_sys_read]

theorem fd_start_close_fields {w w1 : World H} (h : fd_start_close w = some w1) :
    w1.fdll.state = FD_IN_CLOSE ∧ w1.fdll.open_done = w.fdll.open_done
      ∧ w1.fdll.open_data = w.fdll.open_data ∧ w1.fdll.open_err = w.fdll.open_err
      ∧ w1.fdll.cb_data = w.fdll.cb_data := by
  unfold fd_start_close at h
  cases hc : w.fdll.ops.check_close with
  | none =>
    simp [hc, emit] at h
    subst h
    exact ⟨rfl, rfl, rfl, rfl, rfl⟩
  | some cc =>
    simp only [hc, emit] at h
    cases hr : cc w.fdll.handler_data close_state.GENIO_LL_CLOSE_STATE_START with
    | none => simp [hr] at h
    | some r =>
      simp [hr] at h
      subst h
      exact ⟨rfl, rfl, rfl, rfl, rfl⟩

theorem fd_finish_open_spec (u : User) (err : Nat) (w w1 : World H) (f : Nat)
    (hod : w.fdll.open_done = some f) (h : fd_finish_open u err w = some w1) :
    (err ≠ 0 ∧ Pending f w w1)
    ∨ (err = 0 ∧ Delivers (Event.open_done f w.fdll.cb_data 0 w.fdll.open_data) w w1) := by
  unfold fd_finish_open at h
  by_cases he : err = 0
  · right
    refine ⟨he, ?_⟩
    simp only [he, ne_eq, not_true_eq_false, if_false, hod, Option.bind_eq_some] at h
    obtain ⟨w2, ⟨r, hcb, h2⟩, h3⟩ := h
    simp at h2 h3
    subst h2 h3
    obtain ⟨-, hq⟩ := callback_eq hcb
    obtain ⟨t1, ht1, hc1, -⟩ := hq.suffix
    obtain ⟨t2, ht2, hc2, -⟩ := (fd_finish_open_handlers_quiet (fd_lock r.2)).suffix
    refine ⟨[Event.unlock, Event.open_done f w.fdll.cb_data 0 w.fdll.open_data] ++ t1
      ++ [Event.lock] ++ t2, ?_, ?_⟩
    · rw [ht2, fd_lock_trace, ht1]
      simp [emit, fd_unlock]
    · simp [List.filter_append, hc1, hc2, Event.is_user_callback]
  · left
    refine ⟨he, ?_⟩
    rw [if_pos he] at h
    obtain ⟨t, ht, hc, -⟩ := (fd_start_close_quiet h).suffix
    obtain ⟨h1, h2, h3, h4, h5⟩ := fd_start_close_fields h
    exact ⟨⟨t, ht, hc⟩, h2.trans hod, h3, h5, Or.inr ⟨h1, by rw [h4]; exact he⟩⟩

theorem fd_write_ready_retry_spec (u : User) (sfh : Int) (w w1 : World H) (f : Nat)
    (hst : w.fdll.state = FD_IN_OPEN) (hod : w.fdll.open_done = some f)
    (h : fd_write_ready_retry u sfh w = some w1) :
    Pending f w w1
    ∨ Delivers (Event.open_done f w.fdll.cb_data 0 w.fdll.open_data) w w1 := by
  unfold fd_write_ready_retry at h
  have k0 : Keeps w (set_fd (-1) (emit (Event.sys_close w.fdll.fd)
      (emit (Event.clear_fd_handlers_norpt w.fdll.fd) w))) :=
    (((Keeps.krefl w).then_emit (Event.clear_fd_handlers_norpt w.fdll.fd) rfl).then_emit
      (Event.sys_close w.fdll.fd) rfl).then_set_fd (-1)
  cases hro : w.fdll.retry_open with
  | none =>
    have hro2 : (set_fd (-1) (emit (Event.sys_close w.fdll.fd)
      (emit (Event.clear_fd_handlers_norpt w.fdll.fd) w))).fdll.retry_open = none := hro
    simp [hro2] at h
  | some retry_open =>
    have hro2 : (set_fd (-1) (emit (Event.sys_close w.fdll.fd)
      (emit (Event.clear_fd_handlers_norpt w.fdll.fd) w))).fdll.retry_open
        = some retry_open := hro
    simp only [emit_fdll, hro2, Option.bind_eq_some] at h
    obtain ⟨r, -, h⟩ := h
    have k1 := ((k0.then_emit Event.hook_retry_open rfl).then_set_handler_data r.2.1).then_set_fd r.2.2
    split_ifs at h with h1 h2
    · rcases fd_finish_open_spec u _ _ _ f (k1.2.1.trans hod) h with ⟨-, hp⟩ | ⟨-, hd⟩
      · exact Or.inl (Pending.of_keeps k1 hp)
      · exact Or.inr (Delivers.after k1 hd)
    · have k2 := ((k1.then_setup sfh).then_emit (Event.sys_close
        (fd_setup_handlers sfh (set_fd r.2.2 (set_handler_data r.2.1
          (emit Event.hook_retry_open (set_fd (-1) (emit (Event.sys_close w.fdll.fd)
            (emit (Event.clear_fd_handlers_norpt w.fdll.fd) w))))))).2.fdll.fd) rfl).then_set_fd (-1)
      rcases fd_finish_open_spec u _ _ _ f (k2.2.1.trans hod) h with ⟨-, hp⟩ | ⟨he, -⟩
      · exact Or.inl (Pending.of_keeps k2 hp)
      · exact absurd he h2
    · simp at h
      subst h
      have k2 := (k1.then_setup sfh).then_emit (Event.set_write_handler
        (fd_setup_handlers sfh (set_fd r.2.2 (set_handler_data r.2.1
          (emit Event.hook_retry_open (set_fd (-1) (emit (Event.sys_close w.fdll.fd)
            (emit (Event.clear_fd_handlers_norpt w.fdll.fd) w))))))).2.fdll.fd true) rfl
      obtain ⟨ht, a1, b1, d1, s1, -⟩ := k2
      exact Or.inl ⟨ht, a1.trans hod, b1, d1, Or.inl (s1.trans hst)⟩

theorem fd_write_ready_opening_spec (u : User) (sfh : Int) (w w1 : World H) (f : Nat)
    (hst : w.fdll.state = FD_IN_OPEN) (hod : w.fdll.open_done = some f)
    (h : fd_write_ready_opening u sfh w = some w1) :
    Pending f w w1
    ∨ Delivers (Event.open_done f w.fdll.cb_data 0 w.fdll.open_data) w w1 := by
  unfold fd_write_ready_opening at h
  cases hco : w.fdll.check_open with
  | none => simp [hco] at h
  | some check_open =>
    simp only [hco, emit_fdll, Option.bind_eq_some] at h
    obtain ⟨c, -, w2, hfin, h⟩ := h
    simp at h
    subst h
    have k1 := ((Keeps.krefl w).then_emit (Event.hook_check_open w.fdll.fd) rfl).then_set_handler_data c.2
    have hu : Keeps w2 (fd_unlock w2) := (Keeps.krefl w2).then_emit Event.unlock rfl
    split_ifs at hfin with h1
    · rcases fd_write_ready_retry_spec u sfh _ w2 f (k1.2.2.2.2.1.trans hst)
        (k1.2.1.trans hod) hfin with hp | hd
      · exact Or.inl ((Pending.of_keeps k1 hp).keeps hu)
      · exact Or.inr ((Delivers.after k1 hd).then_quiet [Event.unlock] rfl rfl)
    · rcases fd_finish_open_spec u _ _ _ f (k1.2.1.trans hod) hfin with ⟨-, hp⟩ | ⟨-, hd⟩
      · exact Or.inl ((Pending.of_keeps k1 hp).keeps hu)
      · exact Or.inr ((Delivers.after k1 hd).then_quiet [Event.unlock] rfl rfl)

theorem fd_write_ready_in_open (u : User) (sfh : Int) (w w1 : World H) (f : Nat)
    (hst : w.fdll.state = FD_IN_OPEN) (hod : w.fdll.open_done = some f)
    (h : fd_write_ready u sfh w = some w1) :
    Pending f w w1
    ∨ Delivers (Event.open_done f w.fdll.cb_data 0 w.fdll.open_data) w w1 := by
  unfold fd_write_ready at h
  simp only [emit_fdll, fd_lock_fdll, hst, if_true, Option.bind_eq_some] at h
  obtain ⟨w2, hop, h⟩ := h
  simp at h
  subst h
  have k1 := ((Keeps.krefl w).then_emit Event.lock rfl).then_emit
    (Event.set_write_handler w.fdll.fd false) rfl
  have hu : Keeps w2 (fd_unlock w2) := (Keeps.krefl w2).then_emit Event.unlock rfl
  rcases fd_write_ready_opening_spec u sfh
    (emit (Event.set_write_handler w.fdll.fd false) (fd_lock w)) w2 f hst hod hop with hp | hd
  · exact Or.inl ((Pending.of_keeps k1 hp).keeps hu)
  · exact Or.inr ((Delivers.after k1 hd).then_quiet [Event.unlock] rfl rfl)

theorem fd_finish_cleared_close_spec (u : User) (w w1 : World H)
    (h : fd_finish_cleared_close u w = some w1) :
    ∃ t, w1.trace = w.trace ++ t ∧ t.filter Event.is_user_callback = [] := by
  unfold fd_finish_cleared_close at h
  simp only [Option.bind_eq_some] at h
  obtain ⟨w2, h2, h3⟩ := h
  obtain ⟨t, ht, hc, -⟩ := (fd_deref_and_unlock_quiet h3).suffix
  refine ⟨t, ?_, hc⟩
  rw [ht]
  split_ifs at h2
  · simp at h2
    subst h2
    rfl
  · simp [fd_finish_close] at h2
    subst h2
    rfl

theorem fd_finish_cleared_spec (u : User) (w w1 : World H) (f : Nat)
    (hod : w.fdll.open_done = some f) (h : fd_finish_cleared u w = some w1) :
    Delivers (Event.open_done f w.fdll.open_data w.fdll.open_err w.fdll.open_data) w w1 := by
  unfold fd_finish_cleared at h
  have hod2 : (set_fd (-1) (emit (Event.sys_close (fd_lock_and_ref w).fdll.fd)
      (fd_lock_and_ref w))).fdll.open_done = some f := hod
  simp only [hod2, Option.bind_eq_some] at h
  obtain ⟨w2, ⟨r, hcb, h2⟩, h3⟩ := h
  simp at h2
  subst h2
  obtain ⟨-, hq⟩ := callback_eq hcb
  obtain ⟨t1, ht1, hc1, -⟩ := hq.suffix
  obtain ⟨t2, ht2, hc2⟩ := fd_finish_cleared_close_spec u _ w1 h3
  refine ⟨[Event.lock, Event.sys_close w.fdll.fd, Event.unlock,
    Event.open_done f w.fdll.open_data w.fdll.open_err w.fdll.open_data] ++ t1
    ++ [Event.lock] ++ t2, ?_, ?_⟩
  · rw [ht2, fd_lock_trace, ht1]
    simp [emit, fd_unlock, fd_lock_and_ref, fd_lock, set_fd]
  · simp [List.filter_append, hc1, hc2, Event.is_user_callback]

theorem fd_cleared_spec (u : User) (w w1 : World H) (f : Nat)
    (hod : w.fdll.open_done = some f) (h : fd_cleared u w = some w1) :
    Keeps w w1
    ∨ Delivers (Event.open_done f w.fdll.open_data w.fdll.open_err w.fdll.open_data) w w1 := by
  unfold fd_cleared at h
  cases hcc : w.fdll.ops.check_close with
  | none =>
    simp only [hcc] at h
    exact Or.inr (fd_finish_cleared_spec u w w1 f hod h)
  | some cc =>
    simp only [hcc, fd_close_timeout, emit_fdll, Option.bind_eq_some] at h
    obtain ⟨r, -, h⟩ := h
    have k1 := ((Keeps.krefl w).then_emit
      (Event.hook_check_close close_state.GENIO_LL_CLOSE_STATE_DONE) rfl).then_set_handler_data r.2
    split_ifs at h
    · simp at h
      subst h
      exact Or.inl (k1.then_emit Event.start_timer rfl)
    · exact Or.inr (Delivers.after k1 (fd_finish_cleared_spec u _ w1 f (k1.2.1.trans hod) h))

theorem fd_open_inprogress (f : Nat) (open_data : Nat) (sfh : Int) (w0 w1 : World H)
    (h : fd_open (some f) open_data sfh w0 = some (EINPROGRESS, w1)) :
    w1.fdll.state = FD_IN_OPEN ∧ w1.fdll.open_done = some f
      ∧ w1.fdll.open_data = open_data ∧ w1.fdll.cb_data = w0.fdll.cb_data := by
  unfold fd_open at h
  cases hs : w0.fdll.ops.sub_open with
  | none => simp [hs, ENOTSUP, EINPROGRESS] at h
  | some sub =>
    simp only [hs, fd_lock, fd_unlock, emit, fd_setup_handlers, Option.bind_eq_some] at h
    obtain ⟨r, -, h⟩ := h
    split_ifs at h with h1 h2 h3 h4 h5 h6
    all_goals simp at h
    all_goals obtain ⟨he, rfl⟩ := h
    all_goals first
      | exact ⟨rfl, rfl, rfl, rfl⟩
      | (exfalso; simp_all [ENOMEM, EINPROGRESS])

theorem open_resolution_resolved (u : User) (n : Nat) (l : List Int) (w : World H)
    (h : callbacks_since n w ≠ []) : open_resolution u n l w = some w := by
  cases l with
  | nil => rfl
  | cons a l => simp [open_resolution, h]

theorem open_resolution_spec (u : User) (n : Nat) (f data cb : Nat) (sfhs : List Int)
    (w w2 : World H) (hn : n ≤ w.trace.length) (hc : callbacks_since n w = [])
    (hod : w.fdll.open_done = some f) (hdata : w.fdll.open_data = data)
    (hcb : w.fdll.cb_data = cb)
    (hst : w.fdll.state = FD_IN_OPEN ∨ (w.fdll.state = FD_IN_CLOSE ∧ w.fdll.open_err ≠ 0))
    (h : open_resolution u n sfhs w = some w2) :
    (callbacks_since n w2 = [] ∧ w2.fdll.open_done = some f
        ∧ (w2.fdll.state = FD_IN_OPEN ∨ w2.fdll.state = FD_IN_CLOSE))
    ∨ callbacks_since n w2 = [Event.open_done f cb 0 data]
    ∨ ∃ x e, e ≠ 0 ∧ callbacks_since n w2 = [Event.open_done f x e data] := by
  induction sfhs generalizing w with
  | nil =>
    simp [open_resolution] at h
    subst h
    refine Or.inl ⟨hc, hod, ?_⟩
    rcases hst with h1 | h1
    · exact Or.inl h1
    · exact Or.inr h1.1
  | cons sfh rest ih =>
    unfold open_resolution at h
    simp only [hc, ne_eq, not_true_eq_false, if_false] at h
    have pend : ∀ w1 : World H, Pending f w w1 → open_resolution u n rest w1 = some w2 →
        (callbacks_since n w2 = [] ∧ w2.fdll.open_done = some f
          ∧ (w2.fdll.state = FD_IN_OPEN ∨ w2.fdll.state = FD_IN_CLOSE))
        ∨ callbacks_since n w2 = [Event.open_done f cb 0 data]
        ∨ ∃ x e, e ≠ 0 ∧ callbacks_since n w2 = [Event.open_done f x e data] := by
      intro w1 hp hrun
      obtain ⟨⟨t, ht, hct⟩, a1, b1, d1, s1⟩ := hp
      refine ih w1 ?_ ?_ a1 (b1.trans hdata) (d1.trans hcb) s1 hrun
      · rw [ht, List.length_append]
        omega
      · rw [callbacks_since_append n w w1 t hn ht, hc, hct]
        rfl
    have deliv : ∀ (w1 : World H) (e : Event), Delivers e w w1 →
        open_resolution u n rest w1 = some w2 → callbacks_since n w2 = [e] := by
      intro w1 e hd hrun
      obtain ⟨t, ht, hct⟩ := hd
      have h1 : callbacks_since n w1 = [e] := by
        rw [callbacks_since_append n w w1 t hn ht, hc, hct]
        rfl
      rw [open_resolution_resolved u n rest w1 (by rw [h1]; simp)] at hrun
      rw [← Option.some.inj hrun]
      exact h1
    rcases hst with h1 | ⟨h1, h2⟩
    · simp only [h1, if_true, Option.bind_eq_some] at h
      obtain ⟨w1, hwr, hrun⟩ := h
      rcases fd_write_ready_in_open u sfh w w1 f h1 hod hwr with hp | hd
      · exact pend w1 hp hrun
      · right
        left
        rw [deliv w1 _ hd hrun, hdata, hcb]
    · have h3 : w.fdll.state ≠ FD_IN_OPEN := by rw [h1]; decide
      rw [if_neg h3, if_pos h1] at h
      simp only [Option.bind_eq_some] at h
      obtain ⟨w1, hcl, hrun⟩ := h
      rcases fd_cleared_spec u w w1 f hod hcl with hk | hd
      · obtain ⟨ht, a1, b1, d1, s1, o1⟩ := hk
        exact pend w1 ⟨ht, a1.trans hod, b1, d1, Or.inr ⟨s1.trans h1, by rw [o1]; exact h2⟩⟩ hrun
      · right
        right
        refine ⟨w.fdll.open_data, w.fdll.open_err, h2, ?_⟩
        rw [deliv w1 _ hd hrun, hdata]

/-- C11: `tcp_check_open` returns 0 whenever `getsockopt` itself succeeds,
whatever pending socket error `e` the call stored in the option value. So for
the single address `A` whose connect is in progress and whose `SO_ERROR` then
reports `ECONNREFUSED`, the write-ready event completes the open as a success:
`open_done` reports 0 and the stream is `FD_OPEN`, not `FD_CLOSED`. -/
theorem tcp_check_open_ignores_so_error :
    (∀ (h : TcpCtx) (fd : Int) (e : Nat),
      (tcp_check_open { h with answers := fun _ => SysRes.ok e } fd).map Prod.fst = some 0)
    ∧ (∃ w1 w2, fd_open (some 1) 42 0 ex_so_error = some (EINPROGRESS, w1)
      ∧ w1.fdll.handler_data.answers w1.fdll.handler_data.next = SysRes.ok ECONNREFUSED
      ∧ w1.fdll.handler_data.tdata.curr_ai = [ex_addr_A]
      ∧ fd_write_ready ex_user_idle 0 w1 = some w2
      ∧ w2.fdll.handler_data.calls = [KCall.socket 2, KCall.fcntl 7, KCall.setsockopt 7,
          KCall.connect 7 ex_addr_A.ai_addr 16, KCall.getsockopt 7]
      ∧ w2.fdll.state = FD_OPEN
      ∧ callbacks_since 0 w2 = [Event.open_done 1 77 0 42]) :=
  ⟨fun _ _ _ => rfl, ⟨_, _, rfl, rfl, rfl, rfl, rfl, rfl, rfl⟩⟩

/-! ### Strategy delegates -/

/-- C12, counterexample: on a stream whose strategy provides no
`raddr_to_str` hook, `fd_raddr_to_str` calls the null pointer: it does not
return, and so does not return `ENOTSUP`. -/
theorem fd_raddr_to_str_calls_missing_hook :
    ex_open.fdll.ops.raddr_to_str = none
    ∧ fd_raddr_to_str (some 0) [0, 0, 0, 0] 4 ex_open = none
    ∧ ∀ pos buf, fd_raddr_to_str (some 0) [0, 0, 0, 0] 4 ex_open ≠ some (ENOTSUP, pos, buf) :=
  ⟨rfl, rfl, fun _ _ h => Option.noConfusion h⟩

/-- C12, as amended: `fd_raddr_to_str` returns exactly what the strategy's
`raddr_to_str` hook returns (the hook is mandatory); `fd_get_raddr` and
`fd_remote_id` return exactly what their hook returns when the strategy
provides it, and `ENOTSUP`, leaving the caller's cells alone, when it does
not. -/
theorem strategy_delegates (w : World H) (pos : Option Nat) (buf : List Nat) (buflen : Nat)
    (addr : List Nat) (addrlen : Nat) (id : Int) :
    (∀ hook, w.fdll.ops.raddr_to_str = some hook →
        fd_raddr_to_str pos buf buflen w = hook w.fdll.handler_data pos buf buflen)
    ∧ (∀ hook, w.fdll.ops.get_raddr = some hook →
        fd_get_raddr addr addrlen w = hook w.fdll.handler_data addr addrlen)
    ∧ (w.fdll.ops.get_raddr = none → fd_get_raddr addr addrlen w = some (ENOTSUP, addr, addrlen))
    ∧ (∀ hook, w.fdll.ops.remote_id = some hook →
        fd_remote_id id w = hook w.fdll.handler_data)
    ∧ (w.fdll.ops.remote_id = none → fd_remote_id id w = some (ENOTSUP, id)) := by
  refine ⟨?_, ?_, ?_, ?_, ?_⟩
  · intro hook h
    simp [fd_raddr_to_str, h]
  · intro hook h
    simp [fd_get_raddr, h]
  · intro h
    simp [fd_get_raddr, h]
  · intro hook h
    simp [fd_remote_id, h]
  · intro h
    simp [fd_remote_id, h]

/-- Witness of C12: on a TCP client stream the three delegates hand back the
results of `tcp_raddr_to_str` and `tcp_get_raddr`, and `ENOTSUP` for the
remote id, which the TCP strategy does not provide. -/
theorem strategy_delegates_witness :
    fd_raddr_to_str (some 0) [0, 0, 0, 0] 4 (ex_tcp_stream FD_OPEN 7 [ex_addr_A] [])
        = tcp_raddr_to_str (ex_tcp_ctx [ex_addr_A] []) (some 0) [0, 0, 0, 0] 4
    ∧ fd_get_raddr [255, 255] 2 (ex_tcp_stream FD_OPEN 7 [ex_addr_A] [])
        = tcp_get_raddr (ex_tcp_ctx [ex_addr_A] []) [255, 255] 2
    ∧ fd_remote_id 3 (ex_tcp_stream FD_OPEN 7 [ex_addr_A] []) = some (ENOTSUP, 3) :=
  have h := strategy_delegates (ex_tcp_stream FD_OPEN 7 [ex_addr_A] []) (some 0) [0, 0, 0, 0] 4
    [255, 255] 2 3
  ⟨h.1 tcp_raddr_to_str rfl, h.2.1 tcp_get_raddr rfl, h.2.2.2.2 rfl⟩

/-! ### Close during an open -/

/-- C16: on the TCP client stream whose connect to `B` is in progress (no
failure recorded, `open_err` is 0), `fd_close` returns 0 and the
handlers-cleared event that finalises the close invokes the pending
`open_done` with status 0, although the stream never reached `FD_OPEN`. No
read, write or urgent callback is invoked. -/
theorem close_in_open_reports_open_success :
    ∃ w1 w2 w3, fd_open (some 1) 42 0 ex_fallback = some (EINPROGRESS, w1)
      ∧ w1.fdll.state = FD_IN_OPEN
      ∧ w1.fdll.open_err = 0
      ∧ fd_close (some 4) 9 w1 = some (0, w2)
      ∧ w2.fdll.state = FD_IN_CLOSE
      ∧ fd_cleared ex_user_idle w2 = some w3
      ∧ w3.fdll.state = FD_CLOSED
      ∧ callbacks_since 0 w3 = [Event.open_done 1 42 0 42] :=
  ⟨_, _, _, rfl, rfl, rfl, rfl, rfl, rfl, rfl, rfl⟩

/-! ### Registered handlers -/

/-- C20: for the address list `[A, B]` where the connect to `A` is in progress
on descriptor 7, `check_open` then fails and the retry connects to `B` at once
on descriptor 8, the write-ready event unregisters descriptor 7 and leaves the
stream `FD_OPEN` on descriptor 8 with no `set_fd_handlers` call for it: no
descriptor has handlers registered. -/
theorem sync_retry_registers_no_handlers :
    ∃ w1 w2, fd_open (some 1) 42 0 ex_retry_sync = some (EINPROGRESS, w1)
      ∧ w1.fdll.state = FD_IN_OPEN
      ∧ registered_fds w1.trace = [7]
      ∧ fd_write_ready ex_user_idle 0 w1 = some w2
      ∧ w2.fdll.state = FD_OPEN
      ∧ w2.fdll.fd = 8
      ∧ registered_fds w2.trace = []
      ∧ w2.trace = [Event.lock, Event.hook_sub_open, Event.set_fd_handlers 7,
          Event.set_write_handler 7 true, Event.unlock, Event.lock,
          Event.set_write_handler 7 false, Event.hook_check_open 7,
          Event.clear_fd_handlers_norpt 7, Event.sys_close 7, Event.hook_retry_open,
          Event.unlock, Event.open_done 1 77 0 42, Event.lock, Event.unlock, Event.unlock] :=
  ⟨_, _, rfl, rfl, rfl, rfl, rfl, rfl, rfl, rfl⟩

/-! ### The acceptor -/

theorem listener_fds_of_array (na : tcpna_data) (fds : List Int)
    (ha : na.acceptfds = some fds) (hn : na.nr_acceptfds = fds.length) :
    listener_fds na = some fds := by
  simp [listener_fds, ha, hn]

/-- C13: `tcpna_startup` returns `EBUSY` and leaves every field as it is when
`in_shutdown` or `setup` is set; otherwise, when `open_socket` hands back the
listeners `fds`, it returns 0 with `setup` and `enabled` set, read-readiness
enabled on each listener. `tcpna_shutdown` returns `EBUSY` and leaves every
field as it is when `setup` is clear; otherwise (the acceptor holding the
array of its `nr_acceptfds` listeners) it returns 0 with `in_shutdown` set,
`setup` and `enabled` clear and `nr_accept_close_waiting` the number of
listeners, the handlers of each listener being cleared. -/
theorem tcpna_startup_shutdown_contract (w : AccWorld) (os : OpenSocketRes) (fds : List Int)
    (done : Option Nat) (data : Nat) :
    (w.na.in_shutdown = true ∨ w.na.setup = true →
      tcpna_startup os w
        = some (EBUSY, { w with trace := w.trace ++ [AccEvent.lock, AccEvent.unlock] }))
    ∧ (w.na.in_shutdown = false → w.na.setup = false →
      ∃ w1, tcpna_startup (OpenSocketRes.ok fds) w = some (0, w1)
        ∧ w1.na.setup = true ∧ w1.na.enabled = true ∧ w1.na.in_shutdown = false
        ∧ w1.na.acceptfds = some fds ∧ w1.na.nr_acceptfds = fds.length
        ∧ w1.trace = w.trace ++ [AccEvent.lock, AccEvent.open_socket]
            ++ fds.map (fun fd => AccEvent.set_read_handler fd true) ++ [AccEvent.unlock])
    ∧ (w.na.setup = false →
      tcpna_shutdown done data w
        = some (EBUSY, { w with trace := w.trace ++ [AccEvent.lock, AccEvent.unlock] }))
    ∧ (w.na.setup = true → w.na.acceptfds = some fds → w.na.nr_acceptfds = fds.length →
      ∃ w1, tcpna_shutdown done data w = some (0, w1)
        ∧ w1.na.in_shutdown = true ∧ w1.na.setup = false ∧ w1.na.enabled = false
        ∧ w1.na.nr_accept_close_waiting = fds.length
        ∧ w1.na.shutdown_done = done ∧ w1.na.shutdown_data = data
        ∧ w1.trace = w.trace ++ [AccEvent.lock] ++ fds.map AccEvent.clear_fd_handlers
            ++ [AccEvent.unlock]) := by
  refine ⟨?_, ?_, ?_, ?_⟩
  · intro h
    simp [tcpna_startup, tcpna_lock, tcpna_unlock, acc_emit, h]
  · intro h1 h2
    simp [tcpna_startup, tcpna_lock, tcpna_unlock, acc_emit, h1, h2, tcpna_set_fd_enables,
      listener_fds, tcpna_ref]
  · intro h
    simp [tcpna_shutdown, tcpna_lock, tcpna_unlock, acc_emit, h]
  · intro h1 h2 h3
    simp [tcpna_shutdown, tcpna_lock, tcpna_unlock, acc_emit, h1, h2, h3, _tcpna_shutdown,
      listener_fds]

/-- Witness of C13: the idle example acceptor starts up on the listeners 3
and 4 and refuses a shutdown; the listening one refuses a startup and shuts
down, waiting for two listeners. -/
theorem tcpna_startup_shutdown_contract_witness :
    (∃ w1, tcpna_startup (OpenSocketRes.ok [3, 4]) ex_acceptor = some (0, w1)
      ∧ w1.na.setup = true ∧ w1.na.enabled = true ∧ w1.na.in_shutdown = false
      ∧ w1.na.acceptfds = some [3, 4] ∧ w1.na.nr_acceptfds = [3, 4].length
      ∧ w1.trace = ex_acceptor.trace ++ [AccEvent.lock, AccEvent.open_socket]
          ++ [3, 4].map (fun fd => AccEvent.set_read_handler fd true) ++ [AccEvent.unlock])
    ∧ tcpna_shutdown (some 8) 21 ex_acceptor
        = some (EBUSY, { ex_acceptor with
            trace := ex_acceptor.trace ++ [AccEvent.lock, AccEvent.unlock] })
    ∧ tcpna_startup (OpenSocketRes.ok [5]) ex_listening
        = some (EBUSY, { ex_listening with
            trace := ex_listening.trace ++ [AccEvent.lock, AccEvent.unlock] })
    ∧ (∃ w1, tcpna_shutdown (some 8) 21 ex_listening = some (0, w1)
      ∧ w1.na.in_shutdown = true ∧ w1.na.setup = false ∧ w1.na.enabled = false
      ∧ w1.na.nr_accept_close_waiting = [3, 4].length
      ∧ w1.na.shutdown_done = some 8 ∧ w1.na.shutdown_data = 21
      ∧ w1.trace = ex_listening.trace ++ [AccEvent.lock] ++ [3, 4].map AccEvent.clear_fd_handlers
          ++ [AccEvent.unlock]) :=
  ⟨(tcpna_startup_shutdown_contract ex_acceptor (OpenSocketRes.ok [3, 4]) [3, 4]
      (some 8) 21).2.1 rfl rfl,
    (tcpna_startup_shutdown_contract ex_acceptor (OpenSocketRes.ok [3, 4]) [3, 4]
      (some 8) 21).2.2.1 rfl,
    (tcpna_startup_shutdown_contract ex_listening (OpenSocketRes.ok [5]) [3, 4]
      (some 8) 21).1 (Or.inr rfl),
    (tcpna_startup_shutdown_contract ex_listening (OpenSocketRes.ok [5]) [3, 4]
      (some 8) 21).2.2.2 rfl rfl rfl⟩

/-- C17: when the duplication of the address list succeeds and the `zalloc`
of the acceptor structure returns `NULL`, `tcp_genio_acceptor_alloc` jumps to
`out_nomem`, where `nadata->lock` is read through the null pointer: the call
does not return `ENOMEM` (it does not return). For every other combination
the claim holds: 0 with the cell written when all four allocations succeed,
`ENOMEM` with the cell untouched otherwise. -/
theorem tcp_genio_acceptor_alloc_reads_null (self : Nat) (name : List Nat)
    (iai : List addrinfo) (max_read_size : Nat) (cbs : Option genio_acceptor_callbacks)
    (user_data : Nat) (cell : Option AccWorld) :
    (∀ lock nm, tcp_genio_acceptor_alloc
        { ai := true, nadata := false, lock := lock, name := nm }
        self name iai max_read_size cbs user_data cell = none)
    ∧ (∀ nadata lock nm, tcp_genio_acceptor_alloc
        { ai := false, nadata := nadata, lock := lock, name := nm }
        self name iai max_read_size cbs user_data cell = some (ENOMEM, cell))
    ∧ (∀ nm, tcp_genio_acceptor_alloc
        { ai := true, nadata := true, lock := false, name := nm }
        self name iai max_read_size cbs user_data cell = some (ENOMEM, cell))
    ∧ tcp_genio_acceptor_alloc
        { ai := true, nadata := true, lock := true, name := false }
        self name iai max_read_size cbs user_data cell = some (ENOMEM, cell)
    ∧ (∃ w, tcp_genio_acceptor_alloc
        { ai := true, nadata := true, lock := true, name := true }
        self name iai max_read_size cbs user_data cell = some (0, some w)
      ∧ w.na.refcount = 1 ∧ w.na.cbs = cbs ∧ w.na.user_data = user_data
      ∧ w.na.ai = iai ∧ w.na.max_read_size = max_read_size ∧ w.na.name = some name
      ∧ w.na.setup = false ∧ w.na.enabled = false ∧ w.na.in_shutdown = false) := by
  refine ⟨fun _ _ => rfl, fun _ _ _ => rfl, fun _ => rfl, rfl, ⟨_, rfl, ?_⟩⟩
  simp [UINT_MOD]

theorem AccIdle.arefl (w : AccWorld) : AccIdle w w :=
  ⟨⟨[], by simp, rfl, rfl⟩, rfl, fun h1 h2 => ⟨h1, h2, rfl⟩⟩

theorem held_after_append {α : Type} (role : α → LockRole) (h : Bool) (a b : List α) :
    held_after role h (a ++ b) = held_after role (held_after role h a) b := by
  induction a generalizing h with
  | nil => rfl
  | cons e t ih => simp [held_after, ih]

theorem callbacks_unlocked_append {α : Type} (role : α → LockRole) (h : Bool) (a b : List α) :
    callbacks_unlocked role h (a ++ b)
      = (callbacks_unlocked role h a && callbacks_unlocked role (held_after role h a) b) := by
  induction a generalizing h with
  | nil => simp [callbacks_unlocked, held_after]
  | cons e t ih => simp [callbacks_unlocked, held_after, ih, Bool.and_assoc]

theorem held_after_other {α : Type} (role : α → LockRole) (h : Bool) (t : List α)
    (ht : ∀ e ∈ t, role e = LockRole.other) : held_after role h t = h := by
  induction t generalizing h with
  | nil => rfl
  | cons e t ih =>
    have he : role e = LockRole.other := ht e (List.mem_cons_self _ _)
    simp only [held_after, he, LockRole.flag]
    exact ih h fun x hx => ht x (List.mem_cons_of_mem _ hx)

theorem AccIdle.atrans {a b c : AccWorld} (h1 : AccIdle a b) (h2 : AccIdle b c) :
    AccIdle a c := by
  obtain ⟨⟨t1, e1, c1, l1⟩, a1, s1⟩ := h1
  obtain ⟨⟨t2, e2, c2, l2⟩, a2, s2⟩ := h2
  refine ⟨⟨t1 ++ t2, ?_, ?_, ?_⟩, a2.trans a1, ?_⟩
  · rw [e2, e1, List.append_assoc]
  · simp [List.filter_append, c1, c2]
  · rw [held_after_append, l1, l2]
  · intro h3 h4
    obtain ⟨x1, x2, x3⟩ := s1 h3 h4
    obtain ⟨y1, y2, y3⟩ := s2 x1 x2
    exact ⟨y1, y2, y3.trans x3⟩

theorem filter_map_other (p : AccEvent → Bool) (f : Int → AccEvent) (l : List Int)
    (h : ∀ x, p (f x) = false) : (l.map f).filter p = [] := by
  induction l with
  | nil => rfl
  | cons a t ih => simp [h, ih]

theorem tcpna_deref_and_unlock_idle {w w1 : AccWorld} (h : tcpna_deref_and_unlock w = some w1) :
    (∃ t, w1.trace = w.trace ++ AccEvent.unlock :: t
        ∧ (t = [] ∨ t = [AccEvent.finish_free]))
    ∧ w1.na.acceptor = w.na.acceptor
    ∧ w1.na.in_shutdown = w.na.in_shutdown ∧ w1.na.setup = w.na.setup
    ∧ w1.na.nr_accept_close_waiting = w.na.nr_accept_close_waiting := by
  unfold tcpna_deref_and_unlock at h
  simp only [tcpna_unlock, tcpna_finish_free, acc_emit] at h
  split_ifs at h with h0 h1
  · rw [← Option.some.inj h]
    exact ⟨⟨[AccEvent.finish_free], by simp, Or.inr rfl⟩, rfl, rfl, rfl, rfl⟩
  · rw [← Option.some.inj h]
    exact ⟨⟨[], by simp, Or.inl rfl⟩, rfl, rfl, rfl, rfl⟩

theorem accStep_idle {c : AccCall} {w w1 : AccWorld} (h : accStep c w = some w1) :
    AccIdle w w1 := by
  cases c with
  | startup os =>
    simp only [accStep, Option.map_eq_some'] at h
    obtain ⟨⟨rv, x⟩, hx, rfl⟩ := h
    unfold tcpna_startup at hx
    by_cases hb : (tcpna_lock w).na.in_shutdown = true ∨ (tcpna_lock w).na.setup = true
    · rw [if_pos hb] at hx
      simp only [Option.some.injEq, Prod.mk.injEq] at hx
      obtain ⟨-, rfl⟩ := hx
      exact ⟨⟨[AccEvent.lock, AccEvent.unlock], by simp [tcpna_lock, tcpna_unlock, acc_emit],
        rfl, rfl⟩, rfl, fun h1 h2 => ⟨h1, h2, rfl⟩⟩
    · rw [if_neg hb] at hx
      have hs : ¬ (w.na.in_shutdown = true ∧ w.na.setup = false) := by
        intro hh
        exact hb (Or.inl hh.1)
      cases os with
      | fail e =>
        simp only [Option.some.injEq, Prod.mk.injEq] at hx
        obtain ⟨-, rfl⟩ := hx
        exact ⟨⟨[AccEvent.lock, AccEvent.open_socket, AccEvent.unlock],
          by simp [tcpna_lock, tcpna_unlock, acc_emit], rfl, rfl⟩, rfl,
          fun h1 h2 => absurd ⟨h1, h2⟩ hs⟩
      | ok fds =>
        simp only [tcpna_set_fd_enables, listener_fds, tcpna_lock, acc_emit, le_refl, if_true,
          Option.map_some', Option.some_bind, List.take_length, Option.some.injEq,
          Prod.mk.injEq] at hx
        obtain ⟨-, rfl⟩ := hx
        refine ⟨⟨[AccEvent.lock, AccEvent.open_socket]
            ++ fds.map (fun fd => AccEvent.set_read_handler fd true) ++ [AccEvent.unlock],
          by simp [tcpna_unlock, tcpna_ref, acc_emit], ?_, ?_⟩, rfl,
          fun h1 h2 => absurd ⟨h1, h2⟩ hs⟩
        · simp only [List.filter_append]
          rw [filter_map_other _ _ _ (fun _ => rfl)]
          rfl
        · rw [held_after_append, held_after_append]
          rfl
  | shutdown done data =>
    simp only [accStep, Option.map_eq_some'] at h
    obtain ⟨⟨rv, x⟩, hx, rfl⟩ := h
    unfold tcpna_shutdown at hx
    by_cases hb : (tcpna_lock w).na.setup = true
    · rw [if_pos hb] at hx
      have hs : ¬ (w.na.in_shutdown = true ∧ w.na.setup = false) := by
        intro hh
        have : w.na.setup = true := hb
        rw [hh.2] at this
        exact Bool.noConfusion this
      simp only [_tcpna_shutdown, Option.bind_eq_some, Option.map_eq_some'] at hx
      obtain ⟨y, ⟨fds, -, rfl⟩, hx⟩ := hx
      simp only [Option.some.injEq, Prod.mk.injEq] at hx
      obtain ⟨-, rfl⟩ := hx
      refine ⟨⟨[AccEvent.lock] ++ fds.map AccEvent.clear_fd_handlers ++ [AccEvent.unlock],
        by simp [tcpna_lock, tcpna_unlock, acc_emit], ?_, ?_⟩, rfl,
        fun h1 h2 => absurd ⟨h1, h2⟩ hs⟩
      · simp only [List.filter_append]
        rw [filter_map_other _ _ _ (fun _ => rfl)]
        rfl
      · rw [held_after_append, held_after_append]
        rfl
    · rw [if_neg hb] at hx
      simp only [Option.some.injEq, Prod.mk.injEq] at hx
      obtain ⟨-, rfl⟩ := hx
      exact ⟨⟨[AccEvent.lock, AccEvent.unlock], by simp [tcpna_lock, tcpna_unlock, acc_emit],
        rfl, rfl⟩, rfl, fun h1 h2 => ⟨h1, h2, rfl⟩⟩
  | set_accept_callback_enable b =>
    simp only [accStep] at h
    unfold tcpna_set_accept_callback_enable at h
    by_cases hb : (tcpna_lock w).na.enabled ≠ b
    · rw [if_pos hb] at h
      simp only [tcpna_set_fd_enables, Option.bind_eq_some, Option.map_eq_some'] at h
      obtain ⟨y, ⟨fds, -, rfl⟩, h⟩ := h
      rw [← Option.some.inj h]
      refine ⟨⟨[AccEvent.lock] ++ fds.map (fun fd => AccEvent.set_read_handler fd b)
          ++ [AccEvent.unlock],
        by simp [tcpna_lock, tcpna_unlock, acc_emit], ?_, ?_⟩, rfl,
        fun h1 h2 => ⟨h1, h2, rfl⟩⟩
      · simp only [List.filter_append]
        rw [filter_map_other _ _ _ (fun _ => rfl)]
        rfl
      · rw [held_after_append, held_after_append]
        rfl
    · rw [if_neg hb] at h
      rw [← Option.some.inj h]
      exact ⟨⟨[AccEvent.lock, AccEvent.unlock], by simp [tcpna_lock, tcpna_unlock, acc_emit],
        rfl, rfl⟩, rfl, fun h1 h2 => ⟨h1, h2, rfl⟩⟩
  | free =>
    simp only [accStep] at h
    unfold tcpna_free at h
    simp only [] at h
    by_cases hb : (tcpna_lock w).na.setup = true
    · rw [if_pos hb] at h
      have hs : ¬ (w.na.in_shutdown = true ∧ w.na.setup = false) := by
        intro hh
        have : w.na.setup = true := hb
        rw [hh.2] at this
        exact Bool.noConfusion this
      simp only [_tcpna_shutdown, Option.bind_eq_some, Option.map_eq_some'] at h
      obtain ⟨y, ⟨fds, -, rfl⟩, h⟩ := h
      obtain ⟨⟨t, ht, hcase⟩, ha, -⟩ := tcpna_deref_and_unlock_idle h
      refine ⟨⟨[AccEvent.lock] ++ fds.map AccEvent.clear_fd_handlers ++ AccEvent.unlock :: t,
        by simp [ht, tcpna_lock, acc_emit], ?_, ?_⟩, ha,
        fun h1 h2 => absurd ⟨h1, h2⟩ hs⟩
      · simp only [List.filter_append]
        rw [filter_map_other _ _ _ (fun _ => rfl)]
        rcases hcase with rfl | rfl <;> rfl
      · rw [held_after_append, held_after_append]
        rcases hcase with rfl | rfl <;> rfl
    · rw [if_neg hb] at h
      simp only [Option.some_bind] at h
      obtain ⟨⟨t, ht, hcase⟩, ha, hi, hsu, hn⟩ := tcpna_deref_and_unlock_idle h
      refine ⟨⟨AccEvent.lock :: AccEvent.unlock :: t, by simp [ht, tcpna_lock, acc_emit],
        ?_, ?_⟩, ha, fun h1 h2 => ⟨hi.trans h1, hsu.trans h2, hn⟩⟩
      · rcases hcase with rfl | rfl <;> rfl
      · rcases hcase with rfl | rfl <;> rfl

theorem accRunCalls_idle {cs : List AccCall} {w w1 : AccWorld}
    (h : accRunCalls cs w = some w1) : AccIdle w w1 := by
  induction cs generalizing w with
  | nil =>
    simp only [accRunCalls, Option.some.injEq] at h
    rw [← h]
    exact AccIdle.arefl w
  | cons c cs ih =>
    simp only [accRunCalls, Option.bind_eq_some] at h
    obtain ⟨x, hx, h⟩ := h
    exact (accStep_idle hx).atrans (ih h)

theorem tcpna_shutdown_ok_spec {done : Option Nat} {data : Nat} {w0 w : AccWorld}
    (h : tcpna_shutdown done data w0 = some (0, w)) :
    w.na.in_shutdown = true ∧ w.na.setup = false ∧ w.na.shutdown_done = done
      ∧ w.na.shutdown_data = data ∧ w.na.nr_accept_close_waiting = w0.na.nr_acceptfds
      ∧ w.na.acceptor = w0.na.acceptor ∧ w.na.refcount = w0.na.refcount := by
  unfold tcpna_shutdown at h
  simp only [] at h
  by_cases hb : (tcpna_lock w0).na.setup = true
  · rw [if_pos hb] at h
    simp only [_tcpna_shutdown, Option.bind_eq_some, Option.map_eq_some'] at h
    obtain ⟨y, ⟨fds, -, rfl⟩, h⟩ := h
    simp only [Option.some.injEq, Prod.mk.injEq] at h
    obtain ⟨-, rfl⟩ := h
    exact ⟨rfl, rfl, rfl, rfl, rfl, rfl, rfl⟩
  · rw [if_neg hb] at h
    simp [EBUSY] at h

theorem tcpna_cleared_run_append (u : AccUser) (a b : List Int) (w : AccWorld) :
    tcpna_cleared_run u (a ++ b) w = (tcpna_cleared_run u a w).bind (tcpna_cleared_run u b) := by
  induction a generalizing w with
  | nil => simp [tcpna_cleared_run]
  | cons fd t ih =>
    simp only [List.cons_append, tcpna_cleared_run]
    cases tcpna_fd_cleared u fd w with
    | none => rfl
    | some x => simp [ih]

theorem uint_pred (n : Nat) (h0 : 0 < n) (hlt : n < UINT_MOD) :
    (n + UINT_MOD - 1) % UINT_MOD = n - 1 := by
  have h : n + UINT_MOD - 1 = (n - 1) + UINT_MOD := by omega
  rw [h, Nat.add_mod_right]
  exact Nat.mod_eq_of_lt (by omega)

theorem one_lt_UINT_MOD : 1 < UINT_MOD := by
  unfold UINT_MOD
  norm_num

theorem tcpna_fd_cleared_count_trace (fd : Int) (w : AccWorld) :
    (tcpna_fd_cleared_count fd w).2.trace
      = w.trace ++ [AccEvent.sys_close fd, AccEvent.lock, AccEvent.unlock] := by
  simp only [tcpna_fd_cleared_count, tcpna_lock, tcpna_unlock, acc_emit, List.append_assoc,
    List.singleton_append, List.cons_append, List.nil_append]

theorem tcpna_fd_cleared_count_na (fd : Int) (w : AccWorld) :
    (tcpna_fd_cleared_count fd w).2.na
      = { w.na with nr_accept_close_waiting :=
            (w.na.nr_accept_close_waiting + UINT_MOD - 1) % UINT_MOD } := rfl

theorem tcpna_fd_cleared_count_fst (fd : Int) (w : AccWorld) :
    (tcpna_fd_cleared_count fd w).1
      = (w.na.nr_accept_close_waiting + UINT_MOD - 1) % UINT_MOD := rfl

theorem tcpna_cleared_run_waiting (u : AccUser) (pre : List Int) (w : AccWorld) (j : Nat)
    (hn : w.na.nr_accept_close_waiting = pre.length + j) (hj : 0 < j)
    (hlt : pre.length + j < UINT_MOD) :
    ∃ wk t, tcpna_cleared_run u pre w = some wk
      ∧ wk.na = { w.na with nr_accept_close_waiting := j }
      ∧ wk.trace = w.trace ++ t
      ∧ t.filter AccEvent.is_shutdown_done = [] := by
  induction pre generalizing w with
  | nil =>
    refine ⟨w, [], rfl, ?_, by simp, rfl⟩
    simp only [List.length_nil, Nat.zero_add] at hn
    rw [← hn]
  | cons fd rest ih =>
    simp only [List.length_cons] at hn hlt
    have hnum : (tcpna_fd_cleared_count fd w).1 = rest.length + j := by
      rw [tcpna_fd_cleared_count_fst, uint_pred _ (by omega) (by omega), hn]
      omega
    have hne : (tcpna_fd_cleared_count fd w).1 ≠ 0 := by omega
    have hstep : tcpna_fd_cleared u fd w = some (tcpna_fd_cleared_count fd w).2 := by
      simp only [tcpna_fd_cleared, if_neg hne]
    have hn2 : (tcpna_fd_cleared_count fd w).2.na.nr_accept_close_waiting = rest.length + j := by
      rw [tcpna_fd_cleared_count_na]
      exact hnum
    obtain ⟨wk, t, hrun, hna, htr, hflt⟩ := ih (tcpna_fd_cleared_count fd w).2 hn2 (by omega)
    refine ⟨wk, [AccEvent.sys_close fd, AccEvent.lock, AccEvent.unlock] ++ t, ?_, ?_, ?_, ?_⟩
    · simp only [tcpna_cleared_run, hstep, Option.some_bind, hrun]
    · rw [hna, tcpna_fd_cleared_count_na]
    · rw [htr, tcpna_fd_cleared_count_trace, List.append_assoc]
    · rw [List.filter_append, hflt]
      rfl

theorem no_shutdown_done_of_no_callback (t : List AccEvent)
    (h : t.filter (fun e => decide (AccEvent.lock_role e = LockRole.user_callback)) = []) :
    t.filter AccEvent.is_shutdown_done = [] := by
  rw [List.filter_eq_nil_iff] at h ⊢
  intro e he hsd
  apply h e he
  cases e <;> simp_all [AccEvent.is_shutdown_done, AccEvent.lock_role]

theorem shutdown_dones_since_append (w w1 : AccWorld) (t : List AccEvent)
    (ht : w1.trace = w.trace ++ t) :
    shutdown_dones_since w.trace.length w1 = t.filter AccEvent.is_shutdown_done := by
  simp [shutdown_dones_since, ht]

theorem tcpna_fd_cleared_of_zero (u : AccUser) (fd : Int) (w : AccWorld)
    (h : (tcpna_fd_cleared_count fd w).1 = 0) :
    tcpna_fd_cleared u fd w = tcpna_fd_cleared_last u (tcpna_fd_cleared_count fd w).2 := by
  simp only [tcpna_fd_cleared, if_pos h]

theorem tcpna_cleared_run_single (u : AccUser) (fd : Int) (w : AccWorld) :
    tcpna_cleared_run u [fd] w = tcpna_fd_cleared u fd w := by
  simp only [tcpna_cleared_run]
  cases tcpna_fd_cleared u fd w with
  | none => rfl
  | some x => rfl

/-- C14: after a `tcpna_shutdown` that returned 0 with the callback `f` and the
data `d` on an acceptor with `N = pre.length + 1` listeners, the
handlers-cleared events of the first `N - 1` listeners return without invoking
`shutdown_done`, `in_shutdown` staying set and the count of listeners waited
for going down by one each time; the last one invokes `shutdown_done` exactly
once, with the acceptor and `d`, and leaves `in_shutdown` clear and
`nr_accept_close_waiting` 0. The user's `shutdown_done` is taken to return and
to leave a reference on the acceptor. -/
theorem shutdown_done_after_last_cleared (u : AccUser) (f d : Nat) (w0 w : AccWorld)
    (pre : List Int) (last : Int)
    (hsd : tcpna_shutdown (some f) d w0 = some (0, w))
    (hN : w0.na.nr_acceptfds = pre.length + 1)
    (hlt : w0.na.nr_acceptfds < UINT_MOD)
    (hcb : ∀ wk, tcpna_cleared_run u pre w = some wk →
      ∃ w1, acc_callback u (AccEvent.shutdown_done f w0.na.acceptor d)
          (tcpna_fd_cleared_count last wk).2 = some w1 ∧ w1.na.refcount ≠ 0) :
    (∀ k, k ≤ pre.length → ∃ wk, tcpna_cleared_run u (pre.take k) w = some wk
      ∧ shutdown_dones_since w.trace.length wk = []
      ∧ wk.na.in_shutdown = true
      ∧ wk.na.nr_accept_close_waiting = pre.length + 1 - k)
    ∧ ∃ w2, tcpna_cleared_run u (pre ++ [last]) w = some w2
      ∧ shutdown_dones_since w.trace.length w2 = [AccEvent.shutdown_done f w0.na.acceptor d]
      ∧ w2.na.in_shutdown = false
      ∧ w2.na.nr_accept_close_waiting = 0 := by
  obtain ⟨hin, hsu, hdone, hdata, hnr, hacc, -⟩ := tcpna_shutdown_ok_spec hsd
  constructor
  · intro k hk
    obtain ⟨wk, t, hrun, hna, htr, hflt⟩ := tcpna_cleared_run_waiting u (pre.take k) w
      (pre.length + 1 - k)
      (by rw [hnr, hN, List.length_take]; omega) (by omega)
      (by rw [List.length_take]; omega)
    refine ⟨wk, hrun, ?_, ?_, ?_⟩
    · rw [shutdown_dones_since_append w wk t htr, hflt]
    · rw [hna]
      exact hin
    · rw [hna]
  · obtain ⟨wk, t, hrun, hna, htr, hflt⟩ := tcpna_cleared_run_waiting u pre w 1
      (by rw [hnr, hN]) (by omega) (by omega)
    obtain ⟨w1, hcall, href⟩ := hcb wk hrun
    have hwk1 : wk.na.nr_accept_close_waiting = 1 := by rw [hna]
    have hnum : (tcpna_fd_cleared_count last wk).1 = 0 := by
      rw [tcpna_fd_cleared_count_fst, hwk1, uint_pred 1 (by omega) one_lt_UINT_MOD]
    have hcna : (tcpna_fd_cleared_count last wk).2.na
        = { w.na with nr_accept_close_waiting := 0 } := by
      rw [tcpna_fd_cleared_count_na, ← tcpna_fd_cleared_count_fst last wk, hnum, hna]
    have hidle : AccIdle (acc_emit (AccEvent.shutdown_done f w0.na.acceptor d)
        (tcpna_fd_cleared_count last wk).2) w1 := accRunCalls_idle hcall
    obtain ⟨⟨t1, ht1, hc1, -⟩, -, hkeep⟩ := hidle
    have hena : (acc_emit (AccEvent.shutdown_done f w0.na.acceptor d)
        (tcpna_fd_cleared_count last wk).2).na = { w.na with nr_accept_close_waiting := 0 } :=
      hcna
    obtain ⟨-, -, k3⟩ := hkeep (by rw [hena]; exact hin) (by rw [hena]; exact hsu)
    rw [hena] at k3
    have ht1b : w1.trace = w.trace ++ (t ++ [AccEvent.sys_close last, AccEvent.lock,
        AccEvent.unlock, AccEvent.shutdown_done f w0.na.acceptor d] ++ t1) := by
      rw [ht1]
      show (tcpna_fd_cleared_count last wk).2.trace ++ [_] ++ t1 = _
      rw [tcpna_fd_cleared_count_trace, htr]
      simp only [List.append_assoc, List.cons_append, List.nil_append]
    have hlast : tcpna_fd_cleared_last u (tcpna_fd_cleared_count last wk).2
        = tcpna_deref_and_unlock
            { tcpna_lock w1 with na := { (tcpna_lock w1).na with in_shutdown := false } } := by
      have h1 : (tcpna_fd_cleared_count last wk).2.na.shutdown_done = some f := by
        rw [hcna]
        exact hdone
      have h2 : (tcpna_fd_cleared_count last wk).2.na.shutdown_data = d := by
        rw [hcna]
        exact hdata
      have h3 : (tcpna_fd_cleared_count last wk).2.na.acceptor = w0.na.acceptor := by
        rw [hcna]
        exact hacc
      simp only [tcpna_fd_cleared_last, h1, h2, h3, hcall, Option.some_bind]
    cases hfin : tcpna_deref_and_unlock
        { tcpna_lock w1 with na := { (tcpna_lock w1).na with in_shutdown := false } } with
    | none =>
      exfalso
      unfold tcpna_deref_and_unlock at hfin
      have hr : ({ tcpna_lock w1 with
          na := { (tcpna_lock w1).na with in_shutdown := false } } : AccWorld).na.refcount
          = w1.na.refcount := rfl
      rw [hr, if_neg href] at hfin
      simp only [] at hfin
      split_ifs at hfin
    | some w2 =>
      obtain ⟨⟨t2, ht2, hcase⟩, -, hi2, -, hn2⟩ := tcpna_deref_and_unlock_idle hfin
      refine ⟨w2, ?_, ?_, ?_, ?_⟩
      · rw [tcpna_cleared_run_append, hrun, Option.some_bind, tcpna_cleared_run_single,
          tcpna_fd_cleared_of_zero u last wk hnum, hlast, hfin]
      · have htrace : w2.trace = w.trace ++ (t ++ [AccEvent.sys_close last, AccEvent.lock,
            AccEvent.unlock, AccEvent.shutdown_done f w0.na.acceptor d] ++ t1
            ++ AccEvent.lock :: AccEvent.unlock :: t2) := by
          rw [ht2]
          show w1.trace ++ [AccEvent.lock] ++ AccEvent.unlock :: t2 = _
          rw [ht1b]
          simp only [List.append_assoc, List.cons_append, List.nil_append]
        rw [shutdown_dones_since_append w w2 _ htrace]
        simp only [List.filter_append, hflt, no_shutdown_done_of_no_callback t1 hc1,
          List.nil_append, List.append_nil]
        rcases hcase with rfl | rfl <;> rfl
      · rw [hi2]
      · rw [hn2]
        exact k3

/-- Witness of C14: the example acceptor listening on the descriptors 3 and 4
is shut down with callback 8 and data 21; the cleared event of the first
listener invokes nothing, that of the second invokes `shutdown_done` once. -/
theorem shutdown_done_after_last_cleared_witness :
    tcpna_shutdown (some 8) 21 ex_listening = some (0, ex_shutting_down)
    ∧ (∀ k, k ≤ [(3 : Int)].length →
      ∃ wk, tcpna_cleared_run ex_acc_user_idle ([(3 : Int)].take k) ex_shutting_down = some wk
        ∧ shutdown_dones_since ex_shutting_down.trace.length wk = []
        ∧ wk.na.in_shutdown = true
        ∧ wk.na.nr_accept_close_waiting = [(3 : Int)].length + 1 - k)
    ∧ ∃ w2, tcpna_cleared_run ex_acc_user_idle ([3] ++ [4]) ex_shutting_down = some w2
      ∧ shutdown_dones_since ex_shutting_down.trace.length w2
          = [AccEvent.shutdown_done 8 ex_listening.na.acceptor 21]
      ∧ w2.na.in_shutdown = false
      ∧ w2.na.nr_accept_close_waiting = 0 := by
  have hlt : ex_listening.na.nr_acceptfds < UINT_MOD := by
    show (2 : Nat) < UINT_MOD
    unfold UINT_MOD
    norm_num
  refine ⟨rfl, shutdown_done_after_last_cleared ex_acc_user_idle 8 21 ex_listening
    ex_shutting_down [3] 4 rfl rfl hlt ?_⟩
  intro wk hwk
  obtain ⟨wk2, t, hrun, hna, -, -⟩ := tcpna_cleared_run_waiting ex_acc_user_idle [3]
    ex_shutting_down 1 rfl (by omega) hlt
  have he : wk = wk2 := Option.some.inj (hwk.symm.trans hrun)
  subst he
  have hemit : ∀ (e : AccEvent) (x : AccWorld), (acc_emit e x).na = x.na := fun _ _ => rfl
  refine ⟨acc_emit (AccEvent.shutdown_done 8 ex_listening.na.acceptor 21)
    (tcpna_fd_cleared_count 4 wk).2, rfl, ?_⟩
  rw [hemit, tcpna_fd_cleared_count_na, hna]
  exact Nat.succ_ne_zero 1

/-! ### The read-buffer invariant -/

theorem Quiet.buf {w w1 : World H} (h : Quiet w w1) (hi : read_buf_inv w) :
    read_buf_inv w1 ∧ w1.fdll.read_data_size = w.fdll.read_data_size := by
  obtain ⟨-, -, -, -, hp, hl, hs, -⟩ := h
  unfold read_buf_inv at *
  rw [hp, hl, hs]
  exact ⟨hi, rfl⟩

theorem callback_run {u : User} {e : Event} {w : World H} {r : Nat × World H}
    (h : callback u e w = some r) :
    runCalls (u (w.trace ++ [e])).calls (emit e w) = some r.2 := by
  unfold callback at h
  simp only [Option.bind_eq_some] at h
  obtain ⟨w1, hrun, h⟩ := h
  simp at h
  subst h
  exact hrun

theorem fd_deliver_read_data_cases {u : User} {err : Nat} {w w1 : World H}
    (h : fd_deliver_read_data u err w = some w1) :
    (err = 0 ∧ w.fdll.read_data_len = 0 ∧ w1 = w)
    ∨ ∃ k wq, callback u (read_cb_event err w) (fd_unlock w) = some (k, wq)
        ∧ w1.trace = wq.trace ++ [Event.lock]
        ∧ (err ≠ 0 ∨ k % UINT_MOD ≥ w.fdll.read_data_len →
            w1.fdll = { wq.fdll with read_data_pos := 0, read_data_len := 0 })
        ∧ (¬ (err ≠ 0 ∨ k % UINT_MOD ≥ w.fdll.read_data_len) →
            w1.fdll = { wq.fdll with
              read_data_pos := (w.fdll.read_data_pos + k % UINT_MOD) % UINT_MOD,
              read_data_len := w.fdll.read_data_len - k % UINT_MOD }) := by
  by_cases hc : err ≠ 0 ∨ w.fdll.read_data_len ≠ 0
  · right
    cases hcbs : w.fdll.cbs with
    | none => simp [fd_deliver_read_data, hc, hcbs] at h
    | some cbs =>
      cases hrc : cbs.read_callback with
      | none => simp [fd_deliver_read_data, hc, hcbs, hrc] at h
      | some f =>
        cases hcb : callback u (read_cb_event err w) (fd_unlock w) with
        | none =>
          have hev : read_cb_event err (fd_unlock w) = read_cb_event err w := rfl
          simp [fd_deliver_read_data, hc, hcbs, hrc, hev, hcb] at h
        | some r =>
          obtain ⟨k, wq⟩ := r
          rw [fd_deliver_read_data_eq u err w wq k cbs hcbs (by simp [hrc]) hc hcb] at h
          refine ⟨k, wq, rfl, ?_, ?_, ?_⟩
          · rw [← Option.some.inj h]
            split_ifs <;> rfl
          · intro hb
            rw [← Option.some.inj h, if_pos hb]
          · intro hb
            rw [← Option.some.inj h, if_neg hb]
  · left
    have h1 : err = 0 := by
      by_contra h0
      exact hc (Or.inl h0)
    have h2 : w.fdll.read_data_len = 0 := by
      by_contra h0
      exact hc (Or.inr h0)
    refine ⟨h1, h2, ?_⟩
    simp only [fd_deliver_read_data, if_neg hc, Option.some.injEq] at h
    exact h.symm

theorem fd_deliver_read_data_inv {u : User} {err : Nat} {w w1 : World H}
    (h : fd_deliver_read_data u err w = some w1) (hi : read_buf_inv w) :
    read_buf_inv w1 ∧ w1.fdll.read_data_size = w.fdll.read_data_size := by
  rcases fd_deliver_read_data_cases h with ⟨-, -, rfl⟩ | ⟨k, wq, hcb, -, hz, hnz⟩
  · exact ⟨hi, rfl⟩
  · obtain ⟨-, hq⟩ := callback_eq hcb
    obtain ⟨-, -, -, -, hp, hl, hs, -⟩ := hq
    simp only [emit_fdll, fd_unlock_fdll] at hp hl hs
    by_cases hb : err ≠ 0 ∨ k % UINT_MOD ≥ w.fdll.read_data_len
    · have hf := hz hb
      unfold read_buf_inv
      rw [hf]
      exact ⟨⟨by simp, fun _ => rfl⟩, hs⟩
    · have hf := hnz hb
      unfold read_buf_inv at *
      rw [hf]
      simp only
      have hlt : k % UINT_MOD < w.fdll.read_data_len := by
        by_contra h0
        exact hb (Or.inr (by omega))
      have hmod := Nat.mod_le (w.fdll.read_data_pos + k % UINT_MOD) UINT_MOD
      refine ⟨⟨?_, ?_⟩, hs⟩
      · rw [hs]
        omega
      · intro h0
        omega

theorem read_loop_inv (fd : Int) (reads : List ReadRes) (w w1 : World H) (err : Nat)
    (h : read_loop fd reads w = some (err, w1)) (hi : read_buf_inv w)
    (hlen : w.fdll.read_data_len = 0) (hfit : reads_fit w.fdll.read_data_size reads) :
    read_buf_inv w1 ∧ w1.fdll.read_data_size = w.fdll.read_data_size
      ∧ w1.fdll.in_read = w.fdll.in_read := by
  induction reads generalizing w with
  | nil => simp [read_loop] at h
  | cons r rest ih =>
    cases r with
    | fail e =>
      simp only [read_loop] at h
      split_ifs at h with h1 h2
      · exact ih (emit (Event.sys_read fd w.fdll.read_data_size) w) h hi hlen
          (fun d e1 hd => hfit d e1 (List.mem_cons_of_mem _ hd))
      · simp only [Option.some.injEq, Prod.mk.injEq] at h
        obtain ⟨-, rfl⟩ := h
        exact ⟨hi, rfl, rfl⟩
      · simp only [Option.some.injEq, Prod.mk.injEq] at h
        obtain ⟨-, rfl⟩ := h
        exact ⟨hi, rfl, rfl⟩
    | ok data e =>
      rcases read_loop_ok_cases h with h | rfl | rfl
      · exact ih (read_store data (emit (Event.sys_read fd w.fdll.read_data_size) w)) h hi hlen
          (fun d e1 hd => hfit d e1 (List.mem_cons_of_mem _ hd))
      · exact ⟨hi, rfl, rfl⟩
      · have hd := hfit data e (List.mem_cons_self _ _)
        have hle := to_int_toNat_le data.length
        have hp := hi.2 hlen
        refine ⟨⟨?_, fun _ => hp⟩, rfl, rfl⟩
        show w.fdll.read_data_pos + (to_int data.length).toNat ≤ w.fdll.read_data_size
        omega

theorem fd_handle_incoming_urgent_buf (u : User) (fd : Int) (recvs : List SysRes)
    (x wu : World H) (h : fd_handle_incoming_urgent u fd recvs x = some wu) :
    wu.fdll.read_data_pos = x.fdll.read_data_pos
      ∧ wu.fdll.read_data_len = x.fdll.read_data_len
      ∧ wu.fdll.read_data_size = x.fdll.read_data_size := by
  unfold fd_handle_incoming_urgent at h
  simp only [Option.bind_eq_some] at h
  obtain ⟨w1, hrecv, h⟩ := h
  obtain ⟨hf, -⟩ := recv_oob_loop_spec fd recvs x w1 hrecv
  cases hc : w1.fdll.cbs with
  | none => simp [hc] at h
  | some cbs =>
    simp only [hc] at h
    cases hu : cbs.urgent_callback with
    | none =>
      simp [hu] at h
      subst h
      rw [hf]
      exact ⟨rfl, rfl, rfl⟩
    | some f =>
      simp only [hu, Option.bind_eq_some] at h
      obtain ⟨r, hcb, h⟩ := h
      simp at h
      subst h
      obtain ⟨-, hq⟩ := callback_eq hcb
      obtain ⟨-, -, -, -, hp, hl, hs, -⟩ := hq
      simp only [emit_fdll, fd_unlock_fdll, fd_lock_fdll] at hp hl hs ⊢
      rw [hp, hl, hs, hf]
      exact ⟨rfl, rfl, rfl⟩

theorem fd_handle_incoming_cases {u : User} {fd : Int} {urgent : Bool} {recvs : List SysRes}
    {reads : List ReadRes} {w w1 : World H}
    (h : fd_handle_incoming u fd urgent recvs reads w = some w1) :
    ((fd_handle_incoming_enter w).fdll.in_read = true
      ∧ w1 = fd_handle_incoming_out (fd_handle_incoming_enter w))
    ∨ ((fd_handle_incoming_enter w).fdll.in_read ≠ true
      ∧ ∃ wu r wd,
        (if urgent = true then
            fd_handle_incoming_urgent u fd recvs (set_in_read true (fd_handle_incoming_enter w))
          else some (set_in_read true (fd_handle_incoming_enter w))) = some wu
        ∧ fd_handle_incoming_read fd reads wu = some r
        ∧ fd_deliver_read_data u r.1 r.2 = some wd
        ∧ w1 = fd_handle_incoming_out (set_in_read false wd)) := by
  unfold fd_handle_incoming at h
  simp only [] at h
  by_cases hin : (fd_handle_incoming_enter w).fdll.in_read = true
  · rw [if_pos hin] at h
    exact Or.inl ⟨hin, (Option.some.inj h).symm⟩
  · rw [if_neg hin] at h
    simp only [Option.bind_eq_some] at h
    obtain ⟨wu, hurg, r, hread, wd, hdel, h⟩ := h
    exact Or.inr ⟨hin, wu, r, wd, hurg, hread, hdel, (Option.some.inj h).symm⟩

theorem fd_handle_incoming_inv {u : User} {fd : Int} {urgent : Bool} {recvs : List SysRes}
    {reads : List ReadRes} {w w1 : World H}
    (h : fd_handle_incoming u fd urgent recvs reads w = some w1) (hi : read_buf_inv w)
    (hfit : reads_fit w.fdll.read_data_size reads) :
    read_buf_inv w1 ∧ w1.fdll.read_data_size = w.fdll.read_data_size := by
  rcases fd_handle_incoming_cases h with ⟨-, rfl⟩ | ⟨-, wu, r, wd, hurg, hread, hdel, rfl⟩
  · exact (fd_handle_incoming_out_quiet _).buf hi
  · have hwu : wu.fdll.read_data_pos = w.fdll.read_data_pos
        ∧ wu.fdll.read_data_len = w.fdll.read_data_len
        ∧ wu.fdll.read_data_size = w.fdll.read_data_size := by
      by_cases hu : urgent = true
      · rw [if_pos hu] at hurg
        have hb := fd_handle_incoming_urgent_buf u fd recvs
          (set_in_read true (fd_handle_incoming_enter w)) wu hurg
        exact hb
      · rw [if_neg hu] at hurg
        rw [← Option.some.inj hurg]
        exact ⟨rfl, rfl, rfl⟩
    obtain ⟨e1, e2, e3⟩ := hwu
    have hiu : read_buf_inv wu := by
      unfold read_buf_inv at *
      rw [e1, e2, e3]
      exact hi
    have hr : read_buf_inv r.2 ∧ r.2.fdll.read_data_size = wu.fdll.read_data_size := by
      unfold fd_handle_incoming_read at hread
      by_cases hlen : wu.fdll.read_data_len = 0
      · rw [if_pos hlen] at hread
        obtain ⟨a, b, -⟩ := read_loop_inv fd reads wu r.2 r.1 hread hiu hlen
          (by rw [e3]; exact hfit)
        exact ⟨a, b⟩
      · rw [if_neg hlen] at hread
        rw [← Option.some.inj hread]
        exact ⟨hiu, rfl⟩
    obtain ⟨a, b⟩ := fd_deliver_read_data_inv hdel hr.1
    obtain ⟨c, d⟩ := (fd_handle_incoming_out_quiet (set_in_read false wd)).buf a
    exact ⟨c, d.trans (b.trans (hr.2.trans e3))⟩

theorem fd_deferred_op_close_buf (u : User) (v vc : World H)
    (h : fd_deferred_op_close u v = some vc) :
    vc.fdll.read_data_pos = v.fdll.read_data_pos
      ∧ vc.fdll.read_data_len = v.fdll.read_data_len
      ∧ vc.fdll.read_data_size = v.fdll.read_data_size := by
  unfold fd_deferred_op_close fd_finish_close at h
  by_cases hd : v.fdll.deferred_close = true
  · simp [hd] at h
    subst h
    exact ⟨rfl, rfl, rfl⟩
  · simp [hd] at h
    subst h
    exact ⟨rfl, rfl, rfl⟩

theorem fd_deferred_op_loop_inv (u : User) (fuel : Nat) (w w1 : World H)
    (h : fd_deferred_op_loop u fuel w = some w1) (hi : read_buf_inv w) :
    read_buf_inv w1 ∧ w1.fdll.read_data_size = w.fdll.read_data_size := by
  induction fuel generalizing w with
  | zero => simp [fd_deferred_op_loop] at h
  | succ n ih =>
    simp only [fd_deferred_op_loop, Option.bind_eq_some] at h
    obtain ⟨wd, hdel, h⟩ := h
    have hwd : read_buf_inv wd ∧ wd.fdll.read_data_size = w.fdll.read_data_size := by
      split_ifs at hdel with hdr
      · simp only [Option.bind_eq_some] at hdel
        obtain ⟨x, hx, hdel⟩ := hdel
        rw [← Option.some.inj hdel]
        have hi2 : read_buf_inv (set_deferred_read false w) := hi
        have hb := fd_deliver_read_data_inv hx hi2
        exact hb
      · rw [← Option.some.inj hdel]
        exact ⟨hi, rfl⟩
    split_ifs at h with hdr
    · obtain ⟨a, b⟩ := ih wd h hwd.1
      exact ⟨a, b.trans hwd.2⟩
    · rw [← Option.some.inj h]
      exact hwd

/-- C18: a stream fresh from `fd_genio_ll_alloc` satisfies the read-buffer
invariant, and each of `fd_handle_incoming`, `fd_deliver_read_data`,
`fd_deferred_op`, `fd_set_read_callback_enable`, `fd_open` and `fd_close`
takes a stream that satisfies it to one that satisfies it, whatever the
user's callbacks do and return, as long as no `read(2)` returns more than
`read_data_size` bytes. -/
theorem read_buffer_invariant (u : User) :
    (∀ (a : AllocResults) (fd : Int) (ops : genio_fd_ll_ops H) (hd : H) (m : Nat)
        (w : World H), fd_genio_ll_alloc a fd ops hd m = some w → read_buf_inv w)
    ∧ ∀ w w1 : World H, read_buf_inv w →
      (∀ fd urgent recvs reads, reads_fit w.fdll.read_data_size reads →
        fd_handle_incoming u fd urgent recvs reads w = some w1 → read_buf_inv w1)
      ∧ (∀ err, fd_deliver_read_data u err w = some w1 → read_buf_inv w1)
      ∧ (∀ fuel, fd_deferred_op u fuel w = some w1 → read_buf_inv w1)
      ∧ (∀ b, read_buf_inv (fd_set_read_callback_enable b w))
      ∧ (∀ done open_data sfh err,
          fd_open done open_data sfh w = some (err, w1) → read_buf_inv w1)
      ∧ (∀ done close_data err, fd_close done close_data w = some (err, w1) →
          read_buf_inv w1) := by
  constructor
  · intro a fd ops hd m w h
    unfold fd_genio_ll_alloc at h
    simp only [fd_setup_handlers, emit] at h
    split_ifs at h <;> simp at h <;> subst h <;> simp [read_buf_inv]
  · intro w w1 hi
    refine ⟨?_, ?_, ?_, ?_, ?_, ?_⟩
    · intro fd urgent recvs reads hfit h
      exact (fd_handle_incoming_inv h hi hfit).1
    · intro err h
      exact (fd_deliver_read_data_inv h hi).1
    · intro fuel h
      simp only [fd_deferred_op, Option.bind_eq_some] at h
      obtain ⟨vc, hc, vl, hl, hf⟩ := h
      obtain ⟨e1, e2, e3⟩ := fd_deferred_op_close_buf u w vc hc
      have hvc : read_buf_inv vc := by
        unfold read_buf_inv at *
        rw [e1, e2, e3]
        exact hi
      exact ((fd_deferred_op_finish_quiet hf).buf (fd_deferred_op_loop_inv u fuel vc vl hl hvc).1).1
    · intro b
      exact ((fd_set_read_callback_enable_quiet b w).buf hi).1
    · intro done open_data sfh err h
      exact ((fd_open_quiet h).buf hi).1
    · intro done close_data err h
      exact ((fd_close_quiet h).buf hi).1

/-- Witness of C18: the stream `fd_genio_ll_alloc` builds around descriptor 5
satisfies the invariant, and so does the example stream after a read cycle in
which `read(2)` returns the six bytes `abcdef` and the user consumes two. -/
theorem read_buffer_invariant_witness :
    (∃ w : World Unit, fd_genio_ll_alloc ex_alloc_ok 5 ex_ops_bare () 8 = some w
      ∧ read_buf_inv w)
    ∧ read_buf_inv ex_open_reading
    ∧ reads_fit ex_open_reading.fdll.read_data_size [ReadRes.ok [97, 98, 99, 100, 101, 102] 0]
    ∧ ∃ w1, fd_handle_incoming ex_user_two 5 false [] [ReadRes.ok [97, 98, 99, 100, 101, 102] 0]
          ex_open_reading = some w1
      ∧ w1.fdll.read_data_pos = 2 ∧ w1.fdll.read_data_len = 4
      ∧ read_buf_inv w1 :=
  have hinv : read_buf_inv ex_open_reading := ⟨by decide, fun _ => rfl⟩
  have hfit : reads_fit ex_open_reading.fdll.read_data_size
      [ReadRes.ok [97, 98, 99, 100, 101, 102] 0] := by
    intro d e hd
    simp only [List.mem_singleton, ReadRes.ok.injEq] at hd
    obtain ⟨rfl, -⟩ := hd
    decide
  ⟨⟨_, rfl, (read_buffer_invariant ex_user_idle).1 ex_alloc_ok 5 ex_ops_bare () 8 _ rfl⟩,
    hinv, hfit, _, rfl, rfl, rfl,
    ((read_buffer_invariant ex_user_two).2 ex_open_reading _ hinv).1 5 false []
      [ReadRes.ok [97, 98, 99, 100, 101, 102] 0] hfit rfl⟩

/-! ### Re-arming read-readiness -/

theorem NoArm.nrefl (w : World H) : NoArm w w := ⟨[], by simp, rfl⟩

theorem NoArm.ntrans {a b c : World H} (h1 : NoArm a b) (h2 : NoArm b c) : NoArm a c := by
  obtain ⟨t1, e1, c1⟩ := h1
  obtain ⟨t2, e2, c2⟩ := h2
  refine ⟨t1 ++ t2, ?_, ?_⟩
  · rw [e2, e1, List.append_assoc]
  · rw [List.filter_append, c1, c2]
    rfl

theorem NoArm.of_since {w w1 : World H} (hp : w.trace <+: w1.trace)
    (h : arms_since w.trace.length w1 = []) : NoArm w w1 := by
  obtain ⟨t, ht⟩ := hp
  refine ⟨t, ht.symm, ?_⟩
  simpa [arms_since, ← ht] using h

theorem NoArm.narm_emit {w w1 : World H} (h : NoArm w w1) (e : Event)
    (he : e.is_set_read_handler = false) : NoArm w (emit e w1) := by
  obtain ⟨t, ht, hc⟩ := h
  refine ⟨t ++ [e], ?_, ?_⟩
  · simp [ht]
  · simp [List.filter_append, hc, he]

theorem fd_start_close_no_arm {w w1 : World H} (h : fd_start_close w = some w1) :
    arms_since w.trace.length w1 = [] := by
  unfold fd_start_close at h
  cases hc : w.fdll.ops.check_close with
  | none =>
    simp [hc, emit] at h
    subst h
    simp [arms_since, Event.is_set_read_handler]
  | some cc =>
    simp only [hc, emit] at h
    cases hr : cc w.fdll.handler_data close_state.GENIO_LL_CLOSE_STATE_START with
    | none => simp [hr] at h
    | some r =>
      simp [hr] at h
      subst h
      simp [arms_since, Event.is_set_read_handler]

theorem arms_since_trans {a b c : World H} (h1 : a.trace <+: b.trace)
    (h2 : b.trace <+: c.trace) :
    arms_since a.trace.length c = arms_since a.trace.length b ++ arms_since b.trace.length c := by
  obtain ⟨t1, e1⟩ := h1
  obtain ⟨t2, e2⟩ := h2
  simp [arms_since, ← e2, ← e1]

theorem apiStep_no_arm {c : ApiCall} {w w1 : World H} (h : apiStep c w = some w1)
    (hin : w.fdll.in_read = true) : arms_since w.trace.length w1 = [] := by
  cases c with
  | set_callbacks cbs cb_data =>
    simp [apiStep, fd_set_callbacks] at h
    subst h
    simp [arms_since]
  | «open» done open_data sfh =>
    simp only [apiStep, Option.map_eq_some'] at h
    obtain ⟨p, hp, rfl⟩ := h
    unfold fd_open at hp
    cases hs : w.fdll.ops.sub_open with
    | none =>
      simp [hs] at hp
      rw [← hp]
      simp [arms_since]
    | some f =>
      simp only [hs, fd_lock, fd_unlock, emit, fd_setup_handlers] at hp
      cases hr : f w.fdll.handler_data ⟨w.fdll.check_open, w.fdll.retry_open, w.fdll.fd⟩ with
      | none => simp [hr] at hp
      | some r =>
        simp only [hr, Option.some_bind] at hp
        split_ifs at hp <;> simp at hp <;> rw [← hp] <;>
          simp [arms_since, Event.is_set_read_handler]
  | close done close_data =>
    simp only [apiStep, Option.map_eq_some'] at h
    obtain ⟨p, hp, rfl⟩ := h
    unfold fd_close at hp
    simp only [fd_lock, fd_unlock, emit] at hp
    split_ifs at hp
    · simp only [Option.bind_eq_some] at hp
      obtain ⟨w2, hsc, hp⟩ := hp
      simp at hp
      rw [← hp]
      have h2 := fd_start_close_no_arm hsc
      obtain ⟨t, ht, -, -⟩ := (fd_start_close_quiet hsc).suffix
      simp only [arms_since, ht, List.length_append, List.length_singleton] at h2 ⊢
      simp only [List.append_assoc, List.drop_left', List.drop_left] at h2 ⊢
      have h3 : t.filter Event.is_set_read_handler = [] := by
        have : (w.trace ++ [Event.lock] ++ t).drop (w.trace.length + 1) = t := by
          rw [List.drop_left' (by simp)]
        simpa [this] using h2
      simp [List.filter_append, h3, Event.is_set_read_handler]
    · simp at hp
      rw [← hp]
      simp [arms_since, Event.is_set_read_handler]
  | set_read_callback_enable b =>
    simp [apiStep] at h
    subst h
    unfold fd_set_read_callback_enable
    simp only [fd_lock, fd_unlock, emit, fd_sched_deferred_op, fd_ref]
    split_ifs with h1 h2 h3 <;> simp [arms_since, Event.is_set_read_handler]
    all_goals exact absurd (Or.inl hin) h1
  | set_write_callback_enable b =>
    simp [apiStep] at h
    subst h
    unfold fd_set_write_callback_enable
    simp only [fd_lock, fd_unlock, emit]
    split_ifs <;> simp [arms_since, Event.is_set_read_handler]
  | free =>
    simp only [apiStep, fd_free] at h
    unfold fd_deref_and_unlock at h
    simp only [fd_lock, fd_unlock, fd_finish_free, emit] at h
    split_ifs at h <;> simp at h <;> subst h <;> simp [arms_since, Event.is_set_read_handler]

theorem runCalls_no_arm {cs : List ApiCall} {w w1 : World H} (h : runCalls cs w = some w1)
    (hin : w.fdll.in_read = true) : NoArm w w1 := by
  induction cs generalizing w with
  | nil =>
    simp [runCalls] at h
    subst h
    exact NoArm.nrefl _
  | cons c cs ih =>
    simp only [runCalls] at h
    cases hc : apiStep c w with
    | none => simp [hc] at h
    | some w2 =>
      simp [hc] at h
      have hq := apiStep_quiet hc
      exact (NoArm.of_since hq.1 (apiStep_no_arm hc hin)).ntrans (ih h (hq.2.2.2.2.2.2.2 hin).1)

theorem callback_no_arm {u : User} {e : Event} {w : World H} {r : Nat × World H}
    (h : callback u e w = some r) (hin : w.fdll.in_read = true)
    (he : e.is_set_read_handler = false) : NoArm w r.2 ∧ r.2.fdll.in_read = true := by
  have hrun := callback_run h
  have h1 : NoArm w (emit e w) := (NoArm.nrefl w).narm_emit e he
  exact ⟨h1.ntrans (runCalls_no_arm hrun hin), ((runCalls_quiet hrun).2.2.2.2.2.2.2 hin).1⟩

theorem read_armed_step_other (fd : Int) (e : Event) (he : e.is_set_read_handler = false) :
    read_armed_step fd false e = false := by
  cases e <;> simp_all [read_armed_step, Event.is_set_read_handler]

theorem foldl_read_armed_no_arm (fd : Int) (t : List Event)
    (ht : t.filter Event.is_set_read_handler = []) :
    t.foldl (read_armed_step fd) false = false := by
  induction t with
  | nil => rfl
  | cons e t ih =>
    have he : e.is_set_read_handler = false := by
      cases hh : e.is_set_read_handler with
      | false => rfl
      | true => simp [List.filter, hh] at ht
    have ht2 : t.filter Event.is_set_read_handler = [] := by
      simpa [List.filter, he] using ht
    rw [List.foldl_cons, read_armed_step_other fd e he]
    exact ih ht2

theorem read_loop_trace (fd : Int) (reads : List ReadRes) (w w1 : World H) (err : Nat)
    (h : read_loop fd reads w = some (err, w1)) :
    (∃ n, w1.trace = w.trace ++ List.replicate n (Event.sys_read fd w.fdll.read_data_size))
      ∧ w1.fdll.in_read = w.fdll.in_read ∧ w1.fdll.state = w.fdll.state
      ∧ w1.fdll.read_enabled = w.fdll.read_enabled ∧ w1.fdll.fd = w.fdll.fd := by
  induction reads generalizing w with
  | nil => simp [read_loop] at h
  | cons r rest ih =>
    cases r with
    | fail e =>
      simp only [read_loop] at h
      split_ifs at h with h1 h2
      · obtain ⟨⟨n, hn⟩, a, b, c, d⟩ :=
          ih (emit (Event.sys_read fd w.fdll.read_data_size) w) h
        refine ⟨⟨n + 1, ?_⟩, a, b, c, d⟩
        rw [hn]
        simp [List.replicate_succ]
      · simp only [Option.some.injEq, Prod.mk.injEq] at h
        obtain ⟨-, rfl⟩ := h
        exact ⟨⟨1, rfl⟩, rfl, rfl, rfl, rfl⟩
      · simp only [Option.some.injEq, Prod.mk.injEq] at h
        obtain ⟨-, rfl⟩ := h
        exact ⟨⟨1, rfl⟩, rfl, rfl, rfl, rfl⟩
    | ok data e =>
      rcases read_loop_ok_cases h with h | rfl | rfl
      · obtain ⟨⟨n, hn⟩, a, b, c, d⟩ :=
          ih (read_store data (emit (Event.sys_read fd w.fdll.read_data_size) w)) h
        refine ⟨⟨n + 1, ?_⟩, a, b, c, d⟩
        rw [hn]
        simp [read_store, List.replicate_succ]
      · exact ⟨⟨1, rfl⟩, rfl, rfl, rfl, rfl⟩
      · exact ⟨⟨1, rfl⟩, rfl, rfl, rfl, rfl⟩

theorem NoArm.of_repeat {w w1 : World H} (n : Nat) (e : Event)
    (h : w1.trace = w.trace ++ List.replicate n e) (he : e.is_set_read_handler = false) :
    NoArm w w1 :=
  ⟨_, h, filter_replicate_nil _ _ _ he⟩

theorem fd_handle_incoming_urgent_no_arm (u : User) (fd : Int) (recvs : List SysRes)
    (x wu : World H) (h : fd_handle_incoming_urgent u fd recvs x = some wu)
    (hin : x.fdll.in_read = true) : NoArm x wu ∧ wu.fdll.in_read = true := by
  unfold fd_handle_incoming_urgent at h
  simp only [Option.bind_eq_some] at h
  obtain ⟨w1, hrecv, h⟩ := h
  obtain ⟨hf, n, htr⟩ := recv_oob_loop_spec fd recvs x w1 hrecv
  have h1 : NoArm x w1 := NoArm.of_repeat n _ htr rfl
  have hin1 : w1.fdll.in_read = true := by rw [hf]; exact hin
  cases hc : w1.fdll.cbs with
  | none => simp [hc] at h
  | some cbs =>
    simp only [hc] at h
    cases hu : cbs.urgent_callback with
    | none =>
      simp [hu] at h
      subst h
      exact ⟨h1, hin1⟩
    | some f =>
      simp only [hu, Option.bind_eq_some] at h
      obtain ⟨r, hcb, h⟩ := h
      simp at h
      subst h
      have h2 : NoArm w1 (fd_unlock w1) := (NoArm.nrefl w1).narm_emit Event.unlock rfl
      obtain ⟨h3, hin3⟩ := callback_no_arm hcb (show (fd_unlock w1).fdll.in_read = true from hin1)
        rfl
      exact ⟨((h1.ntrans h2).ntrans h3).narm_emit Event.lock rfl, hin3⟩

theorem fd_deliver_read_data_no_arm {u : User} {err : Nat} {w w1 : World H}
    (h : fd_deliver_read_data u err w = some w1) (hin : w.fdll.in_read = true) :
    NoArm w w1 := by
  rcases fd_deliver_read_data_cases h with ⟨-, -, rfl⟩ | ⟨k, wq, hcb, htr, -, -⟩
  · exact NoArm.nrefl _
  · have h2 : NoArm w (fd_unlock w) := (NoArm.nrefl w).narm_emit Event.unlock rfl
    obtain ⟨h3, -⟩ := callback_no_arm hcb (show (fd_unlock w).fdll.in_read = true from hin)
      (show (read_cb_event err w).is_set_read_handler = false from rfl)
    obtain ⟨t, ht, hc⟩ := h2.ntrans h3
    refine ⟨t ++ [Event.lock], ?_, ?_⟩
    · rw [htr, ht, List.append_assoc]
    · simp [List.filter_append, hc, Event.is_set_read_handler]

theorem fd_deliver_read_data_keeps {u : User} {err : Nat} {w w1 : World H}
    (h : fd_deliver_read_data u err w = some w1) (hin : w.fdll.in_read = true) :
    w1.fdll.in_read = true := by
  rcases fd_deliver_read_data_cases h with ⟨-, -, rfl⟩ | ⟨k, wq, hcb, -, hz, hnz⟩
  · exact hin
  · obtain ⟨-, hq⟩ := callback_eq hcb
    have hi := (hq.2.2.2.2.2.2.2 (show (emit (read_cb_event err w) (fd_unlock w)).fdll.in_read
      = true from hin)).1
    by_cases hb : err ≠ 0 ∨ k % UINT_MOD ≥ w.fdll.read_data_len
    · rw [hz hb]
      exact hi
    · rw [hnz hb]
      exact hi

theorem fd_handle_incoming_out_trace (v : World H) :
    (fd_handle_incoming_out v).trace = v.trace
      ++ (if v.fdll.state = FD_OPEN ∧ v.fdll.read_enabled = true then
            [Event.set_read_handler v.fdll.fd true, Event.set_except_handler v.fdll.fd true]
          else [])
      ++ [Event.unlock]
    ∧ (fd_handle_incoming_out v).fdll = v.fdll := by
  unfold fd_handle_incoming_out
  by_cases hc : v.fdll.state = FD_OPEN ∧ v.fdll.read_enabled = true
  · simp [hc, fd_unlock, emit]
  · simp only [if_neg hc]
    exact ⟨by simp [fd_unlock, emit], rfl⟩

theorem fd_handle_incoming_enter_trace (w : World H) :
    (fd_handle_incoming_enter w).trace = w.trace ++ [Event.lock,
      Event.set_read_handler w.fdll.fd false, Event.set_except_handler w.fdll.fd false]
    ∧ (fd_handle_incoming_enter w).fdll = w.fdll := by
  simp [fd_handle_incoming_enter, fd_lock, emit]

theorem fd_handle_incoming_middle {u : User} {fd : Int} {urgent : Bool}
    {recvs : List SysRes} {reads : List ReadRes} {w w1 : World H}
    (h : fd_handle_incoming u fd urgent recvs reads w = some w1) :
    ∃ v, NoArm (fd_handle_incoming_enter w) v ∧ w1 = fd_handle_incoming_out v := by
  rcases fd_handle_incoming_cases h with ⟨-, rfl⟩ | ⟨-, wu, r, wd, hurg, hread, hdel, rfl⟩
  · exact ⟨_, NoArm.nrefl _, rfl⟩
  · have hu : NoArm (fd_handle_incoming_enter w) wu ∧ wu.fdll.in_read = true := by
      by_cases hurgent : urgent = true
      · rw [if_pos hurgent] at hurg
        have hb := fd_handle_incoming_urgent_no_arm u fd recvs
          (set_in_read true (fd_handle_incoming_enter w)) wu hurg rfl
        obtain ⟨⟨t, ht, hc⟩, hi⟩ := hb
        exact ⟨⟨t, ht, hc⟩, hi⟩
      · rw [if_neg hurgent] at hurg
        rw [← Option.some.inj hurg]
        exact ⟨⟨[], by simp, rfl⟩, rfl⟩
    have hr : NoArm wu r.2 ∧ r.2.fdll.in_read = true := by
      unfold fd_handle_incoming_read at hread
      by_cases hlen : wu.fdll.read_data_len = 0
      · rw [if_pos hlen] at hread
        obtain ⟨⟨n, hn⟩, a, -⟩ := read_loop_trace fd reads wu r.2 r.1 hread
        exact ⟨NoArm.of_repeat n _ hn rfl, a.trans hu.2⟩
      · rw [if_neg hlen] at hread
        rw [← Option.some.inj hread]
        exact ⟨NoArm.nrefl _, hu.2⟩
    have hd := fd_deliver_read_data_no_arm hdel hr.2
    obtain ⟨t, ht, hc⟩ := (hu.1.ntrans hr.1).ntrans hd
    exact ⟨set_in_read false wd, ⟨t, ht, hc⟩, rfl⟩

theorem callbacks_unlocked_other {α : Type} (role : α → LockRole) (h : Bool) (t : List α)
    (ht : ∀ e ∈ t, role e ≠ LockRole.user_callback) : callbacks_unlocked role h t = true := by
  induction t generalizing h with
  | nil => rfl
  | cons e t ih =>
    have he : role e ≠ LockRole.user_callback := ht e (List.mem_cons_self _ _)
    simp only [callbacks_unlocked, if_neg he, Bool.true_and]
    exact ih _ fun x hx => ht x (List.mem_cons_of_mem _ hx)

theorem Unlocked.urefl {α : Type} (role : α → LockRole) (h : Bool) (t : List α) :
    Unlocked role h h t t :=
  ⟨[], by simp, rfl, rfl⟩

theorem Unlocked.utrans {α : Type} {role : α → LockRole} {h h1 h2 : Bool} {a b c : List α}
    (k1 : Unlocked role h h1 a b) (k2 : Unlocked role h1 h2 b c) : Unlocked role h h2 a c := by
  obtain ⟨t1, e1, c1, l1⟩ := k1
  obtain ⟨t2, e2, c2, l2⟩ := k2
  refine ⟨t1 ++ t2, ?_, ?_, ?_⟩
  · rw [e2, e1, List.append_assoc]
  · rw [callbacks_unlocked_append, c1, l1, c2]
    rfl
  · rw [held_after_append, l1, l2]

theorem Unlocked.step {α : Type} (role : α → LockRole) (h : Bool) (t : List α) (e : α)
    (he : role e = LockRole.user_callback → h = false) :
    Unlocked role h ((role e).flag h) t (t ++ [e]) := by
  refine ⟨[e], rfl, ?_, rfl⟩
  by_cases hc : role e = LockRole.user_callback
  · simp [callbacks_unlocked, hc, he hc]
  · simp [callbacks_unlocked, hc]

theorem Unlocked.of_drop {α : Type} {role : α → LockRole} {h h1 : Bool} {t0 t1 : List α}
    (hp : t0 <+: t1) (hc : callbacks_unlocked role h (t1.drop t0.length) = true)
    (hh : held_after role h (t1.drop t0.length) = h1) : Unlocked role h h1 t0 t1 := by
  obtain ⟨t, ht⟩ := hp
  subst ht
  rw [List.drop_left] at hc hh
  exact ⟨t, rfl, hc, hh⟩

theorem Unlocked.of_others {α : Type} {role : α → LockRole} (h : Bool) {t0 t1 : List α}
    (t : List α) (ht : t1 = t0 ++ t) (ho : ∀ e ∈ t, role e = LockRole.other) :
    Unlocked role h h t0 t1 :=
  ⟨t, ht, callbacks_unlocked_other role h t (fun e he hc => by rw [ho e he] at hc; cases hc),
    held_after_other role h t ho⟩

theorem LockStep.lrefl (h : Bool) (w : World H) : LockStep h h w w :=
  Unlocked.urefl _ h _

theorem LockStep.ltrans {h h1 h2 : Bool} {a b c : World H}
    (k1 : LockStep h h1 a b) (k2 : LockStep h1 h2 b c) : LockStep h h2 a c :=
  Unlocked.utrans k1 k2

theorem LockStep.lock_emit {h h1 : Bool} {w w1 : World H} (k : LockStep h h1 w w1) (e : Event)
    (he : e.lock_role = LockRole.user_callback → h1 = false) :
    LockStep h (e.lock_role.flag h1) w (emit e w1) :=
  Unlocked.utrans k (Unlocked.step Event.lock_role h1 w1.trace e he)

theorem LockStep.then_same {h h1 : Bool} {w w1 : World H} (k : LockStep h h1 w w1)
    (w2 : World H) (ht : w2.trace = w1.trace) : LockStep h h1 w w2 := by
  unfold LockStep at *
  rw [ht]
  exact k

theorem LockStep.of_quiet_drop {w w1 : World H} {h1 : Bool} (h : Bool) (hq : Quiet w w1)
    (hh : held_after Event.lock_role h (w1.trace.drop w.trace.length) = h1) :
    LockStep h h1 w w1 := by
  obtain ⟨t, ht, hc, -⟩ := hq.suffix
  rw [ht, List.drop_left] at hh
  refine ⟨t, ht, callbacks_unlocked_other _ h t ?_, hh⟩
  intro e he hrole
  rw [List.filter_eq_nil_iff] at hc
  apply hc e he
  cases e <;> simp_all [Event.is_user_callback, Event.lock_role]

theorem fd_start_close_others {w w1 : World H} (h : fd_start_close w = some w1) :
    ∃ t, w1.trace = w.trace ++ t ∧ ∀ e ∈ t, Event.lock_role e = LockRole.other := by
  unfold fd_start_close at h
  cases hc : w.fdll.ops.check_close with
  | none =>
    simp [hc, emit] at h
    subst h
    exact ⟨[Event.clear_fd_handlers w.fdll.fd], rfl, by simp [Event.lock_role]⟩
  | some cc =>
    simp only [hc, emit] at h
    cases hr : cc w.fdll.handler_data close_state.GENIO_LL_CLOSE_STATE_START with
    | none => simp [hr] at h
    | some r =>
      simp [hr] at h
      subst h
      exact ⟨[Event.hook_check_close close_state.GENIO_LL_CLOSE_STATE_START,
        Event.clear_fd_handlers w.fdll.fd], by simp, by simp [Event.lock_role]⟩

theorem fd_start_close_locks {w w1 : World H} (hb : Bool) (h : fd_start_close w = some w1) :
    LockStep hb hb w w1 := by
  obtain ⟨t, ht, ho⟩ := fd_start_close_others h
  exact Unlocked.of_others hb t ht ho

theorem fd_deref_and_unlock_locks {w w1 : World H} (hb : Bool)
    (h : fd_deref_and_unlock w = some w1) : LockStep hb false w w1 := by
  refine LockStep.of_quiet_drop hb (fd_deref_and_unlock_quiet h) ?_
  unfold fd_deref_and_unlock at h
  simp only [fd_unlock, fd_finish_free, emit] at h
  split_ifs at h <;> simp at h <;> subst h <;>
    simp [held_after, LockRole.flag, Event.lock_role]

theorem apiStep_locks {c : ApiCall} {w w1 : World H} (h : apiStep c w = some w1) :
    LockStep false false w w1 := by
  refine LockStep.of_quiet_drop false (apiStep_quiet h) ?_
  cases c with
  | set_callbacks cbs cb_data =>
    simp [apiStep, fd_set_callbacks] at h
    subst h
    simp [held_after]
  | «open» done open_data sfh =>
    simp only [apiStep, Option.map_eq_some'] at h
    obtain ⟨p, hp, rfl⟩ := h
    unfold fd_open at hp
    cases hs : w.fdll.ops.sub_open with
    | none =>
      simp [hs] at hp
      rw [← hp]
      simp [held_after]
    | some f =>
      simp only [hs, fd_lock, fd_unlock, emit, fd_setup_handlers] at hp
      cases hr : f w.fdll.handler_data ⟨w.fdll.check_open, w.fdll.retry_open, w.fdll.fd⟩ with
      | none => simp [hr] at hp
      | some r =>
        simp only [hr, Option.some_bind] at hp
        split_ifs at hp <;> simp at hp <;> rw [← hp] <;>
          simp [held_after, LockRole.flag, Event.lock_role]
  | close done close_data =>
    simp only [apiStep, Option.map_eq_some'] at h
    obtain ⟨p, hp, rfl⟩ := h
    unfold fd_close at hp
    simp only [fd_lock, fd_unlock, emit] at hp
    split_ifs at hp
    · simp only [Option.bind_eq_some] at hp
      obtain ⟨w2, hsc, hp⟩ := hp
      simp at hp
      rw [← hp]
      obtain ⟨t, ht, ho⟩ := fd_start_close_others hsc
      simp only [ht, List.append_assoc, List.drop_left]
      rw [held_after_append, held_after_append, held_after_other _ _ t ho]
      rfl
    · simp at hp
      rw [← hp]
      simp [held_after, LockRole.flag, Event.lock_role]
  | set_read_callback_enable b =>
    simp [apiStep] at h
    subst h
    unfold fd_set_read_callback_enable
    simp only [fd_lock, fd_unlock, emit, fd_sched_deferred_op, fd_ref]
    split_ifs <;> simp [held_after, LockRole.flag, Event.lock_role]
  | set_write_callback_enable b =>
    simp [apiStep] at h
    subst h
    unfold fd_set_write_callback_enable
    simp only [fd_lock, fd_unlock, emit]
    split_ifs <;> simp [held_after, LockRole.flag, Event.lock_role]
  | free =>
    simp only [apiStep, fd_free] at h
    unfold fd_deref_and_unlock at h
    simp only [fd_lock, fd_unlock, fd_finish_free, emit] at h
    split_ifs at h <;> simp at h <;> subst h <;>
      simp [held_after, LockRole.flag, Event.lock_role]

theorem runCalls_locks {cs : List ApiCall} {w w1 : World H} (h : runCalls cs w = some w1) :
    LockStep false false w w1 := by
  induction cs generalizing w with
  | nil =>
    simp [runCalls] at h
    subst h
    exact LockStep.lrefl false _
  | cons c cs ih =>
    simp only [runCalls] at h
    cases hc : apiStep c w with
    | none => simp [hc] at h
    | some w2 =>
      simp [hc] at h
      exact (apiStep_locks hc).ltrans (ih h)

theorem callback_locks {u : User} {e : Event} {w : World H} {r : Nat × World H}
    (h : callback u e w = some r) (he : e.lock_role = LockRole.user_callback) :
    LockStep false false w r.2 := by
  have h1 : LockStep false (e.lock_role.flag false) w (emit e w) :=
    (LockStep.lrefl false w).lock_emit e (fun _ => rfl)
  rw [he] at h1
  exact h1.ltrans (runCalls_locks (callback_run h))

theorem LockStep.then_event {h h1 : Bool} {w w1 : World H} (k : LockStep h h1 w w1)
    (w2 : World H) (e : Event) (ht : w2.trace = w1.trace ++ [e])
    (he : e.lock_role = LockRole.user_callback → h1 = false) :
    LockStep h (e.lock_role.flag h1) w w2 :=
  (k.lock_emit e he).then_same w2 ht

theorem LockStep.of_sys_calls {w w1 : World H} (hb : Bool) (n : Nat) (e : Event)
    (h : w1.trace = w.trace ++ List.replicate n e) (he : e.lock_role = LockRole.other) :
    LockStep hb hb w w1 :=
  Unlocked.of_others hb _ h (fun x hx => by rw [List.eq_of_mem_replicate hx]; exact he)

theorem fd_deliver_read_data_locks {u : User} {err : Nat} {w w1 : World H}
    (h : fd_deliver_read_data u err w = some w1) : LockStep true true w w1 := by
  rcases fd_deliver_read_data_cases h with ⟨-, -, rfl⟩ | ⟨k, wq, hcb, htr, -, -⟩
  · exact LockStep.lrefl true _
  · have h1 : LockStep true false w (fd_unlock w) :=
      (LockStep.lrefl true w).lock_emit Event.unlock (fun hc => by cases hc)
    have h2 : LockStep false false (fd_unlock w) wq := callback_locks hcb rfl
    exact (h1.ltrans h2).then_event w1 Event.lock htr (fun hc => by cases hc)

theorem fd_finish_open_handlers_locks (hb : Bool) (w : World H) :
    LockStep hb hb w (fd_finish_open_handlers w) := by
  refine LockStep.of_quiet_drop hb (fd_finish_open_handlers_quiet w) ?_
  unfold fd_finish_open_handlers
  simp only [emit]
  split_ifs <;> simp [held_after, LockRole.flag, Event.lock_role]

theorem fd_finish_open_locks {u : User} {err : Nat} {w w1 : World H}
    (h : fd_finish_open u err w = some w1) : LockStep true true w w1 := by
  unfold fd_finish_open at h
  by_cases he : err ≠ 0
  · rw [if_pos he] at h
    have k := fd_start_close_locks true h
    exact k
  · rw [if_neg he] at h
    simp only [Option.bind_eq_some] at h
    obtain ⟨w2, hcalled, h⟩ := h
    rw [← Option.some.inj h]
    refine LockStep.ltrans ?_ (fd_finish_open_handlers_locks true w2)
    cases hod : w.fdll.open_done with
    | none =>
      simp only [hod] at hcalled
      rw [← Option.some.inj hcalled]
      exact LockStep.lrefl true _
    | some f =>
      simp only [hod, Option.bind_eq_some] at hcalled
      obtain ⟨r, hcb, hcalled⟩ := hcalled
      rw [← Option.some.inj hcalled]
      have h1 : LockStep true false w (fd_unlock
          { w with fdll := { ({ w with fdll := { w.fdll with state := FD_OPEN } } :
            World H).fdll with open_done := none } }) :=
        (LockStep.lrefl true w).then_event _ Event.unlock rfl (fun hc => by cases hc)
      have h2 := callback_locks hcb rfl
      exact (h1.ltrans h2).lock_emit Event.lock (fun hc => by cases hc)

theorem fd_finish_close_locks {u : User} {w w1 : World H}
    (h : fd_finish_close u w = some w1) : LockStep true true w w1 := by
  simp [fd_finish_close] at h
  subst h
  exact LockStep.lrefl true _

theorem fd_deferred_op_loop_locks (u : User) (fuel : Nat) (w w1 : World H)
    (h : fd_deferred_op_loop u fuel w = some w1) : LockStep true true w w1 := by
  induction fuel generalizing w with
  | zero => simp [fd_deferred_op_loop] at h
  | succ n ih =>
    simp only [fd_deferred_op_loop, Option.bind_eq_some] at h
    obtain ⟨wd, hdel, h⟩ := h
    have hwd : LockStep true true w wd := by
      by_cases hdr : w.fdll.deferred_read = true
      · rw [if_pos hdr] at hdel
        simp only [Option.bind_eq_some] at hdel
        obtain ⟨x, hx, hdel⟩ := hdel
        rw [← Option.some.inj hdel]
        have k := fd_deliver_read_data_locks hx
        exact k
      · rw [if_neg hdr] at hdel
        rw [← Option.some.inj hdel]
        exact LockStep.lrefl true _
    by_cases hdr : wd.fdll.deferred_read = true
    · rw [if_pos hdr] at h
      exact hwd.ltrans (ih wd h)
    · rw [if_neg hdr] at h
      rw [← Option.some.inj h]
      exact hwd

theorem fd_deferred_op_locks {u : User} {fuel : Nat} {w w1 : World H}
    (h : fd_deferred_op u fuel w = some w1) : LockStep false false w w1 := by
  simp only [fd_deferred_op, Option.bind_eq_some] at h
  obtain ⟨vc, hc, vl, hl, hf⟩ := h
  have h1 : LockStep false true w vc := by
    unfold fd_deferred_op_close at hc
    have h0 : LockStep false true w (fd_lock w) :=
      (LockStep.lrefl false w).lock_emit Event.lock (fun hx => by cases hx)
    by_cases hd : (fd_lock w).fdll.deferred_close = true
    · simp only [] at hc
      rw [if_pos hd] at hc
      have k := fd_finish_close_locks hc
      exact h0.ltrans k
    · simp only [] at hc
      rw [if_neg hd] at hc
      rw [← Option.some.inj hc]
      exact h0
  have h2 := fd_deferred_op_loop_locks u fuel vc vl hl
  have h3 : LockStep true false vl w1 := by
    refine LockStep.of_quiet_drop true (fd_deferred_op_finish_quiet hf) ?_
    unfold fd_deferred_op_finish fd_deref_and_unlock at hf
    simp only [fd_unlock, fd_finish_free, emit] at hf
    split_ifs at hf <;> simp at hf <;> subst hf <;>
      simp [held_after, LockRole.flag, Event.lock_role]
  exact (h1.ltrans h2).ltrans h3

theorem fd_handle_incoming_urgent_locks (u : User) (fd : Int) (recvs : List SysRes)
    (x wu : World H) (h : fd_handle_incoming_urgent u fd recvs x = some wu) :
    LockStep true true x wu := by
  unfold fd_handle_incoming_urgent at h
  simp only [Option.bind_eq_some] at h
  obtain ⟨w1, hrecv, h⟩ := h
  obtain ⟨-, n, htr⟩ := recv_oob_loop_spec fd recvs x w1 hrecv
  have h1 : LockStep true true x w1 := LockStep.of_sys_calls true n _ htr rfl
  cases hc : w1.fdll.cbs with
  | none => simp [hc] at h
  | some cbs =>
    simp only [hc] at h
    cases hu : cbs.urgent_callback with
    | none =>
      simp [hu] at h
      subst h
      exact h1
    | some f =>
      simp only [hu, Option.bind_eq_some] at h
      obtain ⟨r, hcb, h⟩ := h
      simp at h
      subst h
      have h2 : LockStep true false x (fd_unlock w1) :=
        h1.lock_emit Event.unlock (fun hx => by cases hx)
      have h3 := callback_locks hcb rfl
      exact (h2.ltrans h3).lock_emit Event.lock (fun hx => by cases hx)

theorem fd_handle_incoming_locks {u : User} {fd : Int} {urgent : Bool} {recvs : List SysRes}
    {reads : List ReadRes} {w w1 : World H}
    (h : fd_handle_incoming u fd urgent recvs reads w = some w1) : LockStep false false w w1 := by
  have henter : LockStep false true w (fd_handle_incoming_enter w) :=
    Unlocked.of_drop (by simp [(fd_handle_incoming_enter_trace w).1])
      (by simp [(fd_handle_incoming_enter_trace w).1, callbacks_unlocked, LockRole.flag,
        Event.lock_role])
      (by simp [(fd_handle_incoming_enter_trace w).1, held_after, LockRole.flag,
        Event.lock_role])
  have hout : ∀ v : World H, LockStep true false v (fd_handle_incoming_out v) := by
    intro v
    refine LockStep.of_quiet_drop true (fd_handle_incoming_out_quiet v) ?_
    rw [(fd_handle_incoming_out_trace v).1]
    split_ifs <;> simp [held_after, LockRole.flag, Event.lock_role]
  rcases fd_handle_incoming_cases h with ⟨-, rfl⟩ | ⟨-, wu, r, wd, hurg, hread, hdel, rfl⟩
  · exact henter.ltrans (hout _)
  · have hu : LockStep true true (fd_handle_incoming_enter w) wu := by
      by_cases hurgent : urgent = true
      · rw [if_pos hurgent] at hurg
        have hb := fd_handle_incoming_urgent_locks u fd recvs
          (set_in_read true (fd_handle_incoming_enter w)) wu hurg
        exact hb
      · rw [if_neg hurgent] at hurg
        rw [← Option.some.inj hurg]
        exact LockStep.lrefl true _
    have hr : LockStep true true wu r.2 := by
      unfold fd_handle_incoming_read at hread
      by_cases hlen : wu.fdll.read_data_len = 0
      · rw [if_pos hlen] at hread
        obtain ⟨⟨n, hn⟩, -⟩ := read_loop_trace fd reads wu r.2 r.1 hread
        exact LockStep.of_sys_calls true n _ hn rfl
      · rw [if_neg hlen] at hread
        rw [← Option.some.inj hread]
        exact LockStep.lrefl true _
    have hd := fd_deliver_read_data_locks hdel
    have hmid : LockStep false true w (set_in_read false wd) :=
      ((henter.ltrans hu).ltrans hr).ltrans hd
    exact hmid.ltrans (hout _)

theorem LockStep.lock_setup {h h1 : Bool} {w w1 : World H} (k : LockStep h h1 w w1)
    (sfh : Int) : LockStep h h1 w (fd_setup_handlers sfh w1).2 := by
  have k2 : LockStep h h1 w (emit (Event.set_fd_handlers w1.fdll.fd) w1) :=
    k.lock_emit _ (fun hx => by cases hx)
  unfold fd_setup_handlers
  simp only []
  split_ifs <;> exact k2

theorem fd_write_ready_retry_locks {u : User} {sfh : Int} {w w1 : World H}
    (h : fd_write_ready_retry u sfh w = some w1) : LockStep true true w w1 := by
  unfold fd_write_ready_retry at h
  have k0 : LockStep true true w (set_fd (-1) (emit (Event.sys_close w.fdll.fd)
      (emit (Event.clear_fd_handlers_norpt w.fdll.fd) w))) :=
    (((LockStep.lrefl true w).lock_emit (Event.clear_fd_handlers_norpt w.fdll.fd)
      (fun hx => by cases hx)).lock_emit (Event.sys_close w.fdll.fd)
      (fun hx => by cases hx)).then_same _ rfl
  cases hro : w.fdll.retry_open with
  | none =>
    have hro2 : (set_fd (-1) (emit (Event.sys_close w.fdll.fd)
      (emit (Event.clear_fd_handlers_norpt w.fdll.fd) w))).fdll.retry_open = none := hro
    simp [hro2] at h
  | some retry_open =>
    have hro2 : (set_fd (-1) (emit (Event.sys_close w.fdll.fd)
      (emit (Event.clear_fd_handlers_norpt w.fdll.fd) w))).fdll.retry_open
        = some retry_open := hro
    simp only [emit_fdll, hro2, Option.bind_eq_some] at h
    obtain ⟨r, -, h⟩ := h
    have k1 : LockStep true true w (set_fd r.2.2 (set_handler_data r.2.1
        (emit Event.hook_retry_open (set_fd (-1) (emit (Event.sys_close w.fdll.fd)
          (emit (Event.clear_fd_handlers_norpt w.fdll.fd) w)))))) :=
      (k0.lock_emit Event.hook_retry_open (fun hx => by cases hx)).then_same _ rfl
    split_ifs at h with h1 h2
    · exact k1.ltrans (fd_finish_open_locks h)
    · refine LockStep.ltrans ?_ (fd_finish_open_locks h)
      exact ((k1.lock_setup sfh).lock_emit _ (fun hx => by cases hx)).then_same _ rfl
    · rw [← Option.some.inj h]
      exact (k1.lock_setup sfh).lock_emit _ (fun hx => by cases hx)

theorem fd_write_ready_opening_locks {u : User} {sfh : Int} {w w1 : World H}
    (h : fd_write_ready_opening u sfh w = some w1) : LockStep true false w w1 := by
  unfold fd_write_ready_opening at h
  cases hco : w.fdll.check_open with
  | none => simp [hco] at h
  | some check_open =>
    simp only [hco, emit_fdll, Option.bind_eq_some] at h
    obtain ⟨c, -, w2, hfin, h⟩ := h
    rw [← Option.some.inj h]
    have k1 : LockStep true true w (set_handler_data c.2
        (emit (Event.hook_check_open w.fdll.fd) w)) :=
      ((LockStep.lrefl true w).lock_emit (Event.hook_check_open w.fdll.fd)
        (fun hx => by cases hx)).then_same _ rfl
    have k2 : LockStep true true w w2 := by
      split_ifs at hfin with h1
      · exact k1.ltrans (fd_write_ready_retry_locks hfin)
      · exact k1.ltrans (fd_finish_open_locks hfin)
    exact k2.lock_emit Event.unlock (fun hx => by cases hx)

theorem fd_write_ready_user_locks {u : User} {w w1 : World H}
    (h : fd_write_ready_user u w = some w1) : LockStep true true w w1 := by
  unfold fd_write_ready_user at h
  have k0 : LockStep true false w (fd_unlock w) :=
    (LockStep.lrefl true w).lock_emit Event.unlock (fun hx => by cases hx)
  cases hc : w.fdll.cbs with
  | none => simp [hc] at h
  | some cbs =>
    simp only [fd_unlock_fdll, hc] at h
    cases hw : cbs.write_callback with
    | none => simp [hw] at h
    | some f =>
      simp only [hw, Option.bind_eq_some] at h
      obtain ⟨r, hcb, h⟩ := h
      rw [← Option.some.inj h]
      have k1 := k0.ltrans (callback_locks hcb rfl)
      have k2 : LockStep true false w
          (if r.2.fdll.state = FD_OPEN ∧ r.2.fdll.write_enabled = true then
            emit (Event.set_write_handler r.2.fdll.fd true) r.2 else r.2) := by
        split_ifs
        · exact k1.lock_emit _ (fun hx => by cases hx)
        · exact k1
      exact k2.lock_emit Event.lock (fun hx => by cases hx)

theorem fd_write_ready_locks {u : User} {sfh : Int} {w w1 : World H}
    (h : fd_write_ready u sfh w = some w1) : LockStep false false w w1 := by
  unfold fd_write_ready at h
  have k0 : LockStep false true w (emit (Event.set_write_handler (fd_lock w).fdll.fd false)
      (fd_lock w)) :=
    ((LockStep.lrefl false w).lock_emit Event.lock (fun hx => by cases hx)).lock_emit _
      (fun hx => by cases hx)
  simp only [] at h
  split_ifs at h with hst
  · simp only [Option.bind_eq_some] at h
    obtain ⟨w2, hop, h⟩ := h
    rw [← Option.some.inj h]
    exact (k0.ltrans (fd_write_ready_opening_locks hop)).lock_emit Event.unlock
      (fun hx => by cases hx)
  · simp only [Option.bind_eq_some] at h
    obtain ⟨w2, hop, h⟩ := h
    rw [← Option.some.inj h]
    exact (k0.ltrans (fd_write_ready_user_locks hop)).lock_emit Event.unlock
      (fun hx => by cases hx)

theorem fd_finish_cleared_close_locks {u : User} {w w1 : World H}
    (h : fd_finish_cleared_close u w = some w1) : LockStep true false w w1 := by
  unfold fd_finish_cleared_close at h
  simp only [Option.bind_eq_some] at h
  obtain ⟨w2, h2, h3⟩ := h
  have k1 : LockStep true true w w2 := by
    split_ifs at h2
    · rw [← Option.some.inj h2]
      exact LockStep.lrefl true _
    · exact fd_finish_close_locks h2
  exact k1.ltrans (fd_deref_and_unlock_locks true h3)

theorem fd_finish_cleared_locks {u : User} {w w1 : World H}
    (h : fd_finish_cleared u w = some w1) : LockStep false false w w1 := by
  unfold fd_finish_cleared at h
  simp only [Option.bind_eq_some] at h
  obtain ⟨w2, hopened, h⟩ := h
  have k0 : LockStep false true w (set_fd (-1) (emit (Event.sys_close (fd_lock_and_ref w).fdll.fd)
      (fd_lock_and_ref w))) :=
    (((LockStep.lrefl false w).then_event (fd_lock_and_ref w) Event.lock rfl
      (fun hx => by cases hx)).lock_emit _ (fun hx => by cases hx)).then_same _ rfl
  have k1 : LockStep false true w w2 := by
    cases hod : w.fdll.open_done with
    | none =>
      have hod2 : (set_fd (-1) (emit (Event.sys_close (fd_lock_and_ref w).fdll.fd)
          (fd_lock_and_ref w))).fdll.open_done = none := hod
      simp only [hod2] at hopened
      rw [← Option.some.inj hopened]
      exact k0
    | some f =>
      have hod2 : (set_fd (-1) (emit (Event.sys_close (fd_lock_and_ref w).fdll.fd)
          (fd_lock_and_ref w))).fdll.open_done = some f := hod
      simp only [hod2, Option.bind_eq_some] at hopened
      obtain ⟨r, hcb, hopened⟩ := hopened
      rw [← Option.some.inj hopened]
      have k2 := (k0.then_event _ Event.unlock rfl (fun hx => by cases hx)).ltrans
        (callback_locks hcb rfl)
      exact k2.lock_emit Event.lock (fun hx => by cases hx)
  exact k1.ltrans (fd_finish_cleared_close_locks h)

theorem AccIdle.locks {w w1 : AccWorld} (h : AccIdle w w1) : AccLockStep false false w w1 := by
  obtain ⟨⟨t, ht, hc, hh⟩, -, -⟩ := h
  refine ⟨t, ht, callbacks_unlocked_other _ false t ?_, hh⟩
  intro e he hrole
  rw [List.filter_eq_nil_iff] at hc
  exact hc e he (by simp [hrole])

theorem AccLockStep.acc_then {h h1 : Bool} {w w1 : AccWorld} (k : AccLockStep h h1 w w1)
    (e : AccEvent) (he : e.lock_role = LockRole.user_callback → h1 = false) :
    AccLockStep h (e.lock_role.flag h1) w (acc_emit e w1) :=
  Unlocked.utrans k (Unlocked.step AccEvent.lock_role h1 w1.trace e he)

theorem acc_callback_locks {u : AccUser} {e : AccEvent} {w w1 : AccWorld}
    (h : acc_callback u e w = some w1) (he : e.lock_role = LockRole.user_callback) :
    AccLockStep false false w w1 := by
  have h1 : AccLockStep false (e.lock_role.flag false) w (acc_emit e w) :=
    AccLockStep.acc_then (Unlocked.urefl _ false _) e (fun _ => rfl)
  rw [he] at h1
  exact Unlocked.utrans h1 (accRunCalls_idle h).locks

theorem tcpna_fd_cleared_locks {u : AccUser} {fd : Int} {w w1 : AccWorld}
    (h : tcpna_fd_cleared u fd w = some w1) : AccLockStep false false w w1 := by
  have k0 : AccLockStep false false w (tcpna_fd_cleared_count fd w).2 :=
    ⟨[AccEvent.sys_close fd, AccEvent.lock, AccEvent.unlock],
      tcpna_fd_cleared_count_trace fd w, rfl, rfl⟩
  by_cases hz : (tcpna_fd_cleared_count fd w).1 = 0
  · rw [tcpna_fd_cleared_of_zero u fd w hz] at h
    unfold tcpna_fd_cleared_last at h
    simp only [Option.bind_eq_some] at h
    obtain ⟨w2, hcalled, h⟩ := h
    have k1 : AccLockStep false false w w2 := by
      cases hsd : (tcpna_fd_cleared_count fd w).2.na.shutdown_done with
      | none =>
        simp only [hsd] at hcalled
        rw [← Option.some.inj hcalled]
        exact k0
      | some f =>
        simp only [hsd] at hcalled
        exact Unlocked.utrans k0 (acc_callback_locks hcalled rfl)
    obtain ⟨⟨t, ht, hcase⟩, -⟩ := tcpna_deref_and_unlock_idle h
    have k2 : AccLockStep false false w2 w1 := by
      refine ⟨AccEvent.lock :: AccEvent.unlock :: t, ?_, ?_, ?_⟩
      · rw [ht]
        show w2.trace ++ [AccEvent.lock] ++ AccEvent.unlock :: t = _
        simp
      · rcases hcase with rfl | rfl <;> rfl
      · rcases hcase with rfl | rfl <;> rfl
    exact Unlocked.utrans k1 k2
  · have hstep : tcpna_fd_cleared u fd w = some (tcpna_fd_cleared_count fd w).2 := by
      simp only [tcpna_fd_cleared, if_neg hz]
    rw [hstep] at h
    rw [← Option.some.inj h]
    exact k0

theorem tcpna_readhandler_locks {u : AccUser} {fd : Int} {a : AcceptResults}
    {w w1 : AccWorld} {ll : Option (World TcpCtx)}
    (h : tcpna_readhandler u fd a w = some (w1, ll)) : AccLockStep false false w w1 := by
  have k0 : AccLockStep false false w (acc_emit (AccEvent.sys_accept fd) w) :=
    AccLockStep.acc_then (Unlocked.urefl _ false _) _ (fun hx => by cases hx)
  have ke : ∀ (x : AccWorld) (e : AccEvent), e.lock_role = LockRole.other →
      AccLockStep false false w x → AccLockStep false false w (acc_emit e x) := by
    intro x e he k
    have k2 := AccLockStep.acc_then k e (fun hx => absurd (he.symm.trans hx) (by decide))
    rw [he] at k2
    exact k2
  unfold tcpna_readhandler at h
  simp only [] at h
  cases hacc : a.accept with
  | fail e =>
    simp only [hacc] at h
    split_ifs at h
    · simp only [Option.some.injEq, Prod.mk.injEq] at h
      rw [← h.1]
      exact ke _ _ rfl k0
    · simp only [Option.some.injEq, Prod.mk.injEq] at h
      rw [← h.1]
      exact k0
  | ok n =>
    simp only [hacc] at h
    split_ifs at h with h1 h2 h3
    · simp only [Option.some.injEq, Prod.mk.injEq] at h
      rw [← h.1]
      exact ke _ _ rfl (ke _ _ rfl k0)
    · simp only [Option.some.injEq, Prod.mk.injEq] at h
      rw [← h.1]
      exact ke _ _ rfl (ke _ _ rfl k0)
    · simp only [Option.some.injEq, Prod.mk.injEq] at h
      rw [← h.1]
      exact ke _ _ rfl (ke _ _ rfl (ke _ _ rfl k0))
    · split at h
      · simp only [Option.some.injEq, Prod.mk.injEq] at h
        rw [← h.1]
        exact ke _ _ rfl (ke _ _ rfl (ke _ _ rfl k0))
      · split at h
        · simp only [Option.some.injEq, Prod.mk.injEq] at h
          rw [← h.1]
          exact ke _ _ rfl (ke _ _ rfl (ke _ _ rfl (ke _ _ rfl k0)))
        · split at h
          · simp at h
          · split at h
            · simp at h
            · simp only [Option.bind_eq_some] at h
              obtain ⟨x, hcb, h⟩ := h
              simp only [Option.some.injEq, Prod.mk.injEq] at h
              rw [← h.1]
              exact Unlocked.utrans k0 (acc_callback_locks hcb rfl)
    · split at h
      · simp at h
      · split at h
        · simp only [Option.some.injEq, Prod.mk.injEq] at h
          rw [← h.1]
          exact ke _ _ rfl (ke _ _ rfl (ke _ _ rfl (ke _ _ rfl k0)))
        · split at h
          · simp at h
          · split at h
            · simp at h
            · simp only [Option.bind_eq_some] at h
              obtain ⟨x, hcb, h⟩ := h
              simp only [Option.some.injEq, Prod.mk.injEq] at h
              rw [← h.1]
              exact Unlocked.utrans k0 (acc_callback_locks hcb rfl)

/-- C15: with the mutex of an object modelled as a held flag that `lock` sets
and `unlock` clears, every user callback is invoked with the flag clear. The
readiness handlers, `fd_finish_cleared` and `fd_deferred_op` of the fd lower
layer and `tcpna_readhandler` and `tcpna_fd_cleared` of the acceptor are
entered with the mutex released and return with it released; `fd_finish_open`
and `fd_finish_close` are entered, as their callers do, with the mutex held
and return with it held. All the callbacks concerned (`read_callback`,
`write_callback`, `urgent_callback`, `open_done`, `close_done`,
`new_connection`, `shutdown_done`) are covered, whatever API calls the user
code makes from inside them. -/
theorem callbacks_run_unlocked (u : User) (au : AccUser) :
    (∀ (w w1 : World H) (fd : Int) (reads : List ReadRes),
        fd_read_ready u fd reads w = some w1 → LockStep false false w w1)
    ∧ (∀ (w w1 : World H) (fd : Int) (recvs : List SysRes) (reads : List ReadRes),
        fd_except_ready u fd recvs reads w = some w1 → LockStep false false w w1)
    ∧ (∀ (w w1 : World H) (sfh : Int),
        fd_write_ready u sfh w = some w1 → LockStep false false w w1)
    ∧ (∀ (w w1 : World H) (err : Nat),
        fd_finish_open u err w = some w1 → LockStep true true w w1)
    ∧ (∀ (w w1 : World H), fd_finish_cleared u w = some w1 → LockStep false false w w1)
    ∧ (∀ (w w1 : World H), fd_finish_close u w = some w1 → LockStep true true w w1)
    ∧ (∀ (w w1 : World H) (fuel : Nat),
        fd_deferred_op u fuel w = some w1 → LockStep false false w w1)
    ∧ (∀ (w w1 : AccWorld) (fd : Int) (a : AcceptResults) (ll : Option (World TcpCtx)),
        tcpna_readhandler au fd a w = some (w1, ll) → AccLockStep false false w w1)
    ∧ (∀ (w w1 : AccWorld) (fd : Int),
        tcpna_fd_cleared au fd w = some w1 → AccLockStep false false w w1) :=
  ⟨fun _ _ _ _ h => fd_handle_incoming_locks h,
    fun _ _ _ _ _ h => fd_handle_incoming_locks h,
    fun _ _ _ h => fd_write_ready_locks h,
    fun _ _ _ h => fd_finish_open_locks h,
    fun _ _ h => fd_finish_cleared_locks h,
    fun _ _ h => fd_finish_close_locks h,
    fun _ _ _ h => fd_deferred_op_locks h,
    fun _ _ _ _ _ h => tcpna_readhandler_locks h,
    fun _ _ _ h => tcpna_fd_cleared_locks h⟩

/-- Witness of C15: the read cycle of the example stream that delivers
`abcdef`, and the accept of a peer on the listening example acceptor, which
hands the new stream on descriptor 9 to `new_connection`. -/
theorem callbacks_run_unlocked_witness :
    (∃ w1, fd_read_ready ex_user_two 5 [ReadRes.ok [97, 98, 99, 100, 101, 102] 0]
        ex_open_reading = some w1
      ∧ callbacks_since ex_open_reading.trace.length w1
          = [Event.read_callback 77 0 0 6 [97, 98, 99, 100, 101, 102]]
      ∧ LockStep false false ex_open_reading w1)
    ∧ (∃ w1 ll, tcpna_readhandler ex_acc_user_idle 3 ex_accept_ok ex_listening
        = some (w1, some ll)
      ∧ w1.trace = [AccEvent.sys_accept 3, AccEvent.new_connection 6 1000 500]
      ∧ ll.fdll.fd = 9 ∧ ll.fdll.state = FD_OPEN
      ∧ AccLockStep false false ex_listening w1) :=
  ⟨⟨_, rfl, rfl,
      (@callbacks_run_unlocked Unit ex_user_two ex_acc_user_idle).1 ex_open_reading _ 5
        [ReadRes.ok [97, 98, 99, 100, 101, 102] 0] rfl⟩,
    ⟨_, _, rfl, rfl, rfl, rfl,
      (@callbacks_run_unlocked Unit ex_user_two ex_acc_user_idle).2.2.2.2.2.2.2.1 ex_listening _ 3
        ex_accept_ok _ rfl⟩⟩

/-! ### Reachable states -/

/-- C21: a TCP client stream as `fd_genio_ll_alloc` leaves it (closed,
descriptor -1) is opened for `[A, B]`; the connect to `A` is in progress,
`check_open` fails at the write-ready event and the retry fails in `socket`,
which drives the stream to `FD_IN_CLOSE` with descriptor -1. The
handlers-cleared event invokes `open_done` with the failure status; the
user's callback opens the stream again, which succeeds on descriptor 9 because
`fd_open` does not look at the state; `fd_finish_cleared` then finishes the
close: the stream is `FD_CLOSED` with the live descriptor 9, whose handlers
are registered. -/
theorem closed_with_live_descriptor :
    (∃ w0 : World TcpCtx, fd_genio_ll_alloc ex_alloc_ok (-1) tcp_fd_ll_ops
          (ex_tcp_ctx [ex_addr_A, ex_addr_B] ex_answers_reopen) 8 = some w0
      ∧ w0.fdll.state = FD_CLOSED ∧ w0.fdll.fd = -1
      ∧ ex_reopen.fdll.state = w0.fdll.state ∧ ex_reopen.fdll.fd = w0.fdll.fd)
    ∧ ∃ w1 w2 w3,
      fd_open (some 1) 42 0 ex_reopen = some (EINPROGRESS, w1)
      ∧ fd_write_ready ex_user_reopen 0 w1 = some w2
      ∧ w2.fdll.state = FD_IN_CLOSE ∧ w2.fdll.fd = -1
      ∧ fd_cleared ex_user_reopen w2 = some w3
      ∧ callbacks_since 0 w3 = [Event.open_done 1 42 24 42]
      ∧ w3.fdll.state = FD_CLOSED
      ∧ w3.fdll.fd = 9
      ∧ registered_fds w3.trace = [9] := by
  refine ⟨⟨_, rfl, rfl, rfl, rfl, rfl⟩, ?_⟩
  have hrun : ((fd_open (some 1) 42 0 ex_reopen).bind fun r1 =>
      (fd_write_ready ex_user_reopen 0 r1.2).bind fun w2 =>
        (fd_cleared ex_user_reopen w2).map fun w3 =>
          ((r1.1, w2.fdll.state, w2.fdll.fd), (w3.fdll.state, w3.fdll.fd),
            callbacks_since 0 w3, registered_fds w3.trace))
      = some ((EINPROGRESS, FD_IN_CLOSE, -1), (FD_CLOSED, 9),
          [Event.open_done 1 42 24 42], [9]) := by
    decide!
  simp only [Option.bind_eq_some, Option.map_eq_some', Prod.mk.injEq] at hrun
  obtain ⟨⟨e, w1⟩, h1, w2, h2, w3, h3, ⟨he, hs2, hf2⟩, ⟨hs3, hf3⟩, hc, hr⟩ := hrun
  simp only at he
  subst he
  exact ⟨w1, w2, w3, h1, h2, hs2, hf2, h3, hc, hs3, hf3, hr⟩

/-- C22: `tcp_retry_open` with the cursor on the last address advances it to
the null pointer and `tcp_try_open` reads `ai->ai_family` through it: the call
does not return. So for the single address `A` whose connect is in progress
and whose `check_open` then fails, the write-ready event does not return
either; no failure status is produced and the open is not finalised. -/
theorem tcp_retry_open_past_last_address :
    (∀ (h : TcpCtx) (a : addrinfo) (fd : Int),
      tcp_retry_open { h with tdata := { h.tdata with curr_ai := [a] } } fd = none)
    ∧ (∃ w1, fd_open (some 1) 42 0 ex_single_failed = some (EINPROGRESS, w1)
      ∧ w1.fdll.state = FD_IN_OPEN
      ∧ w1.fdll.handler_data.tdata.curr_ai = [ex_addr_A]
      ∧ fd_write_ready ex_user_idle 0 w1 = none) :=
  ⟨fun _ _ _ => rfl, ⟨_, rfl, rfl, rfl, rfl⟩⟩

/-- C23: the acceptor `tcp_genio_acceptor_alloc` builds has the flags
`(false, false, false)`; `tcpna_set_accept_callback_enable(true)` on it sets
`enabled` although `setup` is clear. On the acceptor that is shutting down
the same call sets `enabled` as well and enables read-readiness on the
listeners whose handlers are being cleared. -/
theorem enable_without_setup_sets_enabled :
    tcp_genio_acceptor_alloc ex_acc_alloc_ok 1000 [116] [ex_addr_A, ex_addr_B] 8
        (some { new_connection := some 6 }) 55 none = some (0, some ex_acceptor)
    ∧ (ex_acceptor.na.setup, ex_acceptor.na.enabled, ex_acceptor.na.in_shutdown)
        = (false, false, false)
    ∧ (∃ w1, tcpna_set_accept_callback_enable true ex_acceptor = some w1
      ∧ (w1.na.setup, w1.na.enabled, w1.na.in_shutdown) = (false, true, false)
      ∧ w1.trace = [AccEvent.lock, AccEvent.unlock])
    ∧ (∃ w2, tcpna_set_accept_callback_enable true ex_shutting_down = some w2
      ∧ (w2.na.setup, w2.na.enabled, w2.na.in_shutdown) = (false, true, true)
      ∧ w2.trace = ex_shutting_down.trace ++ [AccEvent.lock,
          AccEvent.set_read_handler 3 true, AccEvent.set_read_handler 4 true,
          AccEvent.unlock]) :=
  ⟨rfl, rfl, ⟨_, rfl, rfl, rfl⟩, ⟨_, rfl, rfl, rfl⟩⟩

/-- C25: with the mutex as a counter, the write-ready event on the stream
whose connect to `B` is in progress takes the mutex once and releases it
twice: the `FD_IN_OPEN` branch of `fd_write_ready` ends in `fd_unlock` and then
falls through to the final `fd_unlock`, which meets a mutex that is not held.
The other branch, taken here by the next write-ready event, is balanced. -/
theorem fd_write_ready_unlocks_twice :
    ∃ w1 w2 w3, fd_open (some 1) 42 0 ex_fallback = some (EINPROGRESS, w1)
      ∧ mutex_run 0 w1.trace = some 0
      ∧ fd_write_ready ex_user_idle 0 w1 = some w2
      ∧ w2.trace.drop w1.trace.length = [Event.lock, Event.set_write_handler 7 false,
          Event.hook_check_open 7, Event.unlock, Event.open_done 1 77 0 42, Event.lock,
          Event.unlock, Event.unlock]
      ∧ mutex_run 0 (w2.trace.drop w1.trace.length) = none
      ∧ fd_write_ready ex_user_idle 0 w2 = some w3
      ∧ w3.trace.drop w2.trace.length = [Event.lock, Event.set_write_handler 7 false,
          Event.unlock, Event.write_callback 77, Event.lock, Event.unlock]
      ∧ mutex_run 0 (w3.trace.drop w2.trace.length) = some 0 :=
  ⟨_, _, _, rfl, rfl, rfl, rfl, rfl, rfl, rfl, rfl⟩

/-- C26: on the example stream (`FD_OPEN`, empty buffer, `in_read` clear)
`fd_set_read_callback_enable(true)` calls `set_read_handler` only:
read-readiness is armed on descriptor 5 and except-readiness is not. The
read cycle that follows arms both, as `fd_finish_open` and `fd_deferred_op`
do. -/
theorem read_enable_leaves_except_disabled :
    ex_open.fdll.state = FD_OPEN ∧ ex_open.fdll.read_data_len = 0
    ∧ ex_open.fdll.in_read = false
    ∧ (fd_set_read_callback_enable true ex_open).trace
        = [Event.set_fd_handlers 5, Event.lock, Event.set_read_handler 5 true, Event.unlock]
    ∧ read_armed 5 (fd_set_read_callback_enable true ex_open).trace = true
    ∧ except_armed 5 (fd_set_read_callback_enable true ex_open).trace = false
    ∧ (∃ w1, fd_read_ready ex_user_idle 5 [ReadRes.fail EAGAIN]
          (fd_set_read_callback_enable true ex_open) = some w1
      ∧ read_armed 5 w1.trace = true ∧ except_armed 5 w1.trace = true) :=
  ⟨rfl, rfl, rfl, rfl, rfl, rfl, ⟨_, rfl, rfl, rfl⟩⟩

/-! ### The trampoline -/

theorem TrampStep.trefl (w : World H) : TrampStep w w := fun h => h

theorem TrampStep.ttrans {a b c : World H} (h1 : TrampStep a b) (h2 : TrampStep b c) :
    TrampStep a c := fun h => h2 (h1 h)

theorem TrampStep.of_flags {w w1 : World H} (h : tramp_flags w1 = tramp_flags w) :
    TrampStep w w1 := by
  simp only [tramp_flags, Prod.mk.injEq] at h
  obtain ⟨h1, h2, h3⟩ := h
  intro hi
  unfold tramp_inv at *
  rw [h1, h2, h3]
  exact hi

theorem TrampStep.then_flags {w w1 : World H} (k : TrampStep w w1) (w2 : World H)
    (h : tramp_flags w2 = tramp_flags w1) : TrampStep w w2 :=
  k.ttrans (TrampStep.of_flags h)

theorem fd_start_close_flags {w w1 : World H} (h : fd_start_close w = some w1) :
    tramp_flags w1 = tramp_flags w ∧ w1.fdll.refcount = w.fdll.refcount := by
  unfold fd_start_close at h
  cases hc : w.fdll.ops.check_close with
  | none =>
    simp [hc, emit] at h
    subst h
    exact ⟨rfl, rfl⟩
  | some cc =>
    simp only [hc, emit] at h
    cases hr : cc w.fdll.handler_data close_state.GENIO_LL_CLOSE_STATE_START with
    | none => simp [hr] at h
    | some r =>
      simp [hr] at h
      subst h
      exact ⟨rfl, rfl⟩

theorem fd_deref_and_unlock_flags {w w1 : World H} (h : fd_deref_and_unlock w = some w1) :
    tramp_flags w1 = tramp_flags w ∧ w1.fdll.refcount + 1 = w.fdll.refcount := by
  unfold fd_deref_and_unlock at h
  simp only [fd_unlock, fd_finish_free, emit] at h
  split_ifs at h with h0 h1
  · rw [← Option.some.inj h]
    exact ⟨rfl, by simp only []; omega⟩
  · rw [← Option.some.inj h]
    exact ⟨rfl, by simp only []; omega⟩

theorem fd_sched_deferred_op_spec (w : World H) :
    (w.fdll.deferred_op_pending = false →
      (fd_sched_deferred_op w).fdll.deferred_op_pending = true
      ∧ (fd_sched_deferred_op w).fdll.refcount = (w.fdll.refcount + 1) % UINT_MOD
      ∧ (fd_sched_deferred_op w).fdll.deferred_read = w.fdll.deferred_read
      ∧ (fd_sched_deferred_op w).fdll.deferred_close = w.fdll.deferred_close
      ∧ (fd_sched_deferred_op w).trace = w.trace ++ [Event.run_deferred_op])
    ∧ (w.fdll.deferred_op_pending = true → fd_sched_deferred_op w = w) := by
  unfold fd_sched_deferred_op
  constructor
  · intro h
    rw [if_pos h]
    exact ⟨rfl, rfl, rfl, rfl, rfl⟩
  · intro h
    rw [if_neg (by rw [h]; decide)]

theorem fd_sched_deferred_op_flags (w : World H) :
    (fd_sched_deferred_op w).fdll.deferred_op_pending = true
      ∧ (fd_sched_deferred_op w).fdll.deferred_close = w.fdll.deferred_close
      ∧ (w.fdll.deferred_op_pending = true →
          (fd_sched_deferred_op w).fdll.refcount = w.fdll.refcount) := by
  by_cases hp : w.fdll.deferred_op_pending = true
  · rw [(fd_sched_deferred_op_spec w).2 hp]
    exact ⟨hp, rfl, fun _ => rfl⟩
  · have hpf : w.fdll.deferred_op_pending = false := by
      cases hx : w.fdll.deferred_op_pending with
      | false => rfl
      | true => exact absurd hx hp
    obtain ⟨a, -, -, d, -⟩ := (fd_sched_deferred_op_spec w).1 hpf
    exact ⟨a, d, fun h => absurd h hp⟩

/-- What one API call does to the trampoline bookkeeping: it keeps the
invariant and `deferred_close`, and while the trampoline is pending it keeps
it pending and, unless it is `fd_free`, keeps the reference count. -/
theorem apiStep_flags {c : ApiCall} {w w1 : World H} (h : apiStep c w = some w1) :
    TrampStep w w1 ∧ w1.fdll.deferred_close = w.fdll.deferred_close
      ∧ (w.fdll.deferred_op_pending = true →
          w1.fdll.deferred_op_pending = true
          ∧ (c ≠ ApiCall.free → w1.fdll.refcount = w.fdll.refcount)) := by
  cases c with
  | set_callbacks cbs cb_data =>
    simp [apiStep, fd_set_callbacks] at h
    subst h
    exact ⟨TrampStep.of_flags rfl, rfl, fun hp => ⟨hp, fun _ => rfl⟩⟩
  | «open» done open_data sfh =>
    simp only [apiStep, Option.map_eq_some'] at h
    obtain ⟨p, hp, rfl⟩ := h
    have key : tramp_flags p.2 = tramp_flags w ∧ p.2.fdll.refcount = w.fdll.refcount := by
      unfold fd_open at hp
      cases hs : w.fdll.ops.sub_open with
      | none =>
        simp [hs] at hp
        rw [← hp]
        exact ⟨rfl, rfl⟩
      | some f =>
        simp only [hs, fd_lock, fd_unlock, emit, fd_setup_handlers] at hp
        cases hr : f w.fdll.handler_data ⟨w.fdll.check_open, w.fdll.retry_open, w.fdll.fd⟩ with
        | none => simp [hr] at hp
        | some r =>
          simp only [hr, Option.some_bind] at hp
          split_ifs at hp <;> simp at hp <;> rw [← hp] <;> exact ⟨rfl, rfl⟩
    have kf := key.1
    simp only [tramp_flags, Prod.mk.injEq] at kf
    exact ⟨TrampStep.of_flags key.1, kf.2.1, fun hpend => ⟨kf.2.2.trans hpend, fun _ => key.2⟩⟩
  | close done close_data =>
    simp only [apiStep, Option.map_eq_some'] at h
    obtain ⟨p, hp, rfl⟩ := h
    have key : tramp_flags p.2 = tramp_flags w ∧ p.2.fdll.refcount = w.fdll.refcount := by
      unfold fd_close at hp
      simp only [fd_lock, fd_unlock, emit] at hp
      split_ifs at hp
      · simp only [Option.bind_eq_some] at hp
        obtain ⟨w2, hsc, hp⟩ := hp
        simp at hp
        rw [← hp]
        obtain ⟨a, b⟩ := fd_start_close_flags hsc
        exact ⟨a, b⟩
      · simp at hp
        rw [← hp]
        exact ⟨rfl, rfl⟩
    have kf := key.1
    simp only [tramp_flags, Prod.mk.injEq] at kf
    exact ⟨TrampStep.of_flags key.1, kf.2.1, fun hpend => ⟨kf.2.2.trans hpend, fun _ => key.2⟩⟩
  | set_read_callback_enable b =>
    simp [apiStep] at h
    subst h
    unfold fd_set_read_callback_enable
    simp only []
    split_ifs with h1 h2
    · exact ⟨TrampStep.of_flags rfl, rfl, fun hp => ⟨hp, fun _ => rfl⟩⟩
    · exact ⟨fun _ _ => (fd_sched_deferred_op_flags _).1, (fd_sched_deferred_op_flags _).2.1,
        fun hp => ⟨(fd_sched_deferred_op_flags _).1,
          fun _ => (fd_sched_deferred_op_flags _).2.2 hp⟩⟩
    · exact ⟨TrampStep.of_flags rfl, rfl, fun hp => ⟨hp, fun _ => rfl⟩⟩
  | set_write_callback_enable b =>
    simp [apiStep] at h
    subst h
    unfold fd_set_write_callback_enable
    simp only [fd_lock, fd_unlock, emit]
    split_ifs <;> exact ⟨TrampStep.of_flags rfl, rfl, fun hp => ⟨hp, fun _ => rfl⟩⟩
  | free =>
    simp only [apiStep, fd_free] at h
    obtain ⟨a, -⟩ := fd_deref_and_unlock_flags h
    have kf := a
    simp only [tramp_flags, Prod.mk.injEq] at kf
    exact ⟨TrampStep.of_flags a, kf.2.1, fun hp => ⟨kf.2.2.trans hp, fun hne => absurd rfl hne⟩⟩

theorem runCalls_flags {cs : List ApiCall} {w w1 : World H} (h : runCalls cs w = some w1) :
    TrampStep w w1 ∧ w1.fdll.deferred_close = w.fdll.deferred_close
      ∧ (w.fdll.deferred_op_pending = true →
          w1.fdll.deferred_op_pending = true
          ∧ (ApiCall.free ∉ cs → w1.fdll.refcount = w.fdll.refcount)) := by
  induction cs generalizing w with
  | nil =>
    simp [runCalls] at h
    subst h
    exact ⟨TrampStep.trefl _, rfl, fun hp => ⟨hp, fun _ => rfl⟩⟩
  | cons c cs ih =>
    simp only [runCalls] at h
    cases hc : apiStep c w with
    | none => simp [hc] at h
    | some w2 =>
      simp [hc] at h
      obtain ⟨a1, b1, c1⟩ := apiStep_flags hc
      obtain ⟨a2, b2, c2⟩ := ih h
      refine ⟨a1.ttrans a2, b2.trans b1, fun hp => ?_⟩
      obtain ⟨p1, r1⟩ := c1 hp
      obtain ⟨p2, r2⟩ := c2 p1
      refine ⟨p2, fun hfree => ?_⟩
      have hc1 : c ≠ ApiCall.free := fun he => hfree (by rw [he]; exact List.mem_cons_self _ _)
      have hc2 : ApiCall.free ∉ cs := fun hm => hfree (List.mem_cons_of_mem _ hm)
      exact (r2 hc2).trans (r1 hc1)

theorem callback_flags {u : User} {e : Event} {w : World H} {r : Nat × World H}
    (h : callback u e w = some r) :
    TrampStep w r.2 ∧ r.2.fdll.deferred_close = w.fdll.deferred_close
      ∧ (w.fdll.deferred_op_pending = true →
          r.2.fdll.deferred_op_pending = true
          ∧ ((∀ t, ApiCall.free ∉ (u t).calls) → r.2.fdll.refcount = w.fdll.refcount)) := by
  obtain ⟨a, b, c⟩ := runCalls_flags (callback_run h)
  refine ⟨a, b, fun hp => ?_⟩
  obtain ⟨p, r1⟩ := c hp
  exact ⟨p, fun hfree => r1 (hfree _)⟩

theorem fd_deliver_read_data_flags {u : User} {err : Nat} {w w1 : World H}
    (h : fd_deliver_read_data u err w = some w1) :
    TrampStep w w1 ∧ w1.fdll.deferred_close = w.fdll.deferred_close
      ∧ (w.fdll.deferred_op_pending = true →
          w1.fdll.deferred_op_pending = true
          ∧ ((∀ t, ApiCall.free ∉ (u t).calls) → w1.fdll.refcount = w.fdll.refcount)) := by
  rcases fd_deliver_read_data_cases h with ⟨-, -, rfl⟩ | ⟨k, wq, hcb, -, hz, hnz⟩
  · exact ⟨TrampStep.trefl _, rfl, fun hp => ⟨hp, fun _ => rfl⟩⟩
  · obtain ⟨a, b, c⟩ := callback_flags hcb
    have hf : w1.fdll.deferred_read = wq.fdll.deferred_read
        ∧ w1.fdll.deferred_close = wq.fdll.deferred_close
        ∧ w1.fdll.deferred_op_pending = wq.fdll.deferred_op_pending
        ∧ w1.fdll.refcount = wq.fdll.refcount := by
      by_cases hb : err ≠ 0 ∨ k % UINT_MOD ≥ w.fdll.read_data_len
      · rw [hz hb]
        exact ⟨rfl, rfl, rfl, rfl⟩
      · rw [hnz hb]
        exact ⟨rfl, rfl, rfl, rfl⟩
    obtain ⟨f1, f2, f3, f4⟩ := hf
    have a2 : TrampStep w wq := a
    refine ⟨a2.then_flags w1 (by simp only [tramp_flags, f1, f2, f3]), f2.trans b, fun hp => ?_⟩
    obtain ⟨p, r1⟩ := c hp
    exact ⟨f3.trans p, fun hfree => f4.trans (r1 hfree)⟩

theorem read_loop_flags (fd : Int) (reads : List ReadRes) (w w1 : World H) (err : Nat)
    (h : read_loop fd reads w = some (err, w1)) : tramp_flags w1 = tramp_flags w := by
  induction reads generalizing w with
  | nil => simp [read_loop] at h
  | cons r rest ih =>
    cases r with
    | fail e =>
      simp only [read_loop] at h
      split_ifs at h with h1 h2
      · exact ih (emit (Event.sys_read fd w.fdll.read_data_size) w) h
      · simp only [Option.some.injEq, Prod.mk.injEq] at h
        obtain ⟨-, rfl⟩ := h
        rfl
      · simp only [Option.some.injEq, Prod.mk.injEq] at h
        obtain ⟨-, rfl⟩ := h
        rfl
    | ok data e =>
      rcases read_loop_ok_cases h with h | rfl | rfl
      · exact ih (read_store data (emit (Event.sys_read fd w.fdll.read_data_size) w)) h
      · rfl
      · rfl

theorem fd_handle_incoming_urgent_tramp (u : User) (fd : Int) (recvs : List SysRes)
    (x wu : World H) (h : fd_handle_incoming_urgent u fd recvs x = some wu) :
    TrampStep x wu := by
  unfold fd_handle_incoming_urgent at h
  simp only [Option.bind_eq_some] at h
  obtain ⟨w1, hrecv, h⟩ := h
  obtain ⟨hf, -⟩ := recv_oob_loop_spec fd recvs x w1 hrecv
  have h1 : TrampStep x w1 := TrampStep.of_flags (by simp only [tramp_flags, hf])
  cases hc : w1.fdll.cbs with
  | none => simp [hc] at h
  | some cbs =>
    simp only [hc] at h
    cases hu : cbs.urgent_callback with
    | none =>
      simp [hu] at h
      subst h
      exact h1
    | some f =>
      simp only [hu, Option.bind_eq_some] at h
      obtain ⟨r, hcb, h⟩ := h
      simp at h
      subst h
      have h2 : TrampStep x (fd_unlock w1) := h1.then_flags _ rfl
      exact (h2.ttrans (callback_flags hcb).1).then_flags _ rfl

theorem fd_handle_incoming_tramp {u : User} {fd : Int} {urgent : Bool} {recvs : List SysRes}
    {reads : List ReadRes} {w w1 : World H}
    (h : fd_handle_incoming u fd urgent recvs reads w = some w1) : TrampStep w w1 := by
  have hout : ∀ v : World H, tramp_flags (fd_handle_incoming_out v) = tramp_flags v := by
    intro v
    simp only [tramp_flags, (fd_handle_incoming_out_trace v).2]
  have henter : tramp_flags (fd_handle_incoming_enter w) = tramp_flags w := by
    simp only [tramp_flags, (fd_handle_incoming_enter_trace w).2]
  rcases fd_handle_incoming_cases h with ⟨-, rfl⟩ | ⟨-, wu, r, wd, hurg, hread, hdel, rfl⟩
  · exact TrampStep.of_flags ((hout _).trans henter)
  · have h0 : TrampStep w (set_in_read true (fd_handle_incoming_enter w)) :=
      TrampStep.of_flags henter
    have hu : TrampStep (set_in_read true (fd_handle_incoming_enter w)) wu := by
      by_cases hurgent : urgent = true
      · rw [if_pos hurgent] at hurg
        exact fd_handle_incoming_urgent_tramp u fd recvs _ wu hurg
      · rw [if_neg hurgent] at hurg
        rw [← Option.some.inj hurg]
        exact TrampStep.trefl _
    have hr : TrampStep wu r.2 := by
      unfold fd_handle_incoming_read at hread
      by_cases hlen : wu.fdll.read_data_len = 0
      · rw [if_pos hlen] at hread
        exact TrampStep.of_flags (read_loop_flags fd reads wu r.2 r.1 hread)
      · rw [if_neg hlen] at hread
        rw [← Option.some.inj hread]
        exact TrampStep.trefl _
    have hd := (fd_deliver_read_data_flags hdel).1
    have hend : TrampStep wd (fd_handle_incoming_out (set_in_read false wd)) :=
      TrampStep.of_flags (hout _)
    exact (((h0.ttrans hu).ttrans hr).ttrans hd).ttrans hend

theorem fd_finish_open_handlers_fdll (w : World H) :
    (fd_finish_open_handlers w).fdll = w.fdll := by
  unfold fd_finish_open_handlers
  simp only []
  split_ifs <;> rfl

theorem fd_finish_open_tramp {u : User} {err : Nat} {w w1 : World H}
    (h : fd_finish_open u err w = some w1) : TrampStep w w1 := by
  unfold fd_finish_open at h
  by_cases he : err ≠ 0
  · rw [if_pos he] at h
    exact TrampStep.of_flags (fd_start_close_flags h).1
  · rw [if_neg he] at h
    simp only [Option.bind_eq_some] at h
    obtain ⟨w2, hcalled, h⟩ := h
    rw [← Option.some.inj h]
    have hh : TrampStep w2 (fd_finish_open_handlers w2) :=
      TrampStep.of_flags (by simp only [tramp_flags, fd_finish_open_handlers_fdll])
    refine TrampStep.ttrans ?_ hh
    cases hod : w.fdll.open_done with
    | none =>
      simp only [hod] at hcalled
      rw [← Option.some.inj hcalled]
      exact TrampStep.of_flags rfl
    | some f =>
      simp only [hod, Option.bind_eq_some] at hcalled
      obtain ⟨r, hcb, hcalled⟩ := hcalled
      rw [← Option.some.inj hcalled]
      have h1 : TrampStep w (fd_unlock
          { w with fdll := { ({ w with fdll := { w.fdll with state := FD_OPEN } } :
            World H).fdll with open_done := none } }) := TrampStep.of_flags rfl
      exact (h1.ttrans (callback_flags hcb).1).then_flags _ rfl

theorem fd_finish_close_flags {u : User} {w w1 : World H}
    (h : fd_finish_close u w = some w1) :
    tramp_flags w1 = tramp_flags w ∧ w1.fdll.refcount = w.fdll.refcount := by
  simp [fd_finish_close] at h
  subst h
  exact ⟨rfl, rfl⟩

theorem fd_write_ready_retry_tramp {u : User} {sfh : Int} {w w1 : World H}
    (h : fd_write_ready_retry u sfh w = some w1) : TrampStep w w1 := by
  unfold fd_write_ready_retry at h
  cases hro : w.fdll.retry_open with
  | none =>
    have hro2 : (set_fd (-1) (emit (Event.sys_close w.fdll.fd)
      (emit (Event.clear_fd_handlers_norpt w.fdll.fd) w))).fdll.retry_open = none := hro
    simp [hro2] at h
  | some retry_open =>
    have hro2 : (set_fd (-1) (emit (Event.sys_close w.fdll.fd)
      (emit (Event.clear_fd_handlers_norpt w.fdll.fd) w))).fdll.retry_open
        = some retry_open := hro
    simp only [emit_fdll, hro2, Option.bind_eq_some] at h
    obtain ⟨r, -, h⟩ := h
    have k1 : TrampStep w (set_fd r.2.2 (set_handler_data r.2.1
        (emit Event.hook_retry_open (set_fd (-1) (emit (Event.sys_close w.fdll.fd)
          (emit (Event.clear_fd_handlers_norpt w.fdll.fd) w)))))) := TrampStep.of_flags rfl
    have hsetup : ∀ x : World H, tramp_flags (fd_setup_handlers sfh x).2 = tramp_flags x := by
      intro x
      unfold fd_setup_handlers
      simp only []
      split_ifs <;> rfl
    split_ifs at h with h1 h2
    · exact k1.ttrans (fd_finish_open_tramp h)
    · refine TrampStep.ttrans ?_ (fd_finish_open_tramp h)
      exact k1.then_flags _ (hsetup _)
    · rw [← Option.some.inj h]
      exact k1.then_flags _ (hsetup _)

theorem fd_write_ready_opening_tramp {u : User} {sfh : Int} {w w1 : World H}
    (h : fd_write_ready_opening u sfh w = some w1) : TrampStep w w1 := by
  unfold fd_write_ready_opening at h
  cases hco : w.fdll.check_open with
  | none => simp [hco] at h
  | some check_open =>
    simp only [hco, emit_fdll, Option.bind_eq_some] at h
    obtain ⟨c, -, w2, hfin, h⟩ := h
    rw [← Option.some.inj h]
    have k1 : TrampStep w (set_handler_data c.2
        (emit (Event.hook_check_open w.fdll.fd) w)) := TrampStep.of_flags rfl
    have k2 : TrampStep w w2 := by
      split_ifs at hfin with h1
      · exact k1.ttrans (fd_write_ready_retry_tramp hfin)
      · exact k1.ttrans (fd_finish_open_tramp hfin)
    exact k2.then_flags _ rfl

theorem fd_write_ready_user_tramp {u : User} {w w1 : World H}
    (h : fd_write_ready_user u w = some w1) : TrampStep w w1 := by
  unfold fd_write_ready_user at h
  cases hc : w.fdll.cbs with
  | none => simp [hc] at h
  | some cbs =>
    simp only [fd_unlock_fdll, hc] at h
    cases hw : cbs.write_callback with
    | none => simp [hw] at h
    | some f =>
      simp only [hw, Option.bind_eq_some] at h
      obtain ⟨r, hcb, h⟩ := h
      rw [← Option.some.inj h]
      have k1 : TrampStep w r.2 :=
        TrampStep.ttrans (TrampStep.of_flags rfl) (callback_flags hcb).1
      refine k1.then_flags _ ?_
      simp only [fd_lock_fdll, tramp_flags]
      split_ifs <;> rfl

theorem fd_write_ready_tramp {u : User} {sfh : Int} {w w1 : World H}
    (h : fd_write_ready u sfh w = some w1) : TrampStep w w1 := by
  unfold fd_write_ready at h
  have k0 : TrampStep w (emit (Event.set_write_handler (fd_lock w).fdll.fd false)
      (fd_lock w)) := TrampStep.of_flags rfl
  simp only [] at h
  split_ifs at h with hst
  · simp only [Option.bind_eq_some] at h
    obtain ⟨w2, hop, h⟩ := h
    rw [← Option.some.inj h]
    exact (k0.ttrans (fd_write_ready_opening_tramp hop)).then_flags _ rfl
  · simp only [Option.bind_eq_some] at h
    obtain ⟨w2, hop, h⟩ := h
    rw [← Option.some.inj h]
    exact (k0.ttrans (fd_write_ready_user_tramp hop)).then_flags _ rfl

theorem fd_finish_cleared_tramp {u : User} {w w1 : World H}
    (h : fd_finish_cleared u w = some w1) : TrampStep w w1 := by
  unfold fd_finish_cleared at h
  simp only [Option.bind_eq_some] at h
  obtain ⟨w2, hopened, h⟩ := h
  have k0 : TrampStep w (set_fd (-1) (emit (Event.sys_close (fd_lock_and_ref w).fdll.fd)
      (fd_lock_and_ref w))) := TrampStep.of_flags rfl
  have k1 : TrampStep w w2 := by
    cases hod : w.fdll.open_done with
    | none =>
      have hod2 : (set_fd (-1) (emit (Event.sys_close (fd_lock_and_ref w).fdll.fd)
          (fd_lock_and_ref w))).fdll.open_done = none := hod
      simp only [hod2] at hopened
      rw [← Option.some.inj hopened]
      exact k0
    | some f =>
      have hod2 : (set_fd (-1) (emit (Event.sys_close (fd_lock_and_ref w).fdll.fd)
          (fd_lock_and_ref w))).fdll.open_done = some f := hod
      simp only [hod2, Option.bind_eq_some] at hopened
      obtain ⟨r, hcb, hopened⟩ := hopened
      rw [← Option.some.inj hopened]
      exact ((k0.then_flags _ rfl).ttrans (callback_flags hcb).1).then_flags _ rfl
  unfold fd_finish_cleared_close at h
  simp only [Option.bind_eq_some] at h
  obtain ⟨w3, h3, h4⟩ := h
  have k2 : TrampStep w2 w3 := by
    by_cases hp : w2.fdll.deferred_op_pending = true
    · rw [if_pos hp] at h3
      rw [← Option.some.inj h3]
      exact fun _ _ => hp
    · rw [if_neg hp] at h3
      exact TrampStep.of_flags (fd_finish_close_flags h3).1
  exact (k1.ttrans k2).then_flags w1 (fd_deref_and_unlock_flags h4).1

theorem fd_cleared_tramp {u : User} {w w1 : World H}
    (h : fd_cleared u w = some w1) : TrampStep w w1 := by
  unfold fd_cleared at h
  cases hcc : w.fdll.ops.check_close with
  | none =>
    simp only [hcc] at h
    exact fd_finish_cleared_tramp h
  | some cc =>
    simp only [hcc, fd_close_timeout, emit_fdll, Option.bind_eq_some] at h
    obtain ⟨r, -, h⟩ := h
    have k1 : TrampStep w (set_handler_data r.2
        (emit (Event.hook_check_close close_state.GENIO_LL_CLOSE_STATE_DONE) w)) :=
      TrampStep.of_flags rfl
    split_ifs at h
    · rw [← Option.some.inj h]
      exact k1.then_flags _ rfl
    · exact k1.ttrans (fd_finish_cleared_tramp h)

theorem fd_deferred_op_loop_flags (u : User) (fuel : Nat) (w w1 : World H)
    (h : fd_deferred_op_loop u fuel w = some w1) :
    w1.fdll.deferred_read = false ∧ w1.fdll.deferred_close = w.fdll.deferred_close
      ∧ (w.fdll.deferred_op_pending = true →
          w1.fdll.deferred_op_pending = true
          ∧ ((∀ t, ApiCall.free ∉ (u t).calls) → w1.fdll.refcount = w.fdll.refcount)) := by
  induction fuel generalizing w with
  | zero => simp [fd_deferred_op_loop] at h
  | succ n ih =>
    simp only [fd_deferred_op_loop, Option.bind_eq_some] at h
    obtain ⟨wd, hdel, h⟩ := h
    have hwd : wd.fdll.deferred_close = w.fdll.deferred_close
        ∧ (w.fdll.deferred_op_pending = true →
          wd.fdll.deferred_op_pending = true
          ∧ ((∀ t, ApiCall.free ∉ (u t).calls) → wd.fdll.refcount = w.fdll.refcount)) := by
      by_cases hdr : w.fdll.deferred_read = true
      · rw [if_pos hdr] at hdel
        simp only [Option.bind_eq_some] at hdel
        obtain ⟨x, hx, hdel⟩ := hdel
        rw [← Option.some.inj hdel]
        obtain ⟨-, b, c⟩ := fd_deliver_read_data_flags hx
        exact ⟨b, c⟩
      · rw [if_neg hdr] at hdel
        rw [← Option.some.inj hdel]
        exact ⟨rfl, fun hp => ⟨hp, fun _ => rfl⟩⟩
    by_cases hdr : wd.fdll.deferred_read = true
    · rw [if_pos hdr] at h
      obtain ⟨a, b, c⟩ := ih wd h
      refine ⟨a, b.trans hwd.1, fun hp => ?_⟩
      obtain ⟨p1, r1⟩ := hwd.2 hp
      obtain ⟨p2, r2⟩ := c p1
      exact ⟨p2, fun hfree => (r2 hfree).trans (r1 hfree)⟩
    · rw [if_neg hdr] at h
      rw [← Option.some.inj h]
      refine ⟨?_, hwd.1, hwd.2⟩
      cases hx : wd.fdll.deferred_read with
      | false => rfl
      | true => exact absurd hx hdr

theorem fd_deferred_op_ends {u : User} {fuel : Nat} {w w1 : World H}
    (h : fd_deferred_op u fuel w = some w1) :
    w1.fdll.deferred_close = false ∧ w1.fdll.deferred_read = false
      ∧ w1.fdll.deferred_op_pending = false
      ∧ ((∀ t, ApiCall.free ∉ (u t).calls) → w.fdll.deferred_op_pending = true →
          w1.fdll.refcount + 1 = w.fdll.refcount) := by
  simp only [fd_deferred_op, Option.bind_eq_some] at h
  obtain ⟨vc, hc, vl, hl, hf⟩ := h
  have h1 : vc.fdll.deferred_close = false ∧ vc.fdll.deferred_op_pending
      = w.fdll.deferred_op_pending ∧ vc.fdll.refcount = w.fdll.refcount := by
    unfold fd_deferred_op_close at hc
    simp only [] at hc
    by_cases hd : (fd_lock w).fdll.deferred_close = true
    · rw [if_pos hd] at hc
      obtain ⟨a, b⟩ := fd_finish_close_flags hc
      simp only [tramp_flags, Prod.mk.injEq] at a
      exact ⟨a.2.1, a.2.2, b⟩
    · rw [if_neg hd] at hc
      rw [← Option.some.inj hc]
      refine ⟨?_, rfl, rfl⟩
      cases hx : (fd_lock w).fdll.deferred_close with
      | false => rfl
      | true => exact absurd hx hd
  obtain ⟨a2, b2, c2⟩ := fd_deferred_op_loop_flags u fuel vc vl hl
  have h3 : w1.fdll.deferred_close = vl.fdll.deferred_close
      ∧ w1.fdll.deferred_read = vl.fdll.deferred_read
      ∧ w1.fdll.deferred_op_pending = false ∧ w1.fdll.refcount + 1 = vl.fdll.refcount := by
    unfold fd_deferred_op_finish at hf
    simp only [] at hf
    by_cases hst : vl.fdll.state = FD_OPEN
    · have hst2 : ({ vl with fdll := { vl.fdll with deferred_op_pending := false } } :
          World H).fdll.state = FD_OPEN := hst
      rw [if_pos hst2] at hf
      obtain ⟨a, b⟩ := fd_deref_and_unlock_flags hf
      simp only [tramp_flags, Prod.mk.injEq] at a
      exact ⟨a.2.1, a.1, a.2.2, b⟩
    · have hst2 : ¬ ({ vl with fdll := { vl.fdll with deferred_op_pending := false } } :
          World H).fdll.state = FD_OPEN := hst
      rw [if_neg hst2] at hf
      obtain ⟨a, b⟩ := fd_deref_and_unlock_flags hf
      simp only [tramp_flags, Prod.mk.injEq] at a
      exact ⟨a.2.1, a.1, a.2.2, b⟩
  refine ⟨h3.1.trans (b2.trans h1.1), h3.2.1.trans a2, h3.2.2.1, fun hfree hp => ?_⟩
  obtain ⟨-, r⟩ := c2 (h1.2.1.trans hp)
  rw [← h1.2.2, ← r hfree]
  exact h3.2.2.2

theorem fd_close_timeout_tramp {u : User} {w w1 : World H}
    (h : fd_close_timeout u w = some w1) : TrampStep w w1 := by
  unfold fd_close_timeout at h
  cases hcc : w.fdll.ops.check_close with
  | none =>
    simp only [hcc] at h
    exact fd_finish_cleared_tramp h
  | some cc =>
    simp only [hcc, emit_fdll, Option.bind_eq_some] at h
    obtain ⟨r, -, h⟩ := h
    have k1 : TrampStep w (set_handler_data r.2
        (emit (Event.hook_check_close close_state.GENIO_LL_CLOSE_STATE_DONE) w)) :=
      TrampStep.of_flags rfl
    split_ifs at h
    · rw [← Option.some.inj h]
      exact k1.then_flags _ rfl
    · exact k1.ttrans (fd_finish_cleared_tramp h)

theorem fd_deferred_op_returns (u : User) (w : World H)
    (hr : w.fdll.deferred_read = false) (hc : w.fdll.refcount ≠ 0) :
    ∃ w1, fd_deferred_op u 1 w = some w1 := by
  have hclose : ∃ vc, fd_deferred_op_close u w = some vc ∧ vc.fdll.deferred_read = false
      ∧ vc.fdll.refcount ≠ 0 := by
    unfold fd_deferred_op_close
    simp only []
    by_cases hd : (fd_lock w).fdll.deferred_close = true
    · rw [if_pos hd]
      exact ⟨_, rfl, hr, hc⟩
    · rw [if_neg hd]
      exact ⟨_, rfl, hr, hc⟩
  obtain ⟨vc, h1, h2, h3⟩ := hclose
  have hloop : fd_deferred_op_loop u 1 vc = some vc := by
    simp [fd_deferred_op_loop, h2]
  have hderef : ∀ x : World H, x.fdll.refcount ≠ 0 → ∃ w1, fd_deref_and_unlock x = some w1 := by
    intro x hx
    unfold fd_deref_and_unlock
    rw [if_neg hx]
    simp only []
    split_ifs
    · exact ⟨_, rfl⟩
    · exact ⟨_, rfl⟩
  have hfin : ∃ w1, fd_deferred_op_finish vc = some w1 := by
    unfold fd_deferred_op_finish
    simp only []
    split_ifs
    · exact hderef _ h3
    · exact hderef _ h3
  obtain ⟨w1, h4⟩ := hfin
  exact ⟨w1, by simp [fd_deferred_op, h1, hloop, h4]⟩

/-! ### C24 -/

/-- C24: the trampoline bookkeeping. `fd_sched_deferred_op` takes a reference
(modulo the width of `unsigned int`) and arms the runner exactly when
`deferred_op_pending` is false, turning it true, and changes nothing when it is
already true. Every `fd_deferred_op` run that returns leaves `deferred_read`,
`deferred_close` and `deferred_op_pending` all false and, when it was scheduled
(`deferred_op_pending` true) and no callback calls `fd_free`, leaves the
reference count lower by exactly one; with no deferred read waiting and a live
reference it does return. A stream fresh from `fd_genio_ll_alloc` satisfies
"deferred_read or deferred_close implies deferred_op_pending", and every API
call and every event handler takes a stream that satisfies it to one that
satisfies it. -/
theorem trampoline_accounting (u : User) :
    (∀ w : World H,
      (w.fdll.deferred_op_pending = false →
        (fd_sched_deferred_op w).fdll.deferred_op_pending = true
        ∧ (fd_sched_deferred_op w).fdll.refcount = (w.fdll.refcount + 1) % UINT_MOD
        ∧ (fd_sched_deferred_op w).trace = w.trace ++ [Event.run_deferred_op])
      ∧ (w.fdll.deferred_op_pending = true → fd_sched_deferred_op w = w))
    ∧ (∀ (fuel : Nat) (w w1 : World H), fd_deferred_op u fuel w = some w1 →
        tramp_flags w1 = (false, false, false)
        ∧ ((∀ t, ApiCall.free ∉ (u t).calls) → w.fdll.deferred_op_pending = true →
            w1.fdll.refcount + 1 = w.fdll.refcount))
    ∧ (∀ w : World H, w.fdll.deferred_read = false → w.fdll.refcount ≠ 0 →
        ∃ w1, fd_deferred_op u 1 w = some w1)
    ∧ (∀ (a : AllocResults) (fd : Int) (ops : genio_fd_ll_ops H) (hd : H) (m : Nat)
        (w : World H), fd_genio_ll_alloc a fd ops hd m = some w → tramp_inv w)
    ∧ ∀ w w1 : World H, tramp_inv w →
      (∀ c, apiStep c w = some w1 → tramp_inv w1)
      ∧ (∀ fd reads, fd_read_ready u fd reads w = some w1 → tramp_inv w1)
      ∧ (∀ fd recvs reads, fd_except_ready u fd recvs reads w = some w1 → tramp_inv w1)
      ∧ (∀ sfh, fd_write_ready u sfh w = some w1 → tramp_inv w1)
      ∧ (fd_cleared u w = some w1 → tramp_inv w1)
      ∧ (fd_close_timeout u w = some w1 → tramp_inv w1)
      ∧ (∀ fuel, fd_deferred_op u fuel w = some w1 → tramp_inv w1) := by
  refine ⟨?_, ?_, ?_, ?_, ?_⟩
  · intro w
    refine ⟨fun hp => ?_, (fd_sched_deferred_op_spec w).2⟩
    obtain ⟨a, b, -, -, e⟩ := (fd_sched_deferred_op_spec w).1 hp
    exact ⟨a, b, e⟩
  · intro fuel w w1 h
    obtain ⟨a, b, c, d⟩ := fd_deferred_op_ends h
    refine ⟨?_, d⟩
    simp only [tramp_flags, a, b, c]
  · intro w hr hc
    exact fd_deferred_op_returns u w hr hc
  · intro a fd ops hd m w h
    unfold fd_genio_ll_alloc at h
    simp only [fd_setup_handlers, emit] at h
    split_ifs at h <;> simp at h <;> subst h <;> simp [tramp_inv]
  · intro w w1 hi
    refine ⟨?_, ?_, ?_, ?_, ?_, ?_, ?_⟩
    · intro c h
      exact (apiStep_flags h).1 hi
    · intro fd reads h
      exact fd_handle_incoming_tramp h hi
    · intro fd recvs reads h
      exact fd_handle_incoming_tramp h hi
    · intro sfh h
      exact fd_write_ready_tramp h hi
    · intro h
      exact fd_cleared_tramp h hi
    · intro h
      exact fd_close_timeout_tramp h hi
    · intro fuel h
      obtain ⟨a, b, c, -⟩ := fd_deferred_op_ends h
      intro hx
      rcases hx with hx | hx
      · rw [b] at hx
        cases hx
      · rw [a] at hx
        cases hx

theorem trampoline_accounting_witness :
    (∃ w1, fd_deferred_op ex_user_two 1 ex_cdef_deferred = some w1
      ∧ tramp_flags w1 = (false, false, false)
      ∧ w1.fdll.refcount + 1 = ex_cdef_deferred.fdll.refcount)
    ∧ tramp_inv ex_cdef_deferred
    ∧ ∃ w2, fd_read_ready ex_user_two 5 [ReadRes.ok [97, 98, 99, 100, 101, 102] 0]
        ex_open_reading = some w2 ∧ tramp_inv w2 :=
  have hfree : ∀ t, ApiCall.free ∉ (ex_user_two t).calls := fun _ hx => by cases hx
  have hinv : tramp_inv ex_open_reading := fun _ => by
    rename_i hx
    rcases hx with hx | hx <;> cases hx
  ⟨⟨_, rfl,
      ((@trampoline_accounting Unit ex_user_two).2.1 1 ex_cdef_deferred _ rfl).1,
      ((@trampoline_accounting Unit ex_user_two).2.1 1 ex_cdef_deferred _ rfl).2 hfree rfl⟩,
    fun _ => rfl,
    _, rfl,
    ((@trampoline_accounting Unit ex_user_two).2.2.2.2 ex_open_reading _ hinv).2.1 5
      [ReadRes.ok [97, 98, 99, 100, 101, 102] 0] rfl⟩

end Genio
